import Mathlib

/-!
Rate-limited file copy: `copy2.cpp` and `file_copy.cpp`

A shallow embedding of the two copy utilities and the properties of their
copy loops and throttling rules.

Modelling conventions.

* File contents are lists of bytes; a stream is a record holding the bytes,
  the position and the iostate bits that the C++ code inspects.
* A `double` is NaN, an infinity or a rational (`Dbl`).  Every arithmetic
  operation and every conversion from an integer rounds its exact result to
  binary64 (53 bits, round to nearest, ties to even, gradual underflow,
  overflow to infinity): `Dbl.round64`.  Signed zeros are not modelled.  The
  speed that copy2.cpp prints is only displayed; it is kept as the exact
  quotient.
* `std::chrono::steady_clock` is a monotone counter of nanoseconds.  The time
  that passes between two consecutive clock readings is supplied by an
  environment (`Env`); a sleep lasts the requested time plus a non-negative
  overshoot chosen by the environment.
* A conversion from `double` to an integer type whose operand is out of the
  range of the target type has no defined result in C++; the value produced
  there is a parameter of the environment.
* Loops are total functions, defined by recursion on the number of bytes the
  source can still deliver.  The allocation of the buffer is taken to succeed.
-/

namespace FileCopy

/-! ## Doubles -/

/-- A `double`: NaN, an infinity, or a finite value given as a rational. -/
inductive Dbl where
  | nan
  | negInf
  | posInf
  | fin (q : ℚ)
deriving DecidableEq

namespace Dbl

/-- The integer nearest to a rational, ties to the even integer. -/
def roundHalfEven (y : ℚ) : ℤ :=
  if y - ⌊y⌋ < 1 / 2 then ⌊y⌋
  else if 1 / 2 < y - ⌊y⌋ then ⌊y⌋ + 1
  else if ⌊y⌋ % 2 = 0 then ⌊y⌋ else ⌊y⌋ + 1

/-- Spacing of the binary64 numbers around `x`: `2 ^ (e - 52)` when
`2 ^ e ≤ |x| < 2 ^ (e + 1)`, and `2 ^ (-1074)` below the normal range. -/
def quantum (x : ℚ) : ℚ := (2 : ℚ) ^ (max (Int.log 2 |x|) (-1022) - 52)

/-- Rounding of an exact result to binary64: the nearest multiple of the
spacing, ties to the even significand; a magnitude of `2 ^ 1024` or more
overflows to the infinity. -/
def round64 (x : ℚ) : Dbl :=
  if (2 : ℚ) ^ (1024 : ℕ) ≤ roundHalfEven (x / quantum x) * quantum x then posInf
  else if (roundHalfEven (x / quantum x) * quantum x : ℚ) ≤ -(2 : ℚ) ^ (1024 : ℕ) then negInf
  else fin (roundHalfEven (x / quantum x) * quantum x)

/-- Conversion of an unsigned integer to `double`. -/
def ofNat (n : Nat) : Dbl := round64 n

/-- Sign of a rational as an infinity (`0` counts as positive zero). -/
def infOfSign (neg : Bool) : Dbl := if neg then negInf else posInf

/-- IEEE multiplication. -/
def mul : Dbl → Dbl → Dbl
  | nan, _ => nan
  | _, nan => nan
  | fin a, fin b => round64 (a * b)
  | posInf, posInf => posInf
  | negInf, negInf => posInf
  | posInf, negInf => negInf
  | negInf, posInf => negInf
  | posInf, fin b => if b = 0 then nan else infOfSign (decide (b < 0))
  | negInf, fin b => if b = 0 then nan else infOfSign (decide (0 < b))
  | fin a, posInf => if a = 0 then nan else infOfSign (decide (a < 0))
  | fin a, negInf => if a = 0 then nan else infOfSign (decide (0 < a))

/-- IEEE division. -/
def div : Dbl → Dbl → Dbl
  | nan, _ => nan
  | _, nan => nan
  | fin a, fin b =>
      if b = 0 then (if a = 0 then nan else infOfSign (decide (a < 0))) else round64 (a / b)
  | fin _, posInf => fin 0
  | fin _, negInf => fin 0
  | posInf, fin b => infOfSign (decide (b < 0))
  | negInf, fin b => infOfSign (decide (0 ≤ b))
  | posInf, posInf => nan
  | posInf, negInf => nan
  | negInf, posInf => nan
  | negInf, negInf => nan

/-- IEEE subtraction. -/
def sub : Dbl → Dbl → Dbl
  | nan, _ => nan
  | _, nan => nan
  | fin a, fin b => round64 (a - b)
  | fin _, posInf => negInf
  | fin _, negInf => posInf
  | posInf, fin _ => posInf
  | negInf, fin _ => negInf
  | posInf, negInf => posInf
  | negInf, posInf => negInf
  | posInf, posInf => nan
  | negInf, negInf => nan

/-- The comparison `x < y`; false as soon as an operand is NaN. -/
def lt : Dbl → Dbl → Bool
  | nan, _ => false
  | _, nan => false
  | fin a, fin b => decide (a < b)
  | fin _, posInf => true
  | fin _, negInf => false
  | posInf, _ => false
  | negInf, negInf => false
  | negInf, _ => true

/-- The comparison `x <= y`; false as soon as an operand is NaN. -/
def le : Dbl → Dbl → Bool
  | nan, _ => false
  | _, nan => false
  | fin a, fin b => decide (a ≤ b)
  | fin _, posInf => true
  | fin _, negInf => false
  | posInf, posInf => true
  | posInf, _ => false
  | negInf, _ => true

/-- Truncation toward zero of a rational. -/
def trunc (x : ℚ) : Int := if 0 ≤ x then ⌊x⌋ else ⌈x⌉

/-- The conversion `static_cast<DWORD>(x)` (32-bit unsigned).  Defined by the
language when the truncated value fits; otherwise the platform value `oor`
reduced to 32 bits. -/
def toDWORD (oor : Dbl → Nat) : Dbl → Nat
  | fin x => if -1 < x ∧ x < 4294967296 then (trunc x).toNat else oor (fin x) % 4294967296
  | d => oor d % 4294967296

/-- The conversion `static_cast<int>(x)` (32-bit signed).  Defined by the
language when the truncated value fits; otherwise the platform value `oor`
wrapped to 32 bits. -/
def toInt32 (oor : Dbl → Nat) : Dbl → Int
  | fin x =>
      if -2147483649 < x ∧ x < 2147483648 then trunc x
      else ((oor (fin x) : Int) + 2147483648) % 4294967296 - 2147483648
  | d => ((oor d : Int) + 2147483648) % 4294967296 - 2147483648

end Dbl

/-! ## Streams -/

abbrev Byte := Nat

/-- State of a `std::ifstream` opened in binary mode on a file with contents
`data`.  `faultAt = some f` is a device that fails when byte `f` is requested. -/
structure IStream where
  data : List Byte
  pos : Nat
  faultAt : Option Nat
  eofbit : Bool
  failbit : Bool
  badbit : Bool
  gcount : Nat
deriving DecidableEq

namespace IStream

/-- A freshly opened stream. -/
def opened (data : List Byte) (faultAt : Option Nat) : IStream :=
  { data := data, pos := 0, faultAt := faultAt,
    eofbit := false, failbit := false, badbit := false, gcount := 0 }

/-- The member `good()`. -/
def good (s : IStream) : Bool := !(s.eofbit || s.failbit || s.badbit)

/-- The conversion to `bool`, that is `!fail()`. -/
def ok (s : IStream) : Bool := !(s.failbit || s.badbit)

/-- Offset at which extraction stops: end of file or the faulty byte. -/
def limit (s : IStream) : Nat :=
  match s.faultAt with
  | some f => min s.data.length f
  | none => s.data.length

/-- Whether extraction at offset `limit` stops on a device fault. -/
def faultsAtLimit (s : IStream) : Bool :=
  match s.faultAt with
  | some f => decide (f < s.data.length)
  | none => false

/-- The member `read(buffer, n)`: the new stream state and the bytes stored in
the buffer.  On a stream that is not good nothing is extracted and failbit is
set; a short read sets eofbit and failbit (end of file) or badbit (fault). -/
def read (s : IStream) (n : Nat) : IStream × List Byte :=
  if s.good then
    let count := min n (s.limit - s.pos)
    let short := decide (count < n)
    ({ s with
        pos := s.pos + count
        gcount := count
        eofbit := short && !s.faultsAtLimit
        failbit := short && !s.faultsAtLimit
        badbit := short && s.faultsAtLimit },
     (s.data.drop s.pos).take count)
  else
    ({ s with failbit := true, gcount := 0 }, [])

end IStream

/-- State of a `std::ofstream`: the bytes accepted so far, the number of bytes
the device still accepts (`none`: no limit), and the error state. -/
structure OStream where
  written : List Byte
  room : Option Nat
  bad : Bool
deriving DecidableEq

namespace OStream

/-- A freshly opened (truncated) stream. -/
def opened (room : Option Nat) : OStream := { written := [], room := room, bad := false }

/-- The member `write(buffer, count)`. -/
def write (o : OStream) (buf : List Byte) : OStream :=
  if o.bad then o
  else
    match o.room with
    | none => { o with written := o.written ++ buf }
    | some r =>
        if buf.length ≤ r then { o with written := o.written ++ buf, room := some (r - buf.length) }
        else { written := o.written ++ buf.take r, room := some 0, bad := true }

end OStream

/-! ## Environment -/

/-- What the code cannot control: the time between clock readings, faults of
the devices, and the result of out-of-range conversions. -/
structure Env where
  /-- Nanoseconds between the reading at the start of iteration `i` and the
  reading after the write. -/
  rw : Nat → Nat
  /-- Nanoseconds between the reading after the write and the next reading, on
  top of the requested sleep. -/
  over : Nat → Nat
  /-- Nanoseconds for the output of iteration `i` and the jump back. -/
  post : Nat → Nat
  /-- Nanoseconds between taking the start time and entering the loop. -/
  setup : Nat
  /-- Offset of the source byte at which the device faults. -/
  readFault : Option Nat
  /-- Number of bytes the destination device accepts. -/
  writeRoom : Option Nat
  /-- Result of an out-of-range conversion from `double`. -/
  castOutOfRange : Dbl → Nat

/-- The time in seconds between two readings of the clock, as an exact
number. -/
def seconds (t0 t1 : Nat) : ℚ := ((t1 : ℚ) - (t0 : ℚ)) / 1000000000

/-- The value `duration<double>(t1 - t0).count()` for two readings of the
clock with `t0 ≤ t1`: the count of nanoseconds converted to `double` and
divided by `1e9`. -/
def duration_seconds (t0 t1 : Nat) : Dbl :=
  Dbl.div (Dbl.ofNat (t1 - t0)) (Dbl.fin 1000000000)

/-! ## File system -/

/-- The part of the file system the programs touch: the contents of each
existing file, and whether a path can be opened for reading or for writing. -/
structure FileSys where
  files : String → Option (List Byte)
  canRead : String → Bool
  canWrite : String → Bool

namespace FileSys

/-- Whether `std::ifstream(path, binary)` opens. -/
def opensForReading (fs : FileSys) (path : String) : Bool :=
  (fs.files path).isSome && fs.canRead path

/-- The file system after `path` received the contents `bytes`. -/
def put (fs : FileSys) (path : String) (bytes : List Byte) : FileSys :=
  { fs with files := fun q => if q = path then some bytes else fs.files q }

/-- Contents seen by a reader of `path`. -/
def contents (fs : FileSys) (path : String) : List Byte := (fs.files path).getD []

end FileSys

/-- The chunk sizes in the words of the specification: full chunks of `B`
bytes, then the remainder when `B` does not divide `T`. -/
def chunk_sizes (T B : Nat) : List Nat :=
  List.replicate (T / B) B ++ (if T % B = 0 then [] else [T % B])

/-! ## copy2.cpp -/

namespace Copy2

/-- The exceptions thrown by `copy_file_with_rate`. -/
inductive CopyError where
  | open_source
  | create_destination
  | write_failed (copied : Nat)
deriving DecidableEq

/-- What one iteration that transferred a chunk did and printed. -/
structure ChunkRecord where
  /-- Bytes read in the chunk. -/
  count : Nat
  /-- Cumulative bytes after the chunk. -/
  copied : Nat
  /-- Clock reading at the top of the iteration. -/
  chunk_start : Nat
  /-- Clock reading after the write. -/
  current_time : Nat
  /-- Argument of the call of Sleep in milliseconds, when it is called. -/
  sleep_ms : Option Nat
  /-- Clock reading taken for the chunk duration. -/
  end_time : Nat
  /-- The speed in MB/s that is printed. -/
  speed : ℚ
deriving DecidableEq

/-- Variables of the loop. -/
structure LoopState where
  inp : IStream
  out : OStream
  copied : Nat
  clock : Nat
  iter : Nat

/-- How the loop ended. -/
structure LoopResult where
  thrown : Option CopyError
  final : LoopState
  log : List ChunkRecord

/-- The throttle step (lines 56-64): the argument of Sleep in milliseconds, or
`none` when Sleep is not called. -/
def throttle (oor : Dbl → Nat) (max_speed : Dbl) (copied : Nat) (elapsed : Dbl) : Option Nat :=
  let expected_time := Dbl.div (Dbl.ofNat copied) max_speed
  if Dbl.lt elapsed expected_time then
    let sleep_ms := Dbl.toDWORD oor (Dbl.mul (Dbl.sub expected_time elapsed) (Dbl.fin 1000))
    some (min sleep_ms 1000)
  else
    none

/-- The speed that is printed (line 68), as the exact quotient. -/
def chunk_speed (count : Nat) (chunk_duration : ℚ) : ℚ :=
  ((count : ℚ) / (1024 * 1024)) / max chunk_duration (1 / 1000)

/-- The rest of an iteration once `count` bytes were read and written
(lines 53-70), from the value of `copied` before the chunk and the clock at
the top of iteration number `iter`: the record of the iteration and the clock
at its end. -/
def after_write (env : Env) (max_speed : Dbl) (start_time : Nat)
    (copied_before chunk_start iter count : Nat) : ChunkRecord × Nat :=
  let copied := copied_before + count
  let current_time := chunk_start + env.rw iter
  let elapsed := duration_seconds start_time current_time
  let sleep := throttle env.castOutOfRange max_speed copied elapsed
  let end_time := current_time + sleep.getD 0 * 1000000 + env.over iter
  let chunk_duration := seconds chunk_start end_time
  ({ count := count, copied := copied, chunk_start := chunk_start,
     current_time := current_time, sleep_ms := sleep, end_time := end_time,
     speed := chunk_speed count chunk_duration },
   end_time + env.post iter)

/-- The loop `while (true)` of `copy_file_with_rate` (lines 35-71). -/
def copy_loop (env : Env) (max_speed : Dbl) (buffer_size start_time : Nat)
    (st : LoopState) : LoopResult :=
  let r := st.inp.read buffer_size
  let count := r.1.gcount
  if hcount : count = 0 then
    { thrown := none, final := { st with inp := r.1 }, log := [] }
  else
    let out := st.out.write r.2
    if out.bad then
      { thrown := some (CopyError.write_failed st.copied),
        final := { st with inp := r.1, out := out }, log := [] }
    else
      let step := after_write env max_speed start_time st.copied st.clock st.iter count
      let rest := copy_loop env max_speed buffer_size start_time
        { inp := r.1, out := out, copied := st.copied + count, clock := step.2,
          iter := st.iter + 1 }
      { rest with log := step.1 :: rest.log }
termination_by st.inp.limit - st.inp.pos
decreasing_by
  have h0 : ¬ (st.inp.read buffer_size).1.gcount = 0 := hcount
  show (st.inp.read buffer_size).1.limit - (st.inp.read buffer_size).1.pos < _
  generalize st.inp = s at h0 ⊢
  rcases s with ⟨data, pos, faultAt, eofbit, failbit, badbit, gcount⟩
  by_cases hg : (eofbit || failbit || badbit) = true
  · simp [IStream.read, IStream.good, hg] at h0
  · simp only [IStream.read, IStream.good, hg, IStream.limit] at h0 ⊢
    simp at h0 ⊢
    omega

/-- The variables after an iteration that transferred a chunk (the argument of
the recursive call of `copy_loop`). -/
def next_state (env : Env) (max_speed : Dbl) (buffer_size start_time : Nat)
    (st : LoopState) : LoopState :=
  { inp := (st.inp.read buffer_size).1, out := st.out.write (st.inp.read buffer_size).2,
    copied := st.copied + (st.inp.read buffer_size).1.gcount,
    clock := (after_write env max_speed start_time st.copied st.clock st.iter
      (st.inp.read buffer_size).1.gcount).2,
    iter := st.iter + 1 }

/-- The records of the iterations that transfer chunks of the given sizes one
after the other, starting from the given values of `copied`, of the clock and
of the iteration number. -/
def timeline (env : Env) (max_speed : Dbl) (start_time : Nat) :
    Nat → Nat → Nat → List Nat → List ChunkRecord
  | _, _, _, [] => []
  | copied, clock, iter, count :: rest =>
    (after_write env max_speed start_time copied clock iter count).1 ::
      timeline env max_speed start_time (copied + count)
        (after_write env max_speed start_time copied clock iter count).2 (iter + 1) rest

/-- The variables on entry of the loop (lines 20-31) for a source with
contents `data`. -/
def start_state (env : Env) (start_time : Nat) (data : List Byte) : LoopState :=
  { inp := IStream.opened data env.readFault,
    out := OStream.opened env.writeRoom,
    copied := 0, clock := start_time + env.setup, iter := 0 }

/-- Outcome of `copy_file_with_rate`: the value returned or the exception
thrown, the file system afterwards, and what the loop did. -/
structure CopyResult where
  value : Except CopyError Bool
  fs : FileSys
  log : List ChunkRecord

/-- The function `copy_file_with_rate` (lines 16-82).  Both streams are
constructed before either is tested, so the destination is already created or
truncated when the source turns out not to be open. -/
def copy_file_with_rate (env : Env) (start_time : Nat) (fs : FileSys) (src dst : String)
    (max_speed_mbps : Dbl) (buffer_size : Nat) : CopyResult :=
  let in_open := fs.opensForReading src
  let out_open := fs.canWrite dst
  let fs1 := if out_open then fs.put dst [] else fs
  if !in_open then
    { value := Except.error CopyError.open_source, fs := fs1, log := [] }
  else if !out_open then
    { value := Except.error CopyError.create_destination, fs := fs1, log := [] }
  else
    let max_speed := Dbl.mul (Dbl.mul max_speed_mbps (Dbl.fin 1024)) (Dbl.fin 1024)
    let res := copy_loop env max_speed buffer_size start_time
      (start_state env start_time (fs1.contents src))
    { value := match res.thrown with
        | some e => Except.error e
        | none => Except.ok true,
      fs := fs1.put dst res.final.out.written,
      log := res.log }

/-- The exceptions caught in `main`. -/
inductive MainException where
  | invalid_argument
  | runtime (e : CopyError)
deriving DecidableEq

/-- Outcome of `main`: the exit code, the exception caught, the arguments of
the call of `copy_file_with_rate` when it is made, and the file system. -/
structure MainResult where
  exit_code : Int
  caught : Option MainException
  called : Option (String × String × Dbl × Nat)
  fs : FileSys
  log : List ChunkRecord

/-- The rate argument as parsed on line 110. -/
def parse_rate (wcstod : String → Dbl) (wargv : List String) : Dbl :=
  if wargv.length ≥ 4 then wcstod (wargv.getD 3 "") else Dbl.fin 50

/-- The buffer size in bytes as computed on line 111, in arithmetic of
`size_t` with `size_bits` bits. -/
def parse_buffer (wcstoull : String → Nat) (size_bits : Nat) (wargv : List String) : Nat :=
  if wargv.length ≥ 5 then
    (wcstoull (wargv.getD 4 "") % 2 ^ size_bits * 1024 % 2 ^ size_bits) * 1024 % 2 ^ size_bits
  else 1024 * 1024

/-- The test of line 113. -/
def rejects (rate : Dbl) (buffer : Nat) : Bool :=
  Dbl.le rate (Dbl.fin 0) || decide (buffer < 4096)

/-- The function `main` of copy2.cpp (lines 84-136).  `wargv` is the result of
`CommandLineToArgvW` (`none` for a null pointer); the two parsing functions of
the C library are parameters. -/
def main (wcstod : String → Dbl) (wcstoull : String → Nat) (size_bits : Nat)
    (env : Env) (start_time : Nat) (fs : FileSys) (wargv : Option (List String)) : MainResult :=
  match wargv with
  | none => { exit_code := 1, caught := none, called := none, fs := fs, log := [] }
  | some args =>
    if args.length < 3 then
      { exit_code := 1, caught := none, called := none, fs := fs, log := [] }
    else
      let src := args.getD 1 ""
      let dst := args.getD 2 ""
      let rate := parse_rate wcstod args
      let buffer := parse_buffer wcstoull size_bits args
      if rejects rate buffer then
        { exit_code := 2, caught := some MainException.invalid_argument,
          called := none, fs := fs, log := [] }
      else
        let res := copy_file_with_rate env start_time fs src dst rate buffer
        match res.value with
        | Except.error e =>
          { exit_code := 2, caught := some (MainException.runtime e),
            called := some (src, dst, rate, buffer), fs := res.fs, log := res.log }
        | Except.ok _ =>
          { exit_code := 0, caught := none,
            called := some (src, dst, rate, buffer), fs := res.fs, log := res.log }

end Copy2
/-! ## file_copy.cpp -/

namespace FileCopyCpp

/-- The constant `BUFFER_SIZE` (line 133). -/
def BUFFER_SIZE : Nat := 1024 * 1024

/-- What the speed limit of one iteration evaluated (lines 161-172). -/
structure Throttle where
  /-- The value `duration.count()`, in microseconds. -/
  duration_us : Nat
  /-- The value of `ideal_time`, whose computation divides by the ceiling. -/
  ideal_time : Dbl
  /-- Argument of the call of `sleep_for` in microseconds, when it is called. -/
  sleep_us : Option Int
deriving DecidableEq

/-- What one iteration that transferred a chunk did. -/
structure ChunkRecord where
  bytes_read : Nat
  total_bytes_copied : Nat
  /-- Clock reading at the top of the iteration. -/
  start_time : Nat
  /-- Clock reading after the write and the progress bar. -/
  end_time : Nat
  /-- The fraction passed to `show_progress`, unless in silent mode. -/
  progress : Option Dbl
  /-- The speed limit block, when it is entered. -/
  throttle : Option Throttle
  /-- Nanoseconds requested from `sleep_for` in this iteration. -/
  slept_ns : Nat
deriving DecidableEq

/-- Variables of the copy loop. -/
structure LoopState where
  source : IStream
  dest : OStream
  total_bytes_copied : Nat
  clock : Nat
  iter : Nat

/-- How the loop ended. -/
structure LoopResult where
  final : LoopState
  log : List ChunkRecord

/-- The speed limit block (lines 161-172), entered when `max_speed > 0`;
`duration_ns` is `end_time - start_time`. -/
def speed_limit (oor : Dbl → Nat) (max_speed : Dbl) (bytes_read duration_ns : Nat) : Throttle :=
  let duration : Nat := duration_ns / 1000
  let ideal_time :=
    Dbl.mul
      (Dbl.div (Dbl.ofNat bytes_read)
        (Dbl.mul (Dbl.mul max_speed (Dbl.fin 1024)) (Dbl.fin 1024)))
      (Dbl.fin 1000000)
  { duration_us := duration,
    ideal_time := ideal_time,
    sleep_us :=
      if Dbl.lt (Dbl.ofNat duration) ideal_time then
        some (Dbl.toInt32 oor (Dbl.sub ideal_time (Dbl.ofNat duration)))
      else none }

/-- The body of `if (bytes_read > 0)` after the write (lines 149-173), from the
value of `total_bytes_copied` before the chunk and the clock at the top of
iteration number `iter`: the record of the iteration and the clock at its
end. -/
def transfer (env : Env) (silent_mode : Bool) (max_speed : Dbl) (total_size : Nat)
    (copied_before start_time iter bytes_read : Nat) : ChunkRecord × Nat :=
  let total_bytes_copied := copied_before + bytes_read
  let progress :=
    if silent_mode then none
    else some (Dbl.div (Dbl.ofNat total_bytes_copied) (Dbl.ofNat total_size))
  let end_time := start_time + env.rw iter
  let throttle :=
    if Dbl.lt (Dbl.fin 0) max_speed then
      some (speed_limit env.castOutOfRange max_speed bytes_read (end_time - start_time))
    else none
  let slept_ns : Nat :=
    match throttle with
    | some t => (t.sleep_us.getD 0).toNat * 1000
    | none => 0
  ({ bytes_read := bytes_read, total_bytes_copied := total_bytes_copied,
     start_time := start_time, end_time := end_time, progress := progress,
     throttle := throttle, slept_ns := slept_ns },
   end_time + slept_ns + env.over iter + env.post iter)

/-- The loop `while (source)` of `main` (lines 139-175). -/
def copy_loop (env : Env) (silent_mode : Bool) (max_speed : Dbl) (total_size : Nat)
    (st : LoopState) : LoopResult :=
  if h : st.source.ok then
    let r := st.source.read BUFFER_SIZE
    let bytes_read := r.1.gcount
    if bytes_read > 0 then
      let dest := st.dest.write r.2
      let step := transfer env silent_mode max_speed total_size
        st.total_bytes_copied st.clock st.iter bytes_read
      let rest := copy_loop env silent_mode max_speed total_size
        { source := r.1, dest := dest, total_bytes_copied := st.total_bytes_copied + bytes_read,
          clock := step.2, iter := st.iter + 1 }
      { rest with log := step.1 :: rest.log }
    else
      copy_loop env silent_mode max_speed total_size
        { st with source := r.1, clock := st.clock + env.post st.iter, iter := st.iter + 1 }
  else
    { final := st, log := [] }
termination_by 2 * (st.source.limit - st.source.pos) + (if st.source.ok then 1 else 0)
decreasing_by
  all_goals
    show 2 * ((st.source.read BUFFER_SIZE).1.limit - (st.source.read BUFFER_SIZE).1.pos)
        + (if (st.source.read BUFFER_SIZE).1.ok = true then 1 else 0) < _
    generalize st.source = s at h ⊢
    rcases s with ⟨data, pos, faultAt, eofbit, failbit, badbit, gcount⟩
    simp only [IStream.ok, Bool.not_eq_true', Bool.or_eq_false_iff] at h
    obtain ⟨h1, h2⟩ := h
    subst h1 h2
    cases eofbit
    · simp only [IStream.read, IStream.good, IStream.limit, IStream.ok, IStream.faultsAtLimit,
        BUFFER_SIZE]
      simp only [Bool.or_self, Bool.not_false, if_true]
      cases faultAt with
      | none =>
        simp only [Bool.not_false, Bool.and_true, Bool.and_false, Bool.or_false,
          Bool.not_eq_true', decide_eq_false_iff_not]
        split <;> simp at * <;> omega
      | some f =>
        simp only
        by_cases hf : f < data.length <;> simp [hf] <;> split <;> simp at * <;> omega
    · simp [IStream.read, IStream.good, IStream.limit, IStream.ok]

/-- The variables after an iteration that transferred a chunk (the argument of
the first recursive call of `copy_loop`). -/
def next_state (env : Env) (silent_mode : Bool) (max_speed : Dbl) (total_size : Nat)
    (st : LoopState) : LoopState :=
  { source := (st.source.read BUFFER_SIZE).1,
    dest := st.dest.write (st.source.read BUFFER_SIZE).2,
    total_bytes_copied := st.total_bytes_copied + (st.source.read BUFFER_SIZE).1.gcount,
    clock := (transfer env silent_mode max_speed total_size st.total_bytes_copied st.clock
      st.iter (st.source.read BUFFER_SIZE).1.gcount).2,
    iter := st.iter + 1 }

/-- The records of the iterations that transfer chunks of the given sizes one
after the other, starting from the given values of `total_bytes_copied`, of
the clock and of the iteration number. -/
def timeline (env : Env) (silent_mode : Bool) (max_speed : Dbl) (total_size : Nat) :
    Nat → Nat → Nat → List Nat → List ChunkRecord
  | _, _, _, [] => []
  | copied, clock, iter, n :: rest =>
    (transfer env silent_mode max_speed total_size copied clock iter n).1 ::
      timeline env silent_mode max_speed total_size (copied + n)
        (transfer env silent_mode max_speed total_size copied clock iter n).2 (iter + 1) rest

/-- The variables on entry of the loop (lines 106-135) for a source with
contents `data`. -/
def start_state (env : Env) (start_time : Nat) (data : List Byte) : LoopState :=
  { source := IStream.opened data env.readFault,
    dest := OStream.opened env.writeRoom,
    total_bytes_copied := 0, clock := start_time, iter := 0 }

/-- The options read by the argument loop (lines 61-87) and the arguments
that follow them. -/
structure Options where
  silent_mode : Bool
  max_speed : Dbl
  rest : List String

/-- The argument loop of `main` (lines 66-87) on the arguments from
`source_index` on; `none` when an option is not recognised (return 1). -/
def parse_options (stod : String → Dbl) (silent_mode : Bool) (max_speed : Dbl) :
    List String → Option Options
  | [] => some { silent_mode := silent_mode, max_speed := max_speed, rest := [] }
  | [arg] =>
    if arg.toList.head? = some '-' then
      if arg = "-x" then some { silent_mode := true, max_speed := max_speed, rest := [] }
      else none
    else some { silent_mode := silent_mode, max_speed := max_speed, rest := [arg] }
  | arg :: value :: rest =>
    if arg.toList.head? = some '-' then
      if arg = "-x" then parse_options stod true max_speed (value :: rest)
      else if arg = "-M" then parse_options stod silent_mode (stod value) rest
      else none
    else some { silent_mode := silent_mode, max_speed := max_speed, rest := arg :: value :: rest }

/-- Outcome of `main`: the exit code, the file system afterwards and what the
loop did. -/
structure MainResult where
  exit_code : Int
  fs : FileSys
  log : List ChunkRecord

/-- The function `main` of file_copy.cpp (lines 56-207).  `stod` is the parsing
function of the library, taken as total: an argument of `-M` that `std::stod`
rejects ends the program by an exception before any file is opened.  The
source is opened and tested before the destination is created. -/
def main (stod : String → Dbl) (env : Env) (start_time : Nat) (fs : FileSys)
    (argv : List String) : MainResult :=
  match parse_options stod false (Dbl.fin (-1)) argv.tail with
  | none => { exit_code := 1, fs := fs, log := [] }
  | some opts =>
    match opts.rest with
    | [source_path, dest_path] =>
      if !fs.opensForReading source_path then
        { exit_code := 1, fs := fs, log := [] }
      else
        let total_size := (fs.contents source_path).length
        if !fs.canWrite dest_path then
          { exit_code := 1, fs := fs, log := [] }
        else
          let fs1 := fs.put dest_path []
          let res := copy_loop env opts.silent_mode opts.max_speed total_size
            (start_state env start_time (fs1.contents source_path))
          { exit_code := if res.final.dest.bad then 1 else 0,
            fs := fs1.put dest_path res.final.dest.written,
            log := res.log }
    | _ => { exit_code := 1, fs := fs, log := [] }

end FileCopyCpp

/-! ## Inputs used in the examples -/

/-- An environment without faults in which reading and writing a chunk takes
one millisecond and nothing else takes time. -/
def steadyEnv : Env :=
  { rw := fun _ => 1000000, over := fun _ => 0, post := fun _ => 0, setup := 0,
    readFault := none, writeRoom := none, castOutOfRange := fun _ => 0 }

/-- As `steadyEnv`, with a source device that fails when the byte at offset 1
is requested. -/
def faultyEnv : Env :=
  { rw := fun _ => 1000000, over := fun _ => 0, post := fun _ => 0, setup := 0,
    readFault := some 1, writeRoom := none, castOutOfRange := fun _ => 0 }

/-- An environment without faults in which the first chunk takes five seconds
to read and write and every later chunk a tenth of a second. -/
def slowFirstEnv : Env :=
  { rw := fun i => if i = 0 then 5000000000 else 100000000,
    over := fun _ => 0, post := fun _ => 0, setup := 0,
    readFault := none, writeRoom := none, castOutOfRange := fun _ => 0 }

/-- An environment without faults in which reading and writing a chunk takes
two milliseconds and nothing else takes time. -/
def twoMsEnv : Env :=
  { rw := fun _ => 2000000, over := fun _ => 0, post := fun _ => 0, setup := 0,
    readFault := none, writeRoom := none, castOutOfRange := fun _ => 0 }

/-- A file system holding one three-byte file. -/
def smallFs : FileSys :=
  { files := fun p => if p = "source.bin" then some [1, 2, 3] else none,
    canRead := fun _ => true, canWrite := fun _ => true }

/-- A file contents of `n` zero bytes. -/
def zeroBytes (n : Nat) : List Byte := List.replicate n 0

/-- A file system holding one file of 4 MiB. -/
def largeFs : FileSys :=
  { files := fun p => if p = "source.bin" then some (zeroBytes 4194304) else none,
    canRead := fun _ => true, canWrite := fun _ => true }

/-- A file system holding one file of 6 MiB. -/
def sixMibFs : FileSys :=
  { files := fun p => if p = "source.bin" then some (zeroBytes 6291456) else none,
    canRead := fun _ => true, canWrite := fun _ => true }

/-- A file system holding one file of 10 MiB. -/
def scenarioFs : FileSys :=
  { files := fun p => if p = "source.bin" then some (zeroBytes 10485760) else none,
    canRead := fun _ => true, canWrite := fun _ => true }

/-- A file system holding one file of 2 MiB. -/
def twoChunkFs : FileSys :=
  { files := fun p => if p = "source.bin" then some (zeroBytes 2097152) else none,
    canRead := fun _ => true, canWrite := fun _ => true }

/-- A file system holding one file, at the destination path. -/
def existingCopyFs : FileSys :=
  { files := fun p => if p = "copy.bin" then some [7, 8, 9] else none,
    canRead := fun _ => true, canWrite := fun _ => true }

/-- A `wcstod` or `stod` that knows the spellings used in the examples. -/
def wcstodSample (s : String) : Dbl :=
  if s = "nan" then Dbl.nan else if s = "1" then Dbl.fin 1 else Dbl.fin 0

/-- A `wcstoull` that knows the spellings used in the examples. -/
def wcstoullSample (s : String) : Nat :=
  if s = "1" then 1 else 0

/-! ## Rounding to binary64 -/

namespace Dbl

theorem roundHalfEven_bounds (y : ℚ) :
    y - 1 / 2 ≤ (roundHalfEven y : ℚ) ∧ (roundHalfEven y : ℚ) ≤ y + 1 / 2 := by
  have h1 : (⌊y⌋ : ℚ) ≤ y := Int.floor_le y
  have h2 : y < (⌊y⌋ : ℚ) + 1 := Int.lt_floor_add_one y
  unfold roundHalfEven
  split_ifs with a b c
  · constructor <;> linarith
  · constructor <;> push_cast <;> linarith
  · constructor <;> linarith
  · constructor <;> push_cast <;> linarith

theorem roundHalfEven_nonneg (y : ℚ) (h : 0 ≤ y) : 0 ≤ roundHalfEven y := by
  have h0 : 0 ≤ ⌊y⌋ := Int.floor_nonneg.mpr h
  unfold roundHalfEven
  split_ifs <;> omega

theorem roundHalfEven_intCast (z : ℤ) : roundHalfEven (z : ℚ) = z := by
  unfold roundHalfEven
  rw [Int.floor_intCast, sub_self, if_pos (by norm_num)]

theorem quantum_pos (x : ℚ) : 0 < quantum x := by
  unfold quantum
  positivity

/-- The spacing is at most `x / 2 ^ 52` in the normal range. -/
theorem quantum_le_of_normal (x : ℚ) (hx : (2 : ℚ) ^ (-1022 : ℤ) ≤ x) :
    quantum x ≤ x / 2 ^ (52 : ℕ) := by
  have hpos : (0 : ℚ) < x := lt_of_lt_of_le (by positivity) hx
  have habs : |x| = x := abs_of_pos hpos
  have hlog : (-1022 : ℤ) ≤ Int.log 2 |x| := by
    rw [habs]
    exact (Int.zpow_le_iff_le_log (by norm_num) hpos).mp (by exact_mod_cast hx)
  unfold quantum
  rw [max_eq_left hlog, habs, zpow_sub₀ (by norm_num)]
  have h1 : (2 : ℚ) ^ Int.log 2 x ≤ x := by
    have := Int.zpow_log_le_self (b := 2) (by norm_num) hpos
    exact_mod_cast this
  have h2 : (2 : ℚ) ^ (52 : ℤ) = 2 ^ (52 : ℕ) := by norm_cast
  rw [h2]
  exact div_le_div_of_nonneg_right h1 (by positivity)

theorem quantum_le (x : ℚ) (hx : 0 < x) :
    quantum x ≤ x / 2 ^ (52 : ℕ) ∨ quantum x = (2 : ℚ) ^ (-1074 : ℤ) := by
  rcases le_or_lt ((2 : ℚ) ^ (-1022 : ℤ)) x with h | h
  · exact Or.inl (quantum_le_of_normal x h)
  · right
    have habs : |x| = x := abs_of_pos hx
    have hlog : Int.log 2 |x| ≤ (-1022 : ℤ) := by
      rw [habs]
      have : Int.log 2 x < (-1022 : ℤ) :=
        (Int.lt_zpow_iff_log_lt (b := 2) (by norm_num) hx).mp (by exact_mod_cast h)
      exact le_of_lt this
    unfold quantum
    rw [max_eq_right hlog]
    norm_num

theorem round64_zero : round64 0 = fin 0 := by
  unfold round64
  have h : roundHalfEven (0 / quantum 0) = 0 := by
    rw [zero_div]
    exact_mod_cast roundHalfEven_intCast 0
  rw [h]
  norm_num

/-- Half the spacing is within the relative error `2 ^ (-53)` or the absolute
error `2 ^ (-1075)`. -/
theorem half_quantum_le (x : ℚ) (hx : 0 < x) :
    quantum x / 2 ≤ x / 2 ^ (53 : ℕ) ∨ quantum x / 2 = (2 : ℚ) ^ (-1075 : ℤ) := by
  rcases quantum_le x hx with h | h
  · left
    have : x / 2 ^ (53 : ℕ) = x / 2 ^ (52 : ℕ) / 2 := by ring
    rw [this]
    linarith
  · right
    rw [h]
    have : (2 : ℚ) ^ (-1074 : ℤ) = 2 ^ (-1075 : ℤ) * 2 := by
      rw [show (-1074 : ℤ) = -1075 + 1 by norm_num, zpow_add₀ (by norm_num)]
      norm_num
    rw [this]
    ring

/-- The value to which a number above zero rounds, before the test for
overflow: it is not negative and within half the spacing. -/
theorem rounded_value (x : ℚ) (hx : 0 ≤ x) :
    0 ≤ (roundHalfEven (x / quantum x) * quantum x : ℚ) ∧
    x - quantum x / 2 ≤ roundHalfEven (x / quantum x) * quantum x ∧
    (roundHalfEven (x / quantum x) * quantum x : ℚ) ≤ x + quantum x / 2 := by
  have hq := quantum_pos x
  have hb := roundHalfEven_bounds (x / quantum x)
  have hn : (0 : ℚ) ≤ roundHalfEven (x / quantum x) := by
    exact_mod_cast roundHalfEven_nonneg _ (div_nonneg hx (le_of_lt hq))
  have hx' : x = x / quantum x * quantum x := by field_simp
  refine ⟨mul_nonneg hn (le_of_lt hq), ?_, ?_⟩
  · have := mul_le_mul_of_nonneg_right hb.1 (le_of_lt hq)
    nlinarith
  · have := mul_le_mul_of_nonneg_right hb.2 (le_of_lt hq)
    nlinarith

theorem tiny_le : (2 : ℚ) ^ (-1075 : ℤ) ≤ 1 / 1267650600228229401496703205376 := by
  have h : (1 : ℚ) / 1267650600228229401496703205376 = 2 ^ (-100 : ℤ) := by norm_num
  rw [h]
  exact zpow_le_zpow_right₀ (by norm_num) (by norm_num)

/-- Rounding of a number that is not negative: overflow to the infinity, which
takes a number of at least `2 ^ 1023`, or a finite value that is not negative
and within half the spacing. -/
theorem round64_cases (x : ℚ) (hx : 0 ≤ x) :
    (round64 x = posInf ∧ (2 : ℚ) ^ (1023 : ℕ) ≤ x) ∨
    ∃ y, round64 x = fin y ∧ 0 ≤ y ∧ x - quantum x / 2 ≤ y ∧ y ≤ x + quantum x / 2 := by
  obtain ⟨h0, h1, h2⟩ := rounded_value x hx
  have hM1 : (1 : ℚ) ≤ 2 ^ (1023 : ℕ) := one_le_pow₀ (by norm_num)
  have hM2 : (2 : ℚ) ^ (1024 : ℕ) = 2 * 2 ^ (1023 : ℕ) := by
    rw [show (1024 : ℕ) = 1023 + 1 by norm_num, pow_succ]
    ring
  by_cases hov : (2 : ℚ) ^ (1024 : ℕ) ≤ roundHalfEven (x / quantum x) * quantum x
  · left
    refine ⟨by unfold round64; rw [if_pos hov], ?_⟩
    rcases eq_or_lt_of_le hx with hx0 | hx0
    · exfalso
      rw [← hx0, zero_div] at hov
      have : roundHalfEven (0 : ℚ) = 0 := by exact_mod_cast roundHalfEven_intCast 0
      rw [this] at hov
      norm_num at hov
    · rcases half_quantum_le x hx0 with h | h
      · have : x / 2 ^ (53 : ℕ) ≤ x := div_le_self hx (one_le_pow₀ (by norm_num))
        linarith
      · have ht := tiny_le
        rw [← h] at ht
        linarith
  · right
    refine ⟨_, ?_, h0, h1, h2⟩
    unfold round64
    rw [if_neg hov, if_neg]
    have : (0 : ℚ) < 2 ^ (1024 : ℕ) := by positivity
    linarith

/-- Rounding of a number that is not negative, in terms of the relative error
`2 ^ (-53)` and an absolute error for the numbers below the normal range. -/
theorem round64_nonneg (x : ℚ) (hx : 0 ≤ x) :
    (round64 x = posInf ∧ (2 : ℚ) ^ (1023 : ℕ) ≤ x) ∨
    ∃ y, round64 x = fin y ∧ 0 ≤ y ∧
      x * (1 - 1 / 9007199254740992) - 1 / 1267650600228229401496703205376 ≤ y ∧
      y ≤ x * (1 + 1 / 9007199254740992) + 1 / 1267650600228229401496703205376 := by
  rcases round64_cases x hx with h | ⟨y, hy, h0, h1, h2⟩
  · exact Or.inl h
  · right
    refine ⟨y, hy, h0, ?_, ?_⟩
    all_goals
      rcases eq_or_lt_of_le hx with hx0 | hx0
      · rw [← hx0, round64_zero] at hy
        cases hy
        rw [← hx0]
        norm_num
      · have ht := tiny_le
        have hu : x / 2 ^ (53 : ℕ) = x * (1 / 9007199254740992) := by norm_num; ring
        rcases half_quantum_le x hx0 with h | h
        · rw [hu] at h
          nlinarith
        · rw [← h] at ht
          nlinarith

/-- Rounding of a number in the normal range: the error is relative. -/
theorem round64_normal (x : ℚ) (hx : (2 : ℚ) ^ (-1022 : ℤ) ≤ x) :
    (round64 x = posInf ∧ (2 : ℚ) ^ (1023 : ℕ) ≤ x) ∨
    ∃ y, round64 x = fin y ∧
      x * (1 - 1 / 9007199254740992) ≤ y ∧ y ≤ x * (1 + 1 / 9007199254740992) := by
  have hpos : (0 : ℚ) < x := lt_of_lt_of_le (by positivity) hx
  rcases round64_cases x (le_of_lt hpos) with h | ⟨y, hy, -, h1, h2⟩
  · exact Or.inl h
  · right
    have hq := quantum_le_of_normal x hx
    have hu : x / 2 ^ (52 : ℕ) = x * (1 / 4503599627370496) := by norm_num; ring
    rw [hu] at hq
    exact ⟨y, hy, by linarith, by linarith⟩

/-- There is no overflow below `2 ^ 100`. -/
theorem not_overflow (x : ℚ) (hx : x ≤ 1267650600228229401496703205376) :
    ¬ (2 : ℚ) ^ (1023 : ℕ) ≤ x := by
  have h : (1267650600228229401496703205376 : ℚ) = 2 ^ (100 : ℕ) := by norm_num
  have h2 : (2 : ℚ) ^ (100 : ℕ) < 2 ^ (1023 : ℕ) := pow_lt_pow_right₀ (by norm_num) (by norm_num)
  rw [h] at hx
  linarith

/-- An integer below `2 ^ 53` is a binary64 number. -/
theorem round64_natCast (n : ℕ) (hn : n < 9007199254740992) : round64 (n : ℚ) = fin n := by
  rcases Nat.eq_zero_or_pos n with h0 | h0
  · rw [h0]
    exact_mod_cast round64_zero
  have hx : (0 : ℚ) < n := by exact_mod_cast h0
  have h1 : (1 : ℚ) ≤ n := by exact_mod_cast h0
  have habs : |(n : ℚ)| = n := abs_of_pos hx
  have hlog0 : (0 : ℤ) ≤ Int.log 2 (n : ℚ) :=
    (Int.zpow_le_iff_le_log (by norm_num) hx).mp (by simpa using h1)
  have hlog1 : Int.log 2 (n : ℚ) < 53 := by
    apply (Int.lt_zpow_iff_log_lt (b := 2) (by norm_num) hx).mp
    calc (n : ℚ) < 9007199254740992 := by exact_mod_cast hn
      _ = ((2 : ℕ) : ℚ) ^ (53 : ℤ) := by norm_num
  obtain ⟨k, hk⟩ : ∃ k : ℕ, (52 : ℤ) - Int.log 2 (n : ℚ) = k :=
    ⟨(52 - Int.log 2 (n : ℚ)).toNat, (Int.toNat_of_nonneg (by omega)).symm⟩
  have hq : quantum (n : ℚ) = 1 / 2 ^ k := by
    unfold quantum
    rw [habs, max_eq_left (by omega), show Int.log 2 (n : ℚ) - 52 = -(k : ℤ) by omega,
      zpow_neg, zpow_natCast, one_div]
  have hdiv : (n : ℚ) / quantum (n : ℚ) = ((n * 2 ^ k : ℕ) : ℤ) := by
    rw [hq]
    push_cast
    field_simp
  have hr : (roundHalfEven ((n : ℚ) / quantum (n : ℚ)) * quantum (n : ℚ) : ℚ) = n := by
    rw [hdiv, roundHalfEven_intCast, hq]
    push_cast
    field_simp
  unfold round64
  rw [hr, if_neg, if_neg]
  · have : (0 : ℚ) < 2 ^ (1024 : ℕ) := by positivity
    linarith
  · have h2 : (2 : ℚ) ^ (53 : ℕ) < 2 ^ (1024 : ℕ) := pow_lt_pow_right₀ (by norm_num) (by norm_num)
    have : (n : ℚ) < 2 ^ (53 : ℕ) := by
      calc (n : ℚ) < 9007199254740992 := by exact_mod_cast hn
        _ = 2 ^ (53 : ℕ) := by norm_num
    linarith

theorem roundHalfEven_eq (y : ℚ) (m : ℤ) (h1 : (m : ℚ) - 1 / 2 < y) (h2 : y < m + 1 / 2) :
    roundHalfEven y = m := by
  by_cases hy : (m : ℚ) ≤ y
  · have hf : ⌊y⌋ = m := Int.floor_eq_iff.mpr ⟨hy, by linarith⟩
    unfold roundHalfEven
    rw [hf, if_pos (by linarith)]
  · have hy2 : y < m := not_le.mp hy
    have hf : ⌊y⌋ = m - 1 := Int.floor_eq_iff.mpr ⟨by push_cast; linarith, by push_cast; linarith⟩
    unfold roundHalfEven
    rw [hf, if_neg (by push_cast; linarith), if_pos (by push_cast; linarith)]
    ring

theorem roundHalfEven_tie (y : ℚ) (m : ℤ) (h : y = m + 1 / 2) (hm : m % 2 = 0) :
    roundHalfEven y = m := by
  have hf : ⌊y⌋ = m := Int.floor_eq_iff.mpr ⟨by linarith, by linarith⟩
  unfold roundHalfEven
  rw [hf, if_neg (by linarith), if_neg (by linarith), if_pos hm]

/-- Evaluation of the rounding of a number in the normal range, from its
exponent and the significand of the result. -/
theorem round64_eval (x : ℚ) (e m : ℤ) (he : -1022 ≤ e) (h1 : (2 : ℚ) ^ e ≤ x)
    (h2 : x < (2 : ℚ) ^ (e + 1)) (hm1 : (m : ℚ) - 1 / 2 < x / (2 : ℚ) ^ (e - 52))
    (hm2 : x / (2 : ℚ) ^ (e - 52) < m + 1 / 2) (hm0 : 0 ≤ m)
    (hfin : (m : ℚ) * (2 : ℚ) ^ (e - 52) < 2 ^ (1024 : ℕ)) :
    round64 x = fin (m * (2 : ℚ) ^ (e - 52)) := by
  have hx : (0 : ℚ) < x := lt_of_lt_of_le (by positivity) h1
  have habs : |x| = x := abs_of_pos hx
  have hlog : Int.log 2 x = e := by
    apply le_antisymm
    · have : Int.log 2 x < e + 1 :=
        (Int.lt_zpow_iff_log_lt (b := 2) (by norm_num) hx).mp (by exact_mod_cast h2)
      omega
    · exact (Int.zpow_le_iff_le_log (b := 2) (by norm_num) hx).mp (by exact_mod_cast h1)
  have hq : quantum x = (2 : ℚ) ^ (e - 52) := by
    unfold quantum
    rw [habs, hlog, max_eq_left he]
  have hr : roundHalfEven (x / quantum x) = m := by
    rw [hq]
    exact roundHalfEven_eq _ m hm1 hm2
  have hv0 : (0 : ℚ) ≤ (m : ℚ) * (2 : ℚ) ^ (e - 52) :=
    mul_nonneg (by exact_mod_cast hm0) (by positivity)
  unfold round64
  rw [hr, hq, if_neg (not_le.mpr hfin), if_neg]
  have : (0 : ℚ) < 2 ^ (1024 : ℕ) := by positivity
  linarith

/-- Evaluation of the rounding of a number in the normal range that lies
halfway between two binary64 numbers: the even significand is taken. -/
theorem round64_eval_tie (x : ℚ) (e m : ℤ) (he : -1022 ≤ e) (h1 : (2 : ℚ) ^ e ≤ x)
    (h2 : x < (2 : ℚ) ^ (e + 1)) (hm : x / (2 : ℚ) ^ (e - 52) = m + 1 / 2)
    (heven : m % 2 = 0) (hm0 : 0 ≤ m)
    (hfin : (m : ℚ) * (2 : ℚ) ^ (e - 52) < 2 ^ (1024 : ℕ)) :
    round64 x = fin (m * (2 : ℚ) ^ (e - 52)) := by
  have hx : (0 : ℚ) < x := lt_of_lt_of_le (by positivity) h1
  have habs : |x| = x := abs_of_pos hx
  have hlog : Int.log 2 x = e := by
    apply le_antisymm
    · have : Int.log 2 x < e + 1 :=
        (Int.lt_zpow_iff_log_lt (b := 2) (by norm_num) hx).mp (by exact_mod_cast h2)
      omega
    · exact (Int.zpow_le_iff_le_log (b := 2) (by norm_num) hx).mp (by exact_mod_cast h1)
  have hq : quantum x = (2 : ℚ) ^ (e - 52) := by
    unfold quantum
    rw [habs, hlog, max_eq_left he]
  have hr : roundHalfEven (x / quantum x) = m := by
    rw [hq]
    exact roundHalfEven_tie _ m hm heven
  have hv0 : (0 : ℚ) ≤ (m : ℚ) * (2 : ℚ) ^ (e - 52) :=
    mul_nonneg (by exact_mod_cast hm0) (by positivity)
  unfold round64
  rw [hr, hq, if_neg (not_le.mpr hfin), if_neg]
  have : (0 : ℚ) < 2 ^ (1024 : ℕ) := by positivity
  linarith

theorem roundHalfEven_le (y : ℚ) (j : ℤ) (h : y ≤ j) : roundHalfEven y ≤ j := by
  have hf : ⌊y⌋ ≤ j := by
    have : (⌊y⌋ : ℚ) ≤ j := le_trans (Int.floor_le y) h
    exact_mod_cast this
  rcases eq_or_lt_of_le hf with heq | hlt
  · have hy : y = j := le_antisymm h (by rw [← heq]; exact Int.floor_le y)
    rw [hy, roundHalfEven_intCast]
  · unfold roundHalfEven
    split_ifs <;> omega

/-- A binary64 number is a whole multiple of its spacing, and is below
`2 ^ 1024`. -/
theorem representable_multiple (t : ℚ) (ht : round64 t = fin t) :
    (roundHalfEven (t / quantum t) * quantum t : ℚ) = t ∧ t < (2 : ℚ) ^ (1024 : ℕ) := by
  unfold round64 at ht
  split_ifs at ht with h1 h2
  have h := Dbl.fin.inj ht
  exact ⟨h, by rw [h] at h1; exact not_le.mp h1⟩

/-- Rounding does not cross a binary64 number: a number that is not above the
binary64 number `t` does not round above `t`. -/
theorem round64_le_representable (x t : ℚ) (hx : 0 ≤ x) (hxt : x ≤ t)
    (ht : round64 t = fin t) : ∃ y, round64 x = fin y ∧ 0 ≤ y ∧ y ≤ t := by
  rcases eq_or_lt_of_le hx with hx0 | hx0
  · exact ⟨0, by rw [← hx0]; exact round64_zero, le_refl _, by linarith⟩
  have ht0 : 0 < t := lt_of_lt_of_le hx0 hxt
  obtain ⟨hmul, hfin⟩ := representable_multiple t ht
  have hqx := quantum_pos x
  have hlog : Int.log 2 |x| ≤ Int.log 2 |t| := by
    rw [abs_of_pos hx0, abs_of_pos ht0]
    exact Int.log_mono_right hx0 hxt
  obtain ⟨k, hk⟩ : ∃ k : ℕ,
      max (Int.log 2 |t|) (-1022) - 52 = (max (Int.log 2 |x|) (-1022) - 52) + k := by
    refine ⟨(max (Int.log 2 |t|) (-1022) - max (Int.log 2 |x|) (-1022)).toNat, ?_⟩
    have : max (Int.log 2 |x|) (-1022) ≤ max (Int.log 2 |t|) (-1022) :=
      max_le_max hlog (le_refl _)
    rw [Int.toNat_of_nonneg (by omega)]
    ring
  have hqt : quantum t = quantum x * 2 ^ k := by
    unfold quantum
    rw [hk, zpow_add₀ (by norm_num), zpow_natCast]
  generalize roundHalfEven (t / quantum t) = m at hmul
  rw [hqt] at hmul
  have htj : t / quantum x = ((m * 2 ^ k : ℤ) : ℚ) := by
    rw [← hmul]
    push_cast
    field_simp
    ring
  have hle : roundHalfEven (x / quantum x) ≤ m * 2 ^ k := by
    apply roundHalfEven_le
    rw [← htj]
    exact div_le_div_of_nonneg_right hxt (le_of_lt hqx)
  have hv : (roundHalfEven (x / quantum x) * quantum x : ℚ) ≤ t := by
    have h1 : ((roundHalfEven (x / quantum x) : ℤ) : ℚ) ≤ ((m * 2 ^ k : ℤ) : ℚ) := by
      exact_mod_cast hle
    have h2 := mul_le_mul_of_nonneg_right h1 (le_of_lt hqx)
    rw [← htj] at h2
    have h3 : t / quantum x * quantum x = t := by field_simp
    linarith
  obtain ⟨h0, -, -⟩ := rounded_value x hx
  refine ⟨_, ?_, h0, hv⟩
  unfold round64
  rw [if_neg (by linarith), if_neg]
  have : (0 : ℚ) < 2 ^ (1024 : ℕ) := by positivity
  linarith

/-- Rounding of a number between `0` and `2 ^ 100`: the result is finite. -/
theorem round64_bounded (x : ℚ) (hx : 0 ≤ x) (hx2 : x ≤ 1267650600228229401496703205376) :
    ∃ y, round64 x = fin y ∧ 0 ≤ y ∧
      x * (1 - 1 / 9007199254740992) - 1 / 1267650600228229401496703205376 ≤ y ∧
      y ≤ x * (1 + 1 / 9007199254740992) + 1 / 1267650600228229401496703205376 := by
  rcases round64_nonneg x hx with h | h
  · exact absurd h.2 (not_overflow x hx2)
  · exact h

theorem round64_of_natCast (x : ℚ) (n : ℕ) (h : x = n) (hn : n < 9007199254740992) :
    round64 x = fin x := by
  rw [h]
  exact round64_natCast n hn

/-- Conversion of an integer to `double`: the error is relative. -/
theorem ofNat_cases (n : ℕ) :
    (ofNat n = posInf ∧ (2 : ℚ) ^ (1023 : ℕ) ≤ n) ∨
    ∃ y, ofNat n = fin y ∧ 0 ≤ y ∧
      (n : ℚ) * (1 - 1 / 9007199254740992) ≤ y ∧ y ≤ (n : ℚ) * (1 + 1 / 9007199254740992) := by
  rcases Nat.eq_zero_or_pos n with h0 | h0
  · right
    refine ⟨0, ?_, le_refl _, ?_, ?_⟩
    · rw [h0]
      exact_mod_cast round64_zero
    · rw [h0]
      norm_num
    · rw [h0]
      norm_num
  · have h1 : (1 : ℚ) ≤ n := by exact_mod_cast h0
    have h2 : (2 : ℚ) ^ (-1022 : ℤ) ≤ 1 := zpow_le_one_of_nonpos₀ (by norm_num) (by norm_num)
    rcases round64_normal (n : ℚ) (le_trans h2 h1) with h | ⟨y, hy, hl, hu⟩
    · exact Or.inl h
    · right
      refine ⟨y, hy, ?_, hl, hu⟩
      have : (0 : ℚ) ≤ (n : ℚ) * (1 - 1 / 9007199254740992) := by
        apply mul_nonneg (by linarith)
        norm_num
      linarith

theorem ofNat_of_lt (n : ℕ) (hn : n < 9007199254740992) : ofNat n = fin n :=
  round64_natCast n hn

theorem div_nan_right (d : Dbl) : div d nan = nan := by
  cases d <;> rfl

theorem lt_nan_right (d : Dbl) : lt d nan = false := by
  cases d <;> rfl

theorem mul_fin (a b : ℚ) : mul (fin a) (fin b) = round64 (a * b) := rfl

theorem sub_fin (a b : ℚ) : sub (fin a) (fin b) = round64 (a - b) := rfl

theorem div_fin (a b : ℚ) (hb : b ≠ 0) : div (fin a) (fin b) = round64 (a / b) := by
  show (if b = 0 then (if a = 0 then nan else infOfSign (decide (a < 0)))
    else round64 (a / b)) = _
  rw [if_neg hb]

/-- The ceiling in bytes per second for a whole number of MB/s. -/
theorem mul_mbps (r : ℕ) (hr : r < 8589934592) :
    mul (mul (fin r) (fin 1024)) (fin 1024) = fin ((r * 1048576 : ℕ) : ℚ) := by
  rw [mul_fin, round64_of_natCast _ (r * 1024) (by push_cast; ring) (by omega), mul_fin,
    round64_of_natCast _ (r * 1048576) (by push_cast; ring) (by omega)]
  congr 1
  push_cast
  ring

end Dbl

/-! ## Arithmetic of the model -/

theorem Dbl.toDWORD_fin (oor : Dbl → Nat) (x : ℚ) (h0 : 0 ≤ x) (h1 : x < 4294967296) :
    Dbl.toDWORD oor (Dbl.fin x) = ⌊x⌋.toNat := by
  have h2 : (-1 : ℚ) < x := by linarith
  show (if -1 < x ∧ x < 4294967296 then (Dbl.trunc x).toNat
    else oor (Dbl.fin x) % 4294967296) = _
  rw [if_pos ⟨h2, h1⟩]
  unfold Dbl.trunc
  rw [if_pos h0]

theorem Dbl.toInt32_fin (oor : Dbl → Nat) (x : ℚ) (h0 : 0 ≤ x) (h1 : x < 2147483648) :
    Dbl.toInt32 oor (Dbl.fin x) = ⌊x⌋ := by
  have h2 : (-2147483649 : ℚ) < x := by linarith
  show (if -2147483649 < x ∧ x < 2147483648 then Dbl.trunc x
    else ((oor (Dbl.fin x) : Int) + 2147483648) % 4294967296 - 2147483648) = _
  rw [if_pos ⟨h2, h1⟩]
  unfold Dbl.trunc
  rw [if_pos h0]

theorem Dbl.not_pos_of_le_zero (d : Dbl) (h : Dbl.le d (Dbl.fin 0) = true) :
    Dbl.lt (Dbl.fin 0) d = false := by
  cases d with
  | nan => rfl
  | negInf => rfl
  | posInf => simp [Dbl.le] at h
  | fin q =>
    simp only [Dbl.le, decide_eq_true_eq] at h
    simp [Dbl.lt, h]

theorem seconds_mono (t0 a b : Nat) (h : a ≤ b) : seconds t0 a ≤ seconds t0 b := by
  unfold seconds
  have : (a : ℚ) ≤ b := by exact_mod_cast h
  apply div_le_div_of_nonneg_right _ (by norm_num)
  linarith

theorem seconds_add (t0 a d : Nat) :
    seconds t0 (a + d) = seconds t0 a + (d : ℚ) / 1000000000 := by
  unfold seconds
  push_cast
  ring

theorem seconds_self (t0 : Nat) : seconds t0 t0 = 0 := by
  simp [seconds]

theorem zeroBytes_length (n : Nat) : (zeroBytes n).length = n := by
  unfold zeroBytes
  exact List.length_replicate n 0

theorem chunk_sizes_zero (B : Nat) : chunk_sizes 0 B = [] := by
  simp [chunk_sizes]

theorem chunk_sizes_pos (T B : Nat) (hB : 0 < B) (hT : 0 < T) :
    chunk_sizes T B = min B T :: chunk_sizes (T - min B T) B := by
  unfold chunk_sizes
  rcases le_or_lt B T with h | h
  · rw [min_eq_left h]
    have h1 : T / B = (T - B) / B + 1 := by
      conv_lhs => rw [← Nat.sub_add_cancel h]
      exact Nat.add_div_right _ hB
    have h2 : T % B = (T - B) % B := Nat.mod_eq_sub_mod h
    rw [h1, h2, List.replicate_succ]
    rfl
  · rw [min_eq_right (le_of_lt h), Nat.div_eq_of_lt h, Nat.mod_eq_of_lt h]
    have : T ≠ 0 := by omega
    simp [this]

theorem chunk_sizes_length (T B : Nat) (hB : 0 < B) :
    (chunk_sizes T B).length = (T + B - 1) / B := by
  obtain ⟨b, rfl⟩ := Nat.exists_eq_succ_of_ne_zero (Nat.pos_iff_ne_zero.mp hB)
  have e : T + (b + 1) - 1 = T + b := by omega
  rw [Nat.succ_eq_add_one, e]
  unfold chunk_sizes
  have hdm := Nat.div_add_mod T (b + 1)
  have hlt := Nat.mod_lt T hB
  rw [Nat.succ_eq_add_one] at hlt
  generalize T / (b + 1) = q at hdm ⊢
  generalize T % (b + 1) = r at hdm hlt ⊢
  by_cases h : r = 0
  · simp only [h, if_true, List.append_nil, List.length_replicate]
    symm
    apply Nat.div_eq_of_lt_le
    · nlinarith
    · nlinarith
  · simp only [h, if_false, List.length_append, List.length_replicate, List.length_singleton]
    have hr : 1 ≤ r := Nat.one_le_iff_ne_zero.mpr h
    symm
    apply Nat.div_eq_of_lt_le
    · nlinarith
    · nlinarith

theorem chunk_sizes_pos_of_mem (T B : Nat) (hB : 0 < B) :
    ∀ n ∈ chunk_sizes T B, 0 < n ∧ n ≤ B := by
  intro n hn
  unfold chunk_sizes at hn
  rw [List.mem_append] at hn
  rcases hn with hn | hn
  · have := (List.mem_replicate.mp hn).2
    omega
  · by_cases h : T % B = 0
    · simp [h] at hn
    · simp only [h, if_false, List.mem_singleton] at hn
      have := Nat.mod_lt T hB
      omega

theorem chunk_sizes_sum (T B : Nat) : (chunk_sizes T B).sum = T := by
  unfold chunk_sizes
  have hdm := Nat.div_add_mod T B
  by_cases h : T % B = 0
  · simp only [h, if_true, List.append_nil, List.sum_replicate, smul_eq_mul]
    rw [h] at hdm
    rw [Nat.mul_comm]
    omega
  · simp only [h, if_false, List.sum_append, List.sum_replicate, smul_eq_mul, List.sum_singleton]
    rw [Nat.mul_comm]
    exact hdm

/-! ## Streams -/

namespace IStream

theorem read_of_good (s : IStream) (n : Nat) (hg : s.good = true) :
    s.read n =
      ({ s with
          pos := s.pos + min n (s.limit - s.pos)
          gcount := min n (s.limit - s.pos)
          eofbit := decide (min n (s.limit - s.pos) < n) && !s.faultsAtLimit
          failbit := decide (min n (s.limit - s.pos) < n) && !s.faultsAtLimit
          badbit := decide (min n (s.limit - s.pos) < n) && s.faultsAtLimit },
       (s.data.drop s.pos).take (min n (s.limit - s.pos))) := by
  unfold read
  rw [if_pos hg]

theorem read_of_not_good (s : IStream) (n : Nat) (hg : s.good = false) :
    s.read n = ({ s with failbit := true, gcount := 0 }, []) := by
  unfold read
  rw [if_neg (by simp [hg])]

theorem read_good (s : IStream) (n : Nat) (hf : s.faultAt = none) (hg : s.good = true) :
    (s.read n).1.gcount = min n (s.data.length - s.pos) ∧
    (s.read n).1.pos = s.pos + min n (s.data.length - s.pos) ∧
    (s.read n).1.data = s.data ∧
    (s.read n).1.faultAt = none ∧
    (s.read n).2 = (s.data.drop s.pos).take (min n (s.data.length - s.pos)) ∧
    ((s.read n).1.good = false → s.data.length - s.pos < n) ∧
    ((s.read n).1.ok = false → s.data.length - s.pos < n) := by
  rw [read_of_good s n hg]
  have hl : s.limit = s.data.length := by simp [limit, hf]
  have hfl : s.faultsAtLimit = false := by simp [faultsAtLimit, hf]
  simp only [hl, hfl, good, ok]
  refine ⟨trivial, trivial, trivial, hf, trivial, ?_, ?_⟩
  · intro h
    simp at h
    omega
  · intro h
    simp at h
    omega

theorem read_not_good (s : IStream) (n : Nat) (hg : s.good = false) :
    (s.read n).1.gcount = 0 ∧
    (s.read n).1.pos = s.pos ∧
    (s.read n).1.data = s.data ∧
    (s.read n).1.faultAt = s.faultAt ∧
    (s.read n).2 = [] ∧
    (s.read n).1.good = false ∧
    (s.read n).1.ok = false := by
  rw [read_of_not_good s n hg]
  simp [good, ok]

/-- A read keeps the contents and advances the position by the bytes
delivered, which are not more than the bytes left. -/
theorem read_progress (s : IStream) (n : Nat) :
    (s.read n).1.data = s.data ∧ (s.read n).1.pos = s.pos + (s.read n).1.gcount ∧
      (s.read n).1.gcount ≤ s.data.length - s.pos := by
  by_cases hg : s.good = true
  · rw [read_of_good s n hg]
    refine ⟨rfl, rfl, ?_⟩
    have hl : s.limit ≤ s.data.length := by
      unfold limit
      split
      · exact Nat.min_le_left _ _
      · exact le_refl _
    show min n (s.limit - s.pos) ≤ _
    have := Nat.min_le_right n (s.limit - s.pos)
    omega
  · rw [read_of_not_good s n (by simpa using hg)]
    exact ⟨rfl, rfl, Nat.zero_le _⟩

theorem gcount_le (s : IStream) (n : Nat) : (s.read n).1.gcount ≤ n := by
  unfold read
  split
  · exact min_le_left _ _
  · exact Nat.zero_le _

theorem ok_of_good (s : IStream) (h : s.good = true) : s.ok = true := by
  simp [good, ok] at h ⊢
  tauto

end IStream

namespace OStream

theorem write_unlimited (o : OStream) (buf : List Byte) (hr : o.room = none)
    (hb : o.bad = false) :
    (o.write buf).written = o.written ++ buf ∧ (o.write buf).room = none ∧
      (o.write buf).bad = false := by
  simp [write, hr, hb]

end OStream

/-! ## The throttle step and the loop of copy2.cpp -/

namespace Dbl

theorem lt_posInf_left (d : Dbl) : lt posInf d = false := by
  cases d <;> rfl

end Dbl

/-- The `double` computed for the time between two readings of the clock:
the infinity, which takes more than `2 ^ 65` seconds, or a number within the
rounding error of the exact time. -/
theorem duration_seconds_cases (t0 t1 : Nat) (h : t0 ≤ t1) :
    (duration_seconds t0 t1 = Dbl.posInf ∧ 36893488147419103232 ≤ seconds t0 t1) ∨
    ∃ th, duration_seconds t0 t1 = Dbl.fin th ∧ 0 ≤ th ∧
      seconds t0 t1 * (1 - 1 / 4503599627370496) - 1 / 1267650600228229401496703205376 ≤ th ∧
      th ≤ seconds t0 t1 * (1 + 1 / 2251799813685248) + 1 / 1267650600228229401496703205376 := by
  have hs : seconds t0 t1 = ((t1 - t0 : ℕ) : ℚ) / 1000000000 := by
    unfold seconds
    rw [Nat.cast_sub h]
  have hbig : (36893488147419103232 : ℚ) * 1000000000 * 2 ≤ 2 ^ (1023 : ℕ) := by
    have h1 : (36893488147419103232 : ℚ) * 1000000000 * 2 ≤ 2 ^ (100 : ℕ) := by norm_num
    have h2 : (2 : ℚ) ^ (100 : ℕ) ≤ 2 ^ (1023 : ℕ) :=
      pow_le_pow_right₀ (by norm_num) (by norm_num)
    linarith
  have hn0 : (0 : ℚ) ≤ ((t1 - t0 : ℕ) : ℚ) := Nat.cast_nonneg _
  rw [hs]
  unfold duration_seconds
  rcases Dbl.ofNat_cases (t1 - t0) with ⟨hinf, hge⟩ | ⟨n1, hn1, hn10, hn1l, hn1u⟩
  · left
    rw [hinf]
    refine ⟨by norm_num [Dbl.div, Dbl.infOfSign], ?_⟩
    rw [le_div_iff₀ (by norm_num)]
    linarith
  · rw [hn1, Dbl.div_fin _ _ (by norm_num)]
    have h1l : ((t1 - t0 : ℕ) : ℚ) / 1000000000 * (1 - 1 / 9007199254740992) ≤
        n1 / 1000000000 := by linarith
    have h1u : n1 / 1000000000 ≤
        ((t1 - t0 : ℕ) : ℚ) / 1000000000 * (1 + 1 / 9007199254740992) := by linarith
    rcases Dbl.round64_nonneg (n1 / 1000000000) (div_nonneg hn10 (by norm_num)) with ⟨hinf, hge⟩ | hfin
    · left
      refine ⟨hinf, ?_⟩
      rw [le_div_iff₀ (by norm_num)]
      rw [le_div_iff₀ (by norm_num)] at hge
      linarith
    · right
      obtain ⟨th, hth, hth0, hl, hu⟩ := hfin
      exact ⟨th, hth, hth0, by linarith, by linarith⟩

namespace Copy2

theorem throttle_le (oor : Dbl → Nat) (ms : Dbl) (n : Nat) (t : Dbl) (k : Nat)
    (h : throttle oor ms n t = some k) : k ≤ 1000 := by
  unfold throttle at h
  simp only at h
  split at h
  · simp only [Option.some.injEq] at h
    omega
  · simp at h

/-- The `double` computed for `copied / max_speed`. -/
theorem expected_time_cases (C : ℚ) (hC : 0 < C) (n : Nat) (hn : n < 18446744073709551616)
    (hE : (n : ℚ) / C ≤ 18446744073709551616) :
    ∃ e1, Dbl.div (Dbl.ofNat n) (Dbl.fin C) = Dbl.fin e1 ∧ 0 ≤ e1 ∧
      (n : ℚ) / C * (1 - 1 / 4503599627370496) - 1 / 1267650600228229401496703205376 ≤ e1 ∧
      e1 ≤ (n : ℚ) / C * (1 + 1 / 2251799813685248) + 1 / 1267650600228229401496703205376 := by
  have hnq : (n : ℚ) < 18446744073709551616 := by exact_mod_cast hn
  have hn0 : (0 : ℚ) ≤ n := Nat.cast_nonneg n
  have hE0 : 0 ≤ (n : ℚ) / C := div_nonneg hn0 (le_of_lt hC)
  rcases Dbl.ofNat_cases n with h | ⟨n1, hn1, hn10, hn1l, hn1u⟩
  · exact absurd h.2 (Dbl.not_overflow _ (by linarith))
  have h1l : (n : ℚ) / C * (1 - 1 / 9007199254740992) ≤ n1 / C := by
    have := div_le_div_of_nonneg_right hn1l (le_of_lt hC)
    calc (n : ℚ) / C * (1 - 1 / 9007199254740992)
        = (n : ℚ) * (1 - 1 / 9007199254740992) / C := by ring
      _ ≤ n1 / C := this
  have h1u : n1 / C ≤ (n : ℚ) / C * (1 + 1 / 9007199254740992) := by
    have := div_le_div_of_nonneg_right hn1u (le_of_lt hC)
    calc n1 / C ≤ (n : ℚ) * (1 + 1 / 9007199254740992) / C := this
      _ = (n : ℚ) / C * (1 + 1 / 9007199254740992) := by ring
  obtain ⟨e1, he1, he10, he1l, he1u⟩ := Dbl.round64_bounded (n1 / C)
    (div_nonneg hn10 (le_of_lt hC)) (by linarith)
  refine ⟨e1, ?_, he10, by linarith, by linarith⟩
  rw [hn1, Dbl.div_fin _ _ (ne_of_gt hC), he1]

/-- The throttle step in binary64, for a ceiling `C > 0`, `n < 2 ^ 64` bytes
copied with `n / C ≤ 2 ^ 64` and an elapsed time `t ≥ 0`.  Either Sleep is not
called, and then `n / C` is not above `t` by more than the rounding error; or
the argument of Sleep is the truncation, clamped to 1000, of a `double` that
is within `1000 * (n / C + 1) / 2 ^ 50` of `(n / C - t) * 1000`. -/
theorem throttle_cases (oor : Dbl → Nat) (C : ℚ) (hC : 0 < C) (n : Nat)
    (hn : n < 18446744073709551616) (t : ℚ) (ht : 0 ≤ t)
    (hE : (n : ℚ) / C ≤ 18446744073709551616) :
    (throttle oor (Dbl.fin C) n (Dbl.fin t) = none ∧
      (n : ℚ) / C * (1 - 1 / 4503599627370496) - 1 / 1267650600228229401496703205376 ≤ t) ∨
    ∃ x1 : ℚ,
      throttle oor (Dbl.fin C) n (Dbl.fin t) = some (min (Dbl.toDWORD oor (Dbl.fin x1)) 1000) ∧
      0 ≤ x1 ∧
      t ≤ (n : ℚ) / C * (1 + 1 / 2251799813685248) + 1 / 1267650600228229401496703205376 ∧
      ((n : ℚ) / C - t) * 1000 - 1000 * ((n : ℚ) / C + 1) / 1125899906842624 ≤ x1 ∧
      x1 ≤ ((n : ℚ) / C - t) * 1000 + 1000 * ((n : ℚ) / C + 1) / 1125899906842624 := by
  have hE0 : 0 ≤ (n : ℚ) / C := div_nonneg (Nat.cast_nonneg n) (le_of_lt hC)
  obtain ⟨e1, he1, he10, he1l, he1u⟩ := expected_time_cases C hC n hn hE
  unfold throttle
  simp only [he1]
  by_cases hlt : t < e1
  · right
    have hl : Dbl.lt (Dbl.fin t) (Dbl.fin e1) = true := by
      show decide (t < e1) = true
      exact decide_eq_true hlt
    obtain ⟨d1, hd1, hd10, hd1l, hd1u⟩ := Dbl.round64_bounded (e1 - t) (by linarith)
      (by linarith)
    obtain ⟨x1, hx1, hx10, hx1l, hx1u⟩ := Dbl.round64_bounded (d1 * 1000) (by linarith)
      (by linarith)
    refine ⟨x1, ?_, hx10, by linarith, ?_, ?_⟩
    · rw [if_pos hl, Dbl.sub_fin, hd1, Dbl.mul_fin, hx1]
    · linarith
    · linarith
  · left
    have hl : Dbl.lt (Dbl.fin t) (Dbl.fin e1) = false := by
      show decide (t < e1) = false
      exact decide_eq_false hlt
    refine ⟨by rw [hl]; rfl, ?_⟩
    have := not_lt.mp hlt
    linarith

/-- The throttle step does not call Sleep when the elapsed time, a binary64
number, is at least `n / C`, for a byte count below `2 ^ 53`. -/
theorem throttle_none_of_le (oor : Dbl → Nat) (C : ℚ) (hC : 0 < C) (n : Nat)
    (hn : n < 9007199254740992) (t : ℚ) (ht : Dbl.round64 t = Dbl.fin t)
    (h : (n : ℚ) / C ≤ t) :
    throttle oor (Dbl.fin C) n (Dbl.fin t) = none := by
  obtain ⟨y, hy, -, hyt⟩ := Dbl.round64_le_representable ((n : ℚ) / C) t
    (div_nonneg (Nat.cast_nonneg n) (le_of_lt hC)) h ht
  have he : Dbl.div (Dbl.ofNat n) (Dbl.fin C) = Dbl.fin y := by
    rw [Dbl.ofNat_of_lt n hn, Dbl.div_fin _ _ (ne_of_gt hC), hy]
  have hl : Dbl.lt (Dbl.fin t) (Dbl.fin y) = false := by
    show decide (t < y) = false
    exact decide_eq_false (not_lt.mpr hyt)
  unfold throttle
  simp only [he, hl]
  rfl

/-- The throttle step does not call Sleep when the elapsed time is above
`n / C` by more than the rounding error. -/
theorem throttle_eq_none (oor : Dbl → Nat) (C : ℚ) (hC : 0 < C) (n : Nat)
    (hn : n < 18446744073709551616) (t : ℚ) (ht : 0 ≤ t)
    (hE : (n : ℚ) / C ≤ 18446744073709551616)
    (hlate : (n : ℚ) / C * (1 + 1 / 2251799813685248) + 1 / 1267650600228229401496703205376 < t) :
    throttle oor (Dbl.fin C) n (Dbl.fin t) = none := by
  rcases throttle_cases oor C hC n hn t ht hE with ⟨hnone, -⟩ | ⟨x1, -, -, hb, -, -⟩
  · exact hnone
  · linarith

/-- The throttle step asks for the full second when the transfer is ahead of
schedule by more than a second and the rounding error. -/
theorem throttle_eq_clamped (oor : Dbl → Nat) (C : ℚ) (hC : 0 < C) (n : Nat)
    (hn : n < 18446744073709551616) (t : ℚ) (ht : 0 ≤ t)
    (hE : (n : ℚ) / C ≤ 18446744073709551616)
    (h1 : 1000 + 1000 * ((n : ℚ) / C + 1) / 1125899906842624 ≤ ((n : ℚ) / C - t) * 1000)
    (h2 : ((n : ℚ) / C - t) * 1000 + 1000 * ((n : ℚ) / C + 1) / 1125899906842624 < 4294967296) :
    throttle oor (Dbl.fin C) n (Dbl.fin t) = some 1000 := by
  have hE0 : 0 ≤ (n : ℚ) / C := div_nonneg (Nat.cast_nonneg n) (le_of_lt hC)
  rcases throttle_cases oor C hC n hn t ht hE with ⟨-, hb⟩ | ⟨x1, hsome, hx10, -, hxl, hxu⟩
  · linarith
  · rw [hsome, Dbl.toDWORD_fin oor x1 hx10 (by linarith)]
    have hx : (1000 : ℚ) ≤ x1 := by linarith
    have hfl : (1000 : ℤ) ≤ ⌊x1⌋ := Int.le_floor.mpr (by exact_mod_cast hx)
    have : 1000 ≤ ⌊x1⌋.toNat := by omega
    rw [min_eq_right this]

/-- The sleep requested by the throttle step brings the transfer back on
schedule, up to one millisecond and the rounding error, when it was at most
one second ahead beforehand.  `n` bytes are copied at a ceiling of at least
one byte per second, and the clock read `cur`. -/
theorem throttle_on_schedule (oor : Dbl → Nat) (C : ℚ) (hC : 1 ≤ C) (n : Nat)
    (hn : n < 18446744073709551616) (t0 cur : Nat) (h : t0 ≤ cur)
    (hinv : (n : ℚ) / C * (1 - 1 / 562949953421312) ≤
      seconds t0 cur + 1 + 1 / 1000 + 1 / 562949953421312) :
    (n : ℚ) / C * (1 - 1 / 562949953421312) ≤
      seconds t0 cur +
        (((throttle oor (Dbl.fin C) n (duration_seconds t0 cur)).getD 0 : ℕ) : ℚ) / 1000 +
        1 / 1000 + 1 / 562949953421312 := by
  have hC0 : (0 : ℚ) < C := by linarith
  have hnq : (n : ℚ) < 18446744073709551616 := by exact_mod_cast hn
  have hE0 : 0 ≤ (n : ℚ) / C := div_nonneg (Nat.cast_nonneg n) (le_of_lt hC0)
  have hE : (n : ℚ) / C ≤ 18446744073709551616 := by
    have : (n : ℚ) / C ≤ n := div_le_self (Nat.cast_nonneg n) hC
    linarith
  have hT0 : 0 ≤ seconds t0 cur := by
    have := seconds_mono t0 t0 cur h
    rw [seconds_self] at this
    exact this
  rcases duration_seconds_cases t0 cur h with ⟨hinf, hge⟩ | ⟨th, hth, hth0, hthl, hthu⟩
  · -- the elapsed time overflowed: no sleep, and the time is far above `n / C`
    have : throttle oor (Dbl.fin C) n (duration_seconds t0 cur) = none := by
      unfold throttle
      simp only [hinf, Dbl.lt_posInf_left]
      rfl
    rw [this]
    simp only [Option.getD_none, Nat.cast_zero, zero_div]
    linarith
  · rw [hth]
    rcases throttle_cases oor C hC0 n hn th hth0 hE with ⟨hnone, hb⟩ | ⟨x1, hsome, hx10, hb1, hxl, hxu⟩
    · rw [hnone]
      simp only [Option.getD_none, Nat.cast_zero, zero_div]
      linarith
    · rw [hsome]
      simp only [Option.getD_some]
      rcases Nat.lt_or_ge (min (Dbl.toDWORD oor (Dbl.fin x1)) 1000) 1000 with hk | hk
      · -- the request is not clamped: it is the truncation of `x1`
        have hr : x1 < 4294967296 := by linarith
        rw [Dbl.toDWORD_fin oor x1 hx10 hr] at hk ⊢
        have hk2 : ⌊x1⌋.toNat < 1000 := by
          rcases Nat.lt_or_ge ⌊x1⌋.toNat 1000 with h' | h'
          · exact h'
          · rw [min_eq_right h'] at hk
            omega
        rw [min_eq_left (le_of_lt hk2)]
        have hfl0 : 0 ≤ ⌊x1⌋ := Int.floor_nonneg.mpr hx10
        have hcast : ((⌊x1⌋.toNat : ℕ) : ℚ) = (⌊x1⌋ : ℚ) := by
          have := Int.toNat_of_nonneg hfl0
          exact_mod_cast this
        have hlt : x1 < (⌊x1⌋ : ℚ) + 1 := Int.lt_floor_add_one x1
        rw [hcast]
        linarith
      · have hk2 : min (Dbl.toDWORD oor (Dbl.fin x1)) 1000 = 1000 :=
          le_antisymm (Nat.min_le_right _ _) hk
        rw [hk2]
        push_cast
        linarith

/-- The record of an iteration, from the outcome of its throttle step. -/
theorem after_write_of_sleep (env : Env) (ms : Dbl) (t0 copied clock iter count : Nat)
    (s : Option Nat)
    (h : throttle env.castOutOfRange ms (copied + count)
      (duration_seconds t0 (clock + env.rw iter)) = s) :
    (after_write env ms t0 copied clock iter count).1 =
      { count := count, copied := copied + count, chunk_start := clock,
        current_time := clock + env.rw iter, sleep_ms := s,
        end_time := clock + env.rw iter + s.getD 0 * 1000000 + env.over iter,
        speed := chunk_speed count
          (seconds clock (clock + env.rw iter + s.getD 0 * 1000000 + env.over iter)) } := by
  subst h
  rfl

/-- The clock at the end of an iteration, from the outcome of its throttle
step. -/
theorem after_write_clock (env : Env) (ms : Dbl) (t0 copied clock iter count : Nat)
    (s : Option Nat)
    (h : throttle env.castOutOfRange ms (copied + count)
      (duration_seconds t0 (clock + env.rw iter)) = s) :
    (after_write env ms t0 copied clock iter count).2 =
      clock + env.rw iter + s.getD 0 * 1000000 + env.over iter + env.post iter := by
  subst h
  rfl

theorem copy_loop_stop (env : Env) (ms : Dbl) (B t0 : Nat) (st : LoopState)
    (h : (st.inp.read B).1.gcount = 0) :
    copy_loop env ms B t0 st =
      { thrown := none, final := { st with inp := (st.inp.read B).1 }, log := [] } := by
  rw [copy_loop]
  simp only [h, dif_pos]

theorem copy_loop_throw (env : Env) (ms : Dbl) (B t0 : Nat) (st : LoopState)
    (h : ¬ (st.inp.read B).1.gcount = 0) (hb : (st.out.write (st.inp.read B).2).bad = true) :
    copy_loop env ms B t0 st =
      { thrown := some (CopyError.write_failed st.copied),
        final := { st with inp := (st.inp.read B).1, out := st.out.write (st.inp.read B).2 },
        log := [] } := by
  rw [copy_loop]
  simp only [h, dif_neg, not_false_eq_true, hb, if_true]

theorem copy_loop_step (env : Env) (ms : Dbl) (B t0 : Nat) (st : LoopState)
    (h : ¬ (st.inp.read B).1.gcount = 0) (hb : (st.out.write (st.inp.read B).2).bad = false) :
    copy_loop env ms B t0 st =
      { thrown := (copy_loop env ms B t0 (next_state env ms B t0 st)).thrown,
        final := (copy_loop env ms B t0 (next_state env ms B t0 st)).final,
        log := (after_write env ms t0 st.copied st.clock st.iter (st.inp.read B).1.gcount).1 ::
          (copy_loop env ms B t0 (next_state env ms B t0 st)).log } := by
  rw [copy_loop]
  simp only [h, dif_neg, not_false_eq_true, hb, Bool.false_eq_true, if_false, next_state]

/-- Induction along the iterations of the loop. -/
theorem loop_induction (env : Env) (ms : Dbl) (B t0 : Nat) (motive : LoopState → Prop)
    (stop : ∀ st, (st.inp.read B).1.gcount = 0 → motive st)
    (throw : ∀ st, ¬ (st.inp.read B).1.gcount = 0 →
      (st.out.write (st.inp.read B).2).bad = true → motive st)
    (step : ∀ st, ¬ (st.inp.read B).1.gcount = 0 →
      (st.out.write (st.inp.read B).2).bad = false →
      motive (next_state env ms B t0 st) → motive st)
    (st : LoopState) : motive st := by
  induction st using copy_loop.induct env ms B t0 with
  | case1 x r count h => exact stop x h
  | case2 x r count h out hb => exact throw x h hb
  | case3 x r count h out hb step2 ih =>
    have hb2 : (x.out.write (x.inp.read B).2).bad = false := by simpa using hb
    exact step x h hb2 ih

/-- Invariant rule for the records of the loop. -/
theorem log_invariant (env : Env) (ms : Dbl) (B t0 : Nat)
    (P : LoopState → Prop) (Q : ChunkRecord → Prop)
    (hstep : ∀ st, P st → ¬ (st.inp.read B).1.gcount = 0 →
      Q (after_write env ms t0 st.copied st.clock st.iter (st.inp.read B).1.gcount).1 ∧
      P (next_state env ms B t0 st))
    (st : LoopState) (hP : P st) :
    ∀ entry ∈ (copy_loop env ms B t0 st).log, Q entry := by
  induction st using loop_induction env ms B t0 with
  | stop x h =>
    rw [copy_loop_stop env ms B t0 x h]
    simp
  | throw x h hb =>
    rw [copy_loop_throw env ms B t0 x h hb]
    simp
  | step x h hb ih =>
    rw [copy_loop_step env ms B t0 x h hb]
    obtain ⟨hq, hp⟩ := hstep x hP h
    intro entry he
    simp only [List.mem_cons] at he
    rcases he with rfl | he
    · exact hq
    · exact ih hp entry he

/-- Every record of the loop is the record of one iteration. -/
theorem log_shape (env : Env) (ms : Dbl) (B t0 : Nat) (st : LoopState) :
    ∀ entry ∈ (copy_loop env ms B t0 st).log,
      ∃ copied clock iter count, entry = (after_write env ms t0 copied clock iter count).1 :=
  log_invariant env ms B t0 (fun _ => True)
    (fun entry => ∃ copied clock iter count,
      entry = (after_write env ms t0 copied clock iter count).1)
    (fun _ _ _ => ⟨⟨_, _, _, _, rfl⟩, trivial⟩) st trivial

/-- One iteration keeps the transfer on schedule, up to one millisecond and the
rounding error, when the chunk is not larger than one second of data at the
ceiling. -/
theorem after_write_on_schedule (env : Env) (C : ℚ) (hC : 0 < C) (t0 : Nat)
    (copied clock iter count : Nat) (hcount : (count : ℚ) ≤ C) (h1 : 1 ≤ count)
    (hn : copied + count < 18446744073709551616) (ht0 : t0 ≤ clock)
    (hinv : (copied : ℚ) / C * (1 - 1 / 562949953421312) ≤
      seconds t0 clock + 1 / 1000 + 1 / 562949953421312) :
    (((after_write env (Dbl.fin C) t0 copied clock iter count).1.copied : ℕ) : ℚ) / C *
        (1 - 1 / 562949953421312) ≤
      seconds t0 (after_write env (Dbl.fin C) t0 copied clock iter count).1.end_time
        + 1 / 1000 + 1 / 562949953421312 ∧
    ((copied + count : ℕ) : ℚ) / C * (1 - 1 / 562949953421312) ≤
      seconds t0 (after_write env (Dbl.fin C) t0 copied clock iter count).2
        + 1 / 1000 + 1 / 562949953421312 ∧
    t0 ≤ (after_write env (Dbl.fin C) t0 copied clock iter count).2 := by
  have hC1 : (1 : ℚ) ≤ C := le_trans (by exact_mod_cast h1) hcount
  have hcur : t0 ≤ clock + env.rw iter := le_trans ht0 (Nat.le_add_right _ _)
  have he0 : seconds t0 clock ≤ seconds t0 (clock + env.rw iter) :=
    seconds_mono t0 _ _ (Nat.le_add_right _ _)
  have hsplit : ((copied + count : ℕ) : ℚ) / C = (copied : ℚ) / C + (count : ℚ) / C := by
    push_cast
    ring
  have hc1 : (count : ℚ) / C ≤ 1 := (div_le_one hC).mpr hcount
  have hc0 : 0 ≤ (count : ℚ) / C := div_nonneg (Nat.cast_nonneg _) (le_of_lt hC)
  have hb := throttle_on_schedule env.castOutOfRange C hC1 (copied + count) hn t0
    (clock + env.rw iter) hcur (by rw [hsplit]; linarith)
  simp only [after_write]
  set s := (throttle env.castOutOfRange (Dbl.fin C) (copied + count)
    (duration_seconds t0 (clock + env.rw iter))).getD 0 with hs
  have hend : seconds t0 (clock + env.rw iter) + (s : ℚ) / 1000 ≤
      seconds t0 (clock + env.rw iter + s * 1000000 + env.over iter) := by
    have e1 : seconds t0 (clock + env.rw iter + s * 1000000 + env.over iter) =
        seconds t0 (clock + env.rw iter) + ((s * 1000000 : ℕ) : ℚ) / 1000000000 +
          (env.over iter : ℚ) / 1000000000 := by
      rw [seconds_add, seconds_add]
    have : (0 : ℚ) ≤ (env.over iter : ℚ) / 1000000000 := by positivity
    rw [e1]
    push_cast
    linarith
  have hend2 : seconds t0 (clock + env.rw iter + s * 1000000 + env.over iter) ≤
      seconds t0 (clock + env.rw iter + s * 1000000 + env.over iter + env.post iter) :=
    seconds_mono t0 _ _ (Nat.le_add_right _ _)
  refine ⟨by linarith, by linarith, by omega⟩

/-- From a state that is on schedule every record of the loop is on schedule,
when the buffer holds at most one second of data at the ceiling and the source
has less than `2 ^ 64` bytes. -/
theorem loop_on_schedule (env : Env) (C : ℚ) (hC : 0 < C) (B t0 : Nat) (hB : (B : ℚ) ≤ C)
    (st : LoopState)
    (hst : (st.copied : ℚ) / C * (1 - 1 / 562949953421312) ≤
      seconds t0 st.clock + 1 / 1000 + 1 / 562949953421312)
    (ht0 : t0 ≤ st.clock)
    (hsize : st.copied + (st.inp.data.length - st.inp.pos) < 18446744073709551616) :
    ∀ entry ∈ (copy_loop env (Dbl.fin C) B t0 st).log,
      (entry.copied : ℚ) / C * (1 - 1 / 562949953421312) ≤
        seconds t0 entry.end_time + 1 / 1000 + 1 / 562949953421312 := by
  apply log_invariant env (Dbl.fin C) B t0
    (fun st => (st.copied : ℚ) / C * (1 - 1 / 562949953421312) ≤
        seconds t0 st.clock + 1 / 1000 + 1 / 562949953421312 ∧
      t0 ≤ st.clock ∧
      st.copied + (st.inp.data.length - st.inp.pos) < 18446744073709551616)
    (fun entry => (entry.copied : ℚ) / C * (1 - 1 / 562949953421312) ≤
        seconds t0 entry.end_time + 1 / 1000 + 1 / 562949953421312)
  · intro st hP hcount
    obtain ⟨hP1, hP2, hP3⟩ := hP
    obtain ⟨hd, hp, hg⟩ := IStream.read_progress st.inp B
    have hle : (st.inp.read B).1.gcount ≤ B := IStream.gcount_le _ _
    have hcq : (((st.inp.read B).1.gcount : ℕ) : ℚ) ≤ C :=
      le_trans (by exact_mod_cast hle) hB
    obtain ⟨h1, h2, h3⟩ := after_write_on_schedule env C hC t0 st.copied st.clock st.iter
      (st.inp.read B).1.gcount hcq (Nat.one_le_iff_ne_zero.mpr hcount) (by omega) hP2 hP1
    refine ⟨h1, ?_, ?_, ?_⟩
    · simp only [next_state]
      exact h2
    · simp only [next_state]
      exact h3
    · simp only [next_state]
      rw [hd, hp]
      omega
  · exact ⟨hst, ht0, hsize⟩

theorem start_state_on_schedule (env : Env) (C : ℚ) (t0 : Nat) (data : List Byte) :
    ((start_state env t0 data).copied : ℚ) / C * (1 - 1 / 562949953421312) ≤
      seconds t0 (start_state env t0 data).clock + 1 / 1000 + 1 / 562949953421312 ∧
    t0 ≤ (start_state env t0 data).clock ∧
    (start_state env t0 data).copied +
      ((start_state env t0 data).inp.data.length - (start_state env t0 data).inp.pos) =
        data.length := by
  refine ⟨?_, Nat.le_add_right _ _, ?_⟩
  · show ((0 : ℕ) : ℚ) / C * (1 - 1 / 562949953421312) ≤
      seconds t0 (t0 + env.setup) + 1 / 1000 + 1 / 562949953421312
    have : (0 : ℚ) ≤ seconds t0 (t0 + env.setup) := by
      rw [seconds_add, seconds_self]
      positivity
    rw [Nat.cast_zero, zero_div, zero_mul]
    linarith
  · show 0 + (data.length - 0) = data.length
    omega

theorem timeline_counts (env : Env) (ms : Dbl) (t0 : Nat) (sizes : List Nat) :
    ∀ copied clock iter,
      (timeline env ms t0 copied clock iter sizes).map (fun e => e.count) = sizes := by
  induction sizes with
  | nil => intro _ _ _; rfl
  | cons n rest ih =>
    intro copied clock iter
    simp only [timeline, List.map_cons, ih]
    rfl

/-- The loop on a source and a destination that do not fault. -/
theorem copy_loop_clean (env : Env) (ms : Dbl) (B t0 : Nat) (hB : 0 < B) (st : LoopState)
    (hf : st.inp.faultAt = none) (hpos : st.inp.pos ≤ st.inp.data.length)
    (hgood : st.inp.good = false → st.inp.pos = st.inp.data.length)
    (hroom : st.out.room = none) (hbad : st.out.bad = false) :
    (copy_loop env ms B t0 st).thrown = none ∧
    (copy_loop env ms B t0 st).final.out.written = st.out.written ++ st.inp.data.drop st.inp.pos ∧
    (copy_loop env ms B t0 st).final.out.bad = false ∧
    (copy_loop env ms B t0 st).final.copied = st.copied + (st.inp.data.length - st.inp.pos) ∧
    (copy_loop env ms B t0 st).final.inp.pos = st.inp.data.length ∧
    (copy_loop env ms B t0 st).final.inp.data = st.inp.data ∧
    (copy_loop env ms B t0 st).log =
      timeline env ms t0 st.copied st.clock st.iter
        (chunk_sizes (st.inp.data.length - st.inp.pos) B) := by
  induction st using loop_induction env ms B t0 with
  | stop x h =>
    rw [copy_loop_stop env ms B t0 x h]
    have hend : x.inp.pos = x.inp.data.length := by
      by_cases hg : x.inp.good = true
      · have := (IStream.read_good x.inp B hf hg).1
        rw [this] at h
        have : x.inp.data.length - x.inp.pos = 0 := by
          rcases Nat.min_eq_zero_iff.mp h with h' | h'
          · omega
          · exact h'
        omega
      · exact hgood (by simpa using hg)
    have hr : (x.inp.read B).1.pos = x.inp.pos ∧ (x.inp.read B).1.data = x.inp.data := by
      by_cases hg : x.inp.good = true
      · have := IStream.read_good x.inp B hf hg
        refine ⟨?_, this.2.2.1⟩
        rw [this.2.1, hend]; simp
      · have := IStream.read_not_good x.inp B (by simpa using hg)
        exact ⟨this.2.1, this.2.2.1⟩
    simp [hend, hbad, hr.1, hr.2, chunk_sizes_zero, timeline]
  | throw x h hb =>
    have := (OStream.write_unlimited x.out (x.inp.read B).2 hroom hbad).2.2
    simp [this] at hb
  | step x h hb ih =>
    have hg : x.inp.good = true := by
      by_contra hg
      exact h (IStream.read_not_good x.inp B (by simpa using hg)).1
    obtain ⟨hc, hp, hd, hfa, hbuf, hgd, -⟩ := IStream.read_good x.inp B hf hg
    obtain ⟨hw, hwr, hwb⟩ := OStream.write_unlimited x.out (x.inp.read B).2 hroom hbad
    rw [copy_loop_step env ms B t0 x h hwb]
    have hrem : 0 < x.inp.data.length - x.inp.pos := by
      rw [hc] at h
      rcases Nat.lt_or_ge 0 (x.inp.data.length - x.inp.pos) with h' | h'
      · exact h'
      · exfalso; apply h; simp [Nat.le_zero.mp h']
    have hmin := Nat.min_le_right B (x.inp.data.length - x.inp.pos)
    have ih' := ih (by simpa [next_state] using hfa)
      (by simp only [next_state]; rw [hp, hd]; omega)
      (by
        simp only [next_state]
        intro hng
        have := hgd hng
        rw [hp, hd, min_eq_right (le_of_lt this)]
        omega)
      (by simpa [next_state] using hwr)
      (by simpa [next_state] using hwb)
    obtain ⟨i1, i2, i3, i4, i5, i6, i7⟩ := ih'
    simp only [next_state] at i1 i2 i3 i4 i5 i6 i7 ⊢
    refine ⟨i1, ?_, i3, ?_, ?_, ?_, ?_⟩
    · rw [i2, hw, hbuf, hd, hp, List.append_assoc]
      congr 1
      rw [← List.drop_drop, List.take_append_drop]
    · rw [i4, hc, hd, hp]
      omega
    · rw [i5, hd]
    · rw [i6, hd]
    · rw [i7, hd, hp, hc, chunk_sizes_pos _ B hB hrem]
      have e : x.inp.data.length - (x.inp.pos + min B (x.inp.data.length - x.inp.pos)) =
          x.inp.data.length - x.inp.pos - min B (x.inp.data.length - x.inp.pos) := by omega
      rw [e]
      rfl

/-- The loop of a run without faults, from the variables on entry. -/
theorem copy_loop_from_start (env : Env) (ms : Dbl) (B t0 : Nat) (hB : 0 < B)
    (data : List Byte) (hr : env.readFault = none) (hw : env.writeRoom = none) :
    (copy_loop env ms B t0 (start_state env t0 data)).thrown = none ∧
    (copy_loop env ms B t0 (start_state env t0 data)).final.out.written = data ∧
    (copy_loop env ms B t0 (start_state env t0 data)).final.out.bad = false ∧
    (copy_loop env ms B t0 (start_state env t0 data)).final.copied = data.length ∧
    (copy_loop env ms B t0 (start_state env t0 data)).final.inp.pos = data.length ∧
    (copy_loop env ms B t0 (start_state env t0 data)).log =
      timeline env ms t0 0 (t0 + env.setup) 0 (chunk_sizes data.length B) := by
  have h := copy_loop_clean env ms B t0 hB (start_state env t0 data)
    (by simp [start_state, IStream.opened, hr])
    (by simp [start_state, IStream.opened])
    (by simp [start_state, IStream.opened, IStream.good])
    (by simp [start_state, OStream.opened, hw])
    (by simp [start_state, OStream.opened])
  obtain ⟨h1, h2, h3, h4, h5, -, h7⟩ := h
  refine ⟨h1, ?_, h3, ?_, ?_, ?_⟩
  · simpa [start_state, IStream.opened, OStream.opened] using h2
  · simpa [start_state, IStream.opened, OStream.opened] using h4
  · simpa [start_state, IStream.opened, OStream.opened] using h5
  · simpa [start_state, IStream.opened, OStream.opened] using h7

theorem final_copied (env : Env) (ms : Dbl) (B t0 : Nat) (st : LoopState) :
    (copy_loop env ms B t0 st).final.copied = st.copied ∨
    ∃ entry ∈ (copy_loop env ms B t0 st).log,
      entry.copied = (copy_loop env ms B t0 st).final.copied := by
  induction st using loop_induction env ms B t0 with
  | stop x h =>
    rw [copy_loop_stop env ms B t0 x h]
    exact Or.inl rfl
  | throw x h hb =>
    rw [copy_loop_throw env ms B t0 x h hb]
    exact Or.inl rfl
  | step x h hb ih =>
    rw [copy_loop_step env ms B t0 x h hb]
    right
    rcases ih with ih | ⟨entry, he, hc⟩
    · exact ⟨_, List.mem_cons_self _ _, by rw [ih]; rfl⟩
    · exact ⟨entry, List.mem_cons_of_mem _ he, hc⟩

/-- The only exception the loop throws is the write failure: a fault of the
source never surfaces. -/
theorem thrown_is_write_failure (env : Env) (ms : Dbl) (B t0 : Nat) (st : LoopState) :
    (copy_loop env ms B t0 st).thrown = none ∨
    ∃ n, (copy_loop env ms B t0 st).thrown = some (CopyError.write_failed n) := by
  induction st using loop_induction env ms B t0 with
  | stop x h =>
    rw [copy_loop_stop env ms B t0 x h]
    exact Or.inl rfl
  | throw x h hb =>
    rw [copy_loop_throw env ms B t0 x h hb]
    exact Or.inr ⟨_, rfl⟩
  | step x h hb ih =>
    rw [copy_loop_step env ms B t0 x h hb]
    exact ih

theorem copy_file_with_rate_open (env : Env) (t0 : Nat) (fs : FileSys) (src dst : String)
    (rate : Dbl) (B : Nat) (hs : fs.opensForReading src = true) (hd : fs.canWrite dst = true) :
    copy_file_with_rate env t0 fs src dst rate B =
      { value :=
          match (copy_loop env (Dbl.mul (Dbl.mul rate (Dbl.fin 1024)) (Dbl.fin 1024)) B t0
            (start_state env t0 ((fs.put dst []).contents src))).thrown with
          | some e => Except.error e
          | none => Except.ok true,
        fs := (fs.put dst []).put dst
          (copy_loop env (Dbl.mul (Dbl.mul rate (Dbl.fin 1024)) (Dbl.fin 1024)) B t0
            (start_state env t0 ((fs.put dst []).contents src))).final.out.written,
        log := (copy_loop env (Dbl.mul (Dbl.mul rate (Dbl.fin 1024)) (Dbl.fin 1024)) B t0
            (start_state env t0 ((fs.put dst []).contents src))).log } := by
  simp [copy_file_with_rate, hs, hd]

theorem copy_file_with_rate_no_source (env : Env) (t0 : Nat) (fs : FileSys)
    (src dst : String) (rate : Dbl) (B : Nat) (hs : fs.opensForReading src = false) :
    copy_file_with_rate env t0 fs src dst rate B =
      { value := Except.error CopyError.open_source,
        fs := if fs.canWrite dst then fs.put dst [] else fs,
        log := [] } := by
  simp [copy_file_with_rate, hs]

theorem copy_file_with_rate_log (env : Env) (t0 : Nat) (fs : FileSys) (src dst : String)
    (rate : Dbl) (B : Nat) :
    (copy_file_with_rate env t0 fs src dst rate B).log = [] ∨
    (copy_file_with_rate env t0 fs src dst rate B).log =
      (copy_loop env (Dbl.mul (Dbl.mul rate (Dbl.fin 1024)) (Dbl.fin 1024)) B t0
        (start_state env t0 ((fs.put dst []).contents src))).log := by
  by_cases hs : fs.opensForReading src = true
  · by_cases hd : fs.canWrite dst = true
    · right
      rw [copy_file_with_rate_open env t0 fs src dst rate B hs hd]
    · left
      simp [copy_file_with_rate, hs, hd]
  · left
    simp [copy_file_with_rate, hs]

end Copy2

/-! ## The loop of file_copy.cpp -/

namespace FileCopyCpp

theorem copy_loop_done (env : Env) (silent : Bool) (ms : Dbl) (total : Nat) (st : LoopState)
    (h : st.source.ok = false) :
    copy_loop env silent ms total st = { final := st, log := [] } := by
  rw [copy_loop]
  simp [h]

theorem copy_loop_transfer (env : Env) (silent : Bool) (ms : Dbl) (total : Nat) (st : LoopState)
    (h : st.source.ok = true) (hp : 0 < (st.source.read BUFFER_SIZE).1.gcount) :
    copy_loop env silent ms total st =
      { final := (copy_loop env silent ms total (next_state env silent ms total st)).final,
        log := (transfer env silent ms total st.total_bytes_copied st.clock st.iter
            (st.source.read BUFFER_SIZE).1.gcount).1 ::
          (copy_loop env silent ms total (next_state env silent ms total st)).log } := by
  rw [copy_loop]
  simp only [h, dif_pos, gt_iff_lt, hp, if_true, next_state]

theorem copy_loop_empty (env : Env) (silent : Bool) (ms : Dbl) (total : Nat) (st : LoopState)
    (h : st.source.ok = true) (hz : (st.source.read BUFFER_SIZE).1.gcount = 0) :
    copy_loop env silent ms total st =
      copy_loop env silent ms total
        { st with source := (st.source.read BUFFER_SIZE).1,
                  clock := st.clock + env.post st.iter, iter := st.iter + 1 } := by
  rw [copy_loop]
  simp only [h, dif_pos, gt_iff_lt, hz, lt_self_iff_false, if_false]

/-- Induction along the iterations of the loop. -/
theorem file_loop_induction (env : Env) (silent : Bool) (ms : Dbl) (total : Nat)
    (motive : LoopState → Prop)
    (done : ∀ st, st.source.ok = false → motive st)
    (empty : ∀ st, st.source.ok = true → (st.source.read BUFFER_SIZE).1.gcount = 0 →
      motive { st with source := (st.source.read BUFFER_SIZE).1,
                       clock := st.clock + env.post st.iter, iter := st.iter + 1 } → motive st)
    (step : ∀ st, st.source.ok = true → 0 < (st.source.read BUFFER_SIZE).1.gcount →
      motive (next_state env silent ms total st) → motive st)
    (st : LoopState) : motive st := by
  induction st using copy_loop.induct env silent ms total with
  | case1 x h r n hp dest step2 ih => exact step x h hp ih
  | case2 x h r n hp ih =>
    have hz : (x.source.read BUFFER_SIZE).1.gcount = 0 := by
      have : ¬ 0 < (x.source.read BUFFER_SIZE).1.gcount := hp
      omega
    exact empty x h hz ih
  | case3 x h => exact done x (by simpa using h)

/-- Every record of the loop is the record of one iteration. -/
theorem file_log_shape (env : Env) (silent : Bool) (ms : Dbl) (total : Nat) (st : LoopState) :
    ∀ entry ∈ (copy_loop env silent ms total st).log,
      ∃ copied clock iter n, entry = (transfer env silent ms total copied clock iter n).1 := by
  induction st using file_loop_induction env silent ms total with
  | done x h =>
    rw [copy_loop_done env silent ms total x h]
    simp
  | empty x h hz ih =>
    rw [copy_loop_empty env silent ms total x h hz]
    exact ih
  | step x h hp ih =>
    rw [copy_loop_transfer env silent ms total x h hp]
    intro entry he
    simp only [List.mem_cons] at he
    rcases he with rfl | he
    · exact ⟨_, _, _, _, rfl⟩
    · exact ih entry he

/-- The loop on a source and a destination that do not fault. -/
theorem file_loop_clean (env : Env) (silent : Bool) (ms : Dbl) (total : Nat) (st : LoopState)
    (hf : st.source.faultAt = none) (hpos : st.source.pos ≤ st.source.data.length)
    (hgood : st.source.good = false → st.source.pos = st.source.data.length)
    (hroom : st.dest.room = none) (hbad : st.dest.bad = false) :
    (copy_loop env silent ms total st).final.dest.written =
      st.dest.written ++ st.source.data.drop st.source.pos ∧
    (copy_loop env silent ms total st).final.dest.bad = false ∧
    (copy_loop env silent ms total st).final.total_bytes_copied =
      st.total_bytes_copied + (st.source.data.length - st.source.pos) ∧
    (copy_loop env silent ms total st).log =
      timeline env silent ms total st.total_bytes_copied st.clock st.iter
        (chunk_sizes (st.source.data.length - st.source.pos) BUFFER_SIZE) := by
  induction st using file_loop_induction env silent ms total with
  | done x h =>
    rw [copy_loop_done env silent ms total x h]
    have hng : x.source.good = false := by
      by_contra hg
      have := IStream.ok_of_good x.source (by simpa using hg)
      rw [h] at this
      exact Bool.false_ne_true this
    have := hgood hng
    simp [this, hbad, chunk_sizes_zero, timeline]
  | empty x h hz ih =>
    rw [copy_loop_empty env silent ms total x h hz]
    have hend : x.source.pos = x.source.data.length := by
      by_cases hg : x.source.good = true
      · have := (IStream.read_good x.source BUFFER_SIZE hf hg).1
        rw [this] at hz
        have : x.source.data.length - x.source.pos = 0 := by
          rcases Nat.min_eq_zero_iff.mp hz with h' | h'
          · simp [BUFFER_SIZE] at h'
          · exact h'
        omega
      · exact hgood (by simpa using hg)
    have hr : (x.source.read BUFFER_SIZE).1.pos = x.source.pos ∧
        (x.source.read BUFFER_SIZE).1.data = x.source.data ∧
        (x.source.read BUFFER_SIZE).1.faultAt = none := by
      by_cases hg : x.source.good = true
      · have := IStream.read_good x.source BUFFER_SIZE hf hg
        refine ⟨?_, this.2.2.1, this.2.2.2.1⟩
        rw [this.2.1, hend]; simp
      · have := IStream.read_not_good x.source BUFFER_SIZE (by simpa using hg)
        exact ⟨this.2.1, this.2.2.1, by rw [this.2.2.2.1, hf]⟩
    have ih' := ih hr.2.2 (by simp only; rw [hr.1, hr.2.1]; exact hpos)
      (by intro _; simp only; rw [hr.1, hr.2.1]; exact hend) hroom hbad
    simp only [hr.1, hr.2.1, hend, Nat.sub_self, chunk_sizes_zero, timeline] at ih' ⊢
    exact ih'
  | step x h hp ih =>
    have hg : x.source.good = true := by
      by_contra hg
      have := (IStream.read_not_good x.source BUFFER_SIZE (by simpa using hg)).1
      omega
    obtain ⟨hc, hps, hd, hfa, hbuf, hgd, -⟩ := IStream.read_good x.source BUFFER_SIZE hf hg
    obtain ⟨hw, hwr, hwb⟩ :=
      OStream.write_unlimited x.dest (x.source.read BUFFER_SIZE).2 hroom hbad
    rw [copy_loop_transfer env silent ms total x h hp]
    have hB : 0 < BUFFER_SIZE := by simp [BUFFER_SIZE]
    have hrem : 0 < x.source.data.length - x.source.pos := by
      rw [hc] at hp
      exact lt_of_lt_of_le hp (Nat.min_le_right _ _)
    have hmin := Nat.min_le_right BUFFER_SIZE (x.source.data.length - x.source.pos)
    have ih' := ih (by simpa [next_state] using hfa)
      (by simp only [next_state]; rw [hps, hd]; omega)
      (by
        simp only [next_state]
        intro hng
        have := hgd hng
        rw [hps, hd, min_eq_right (le_of_lt this)]
        omega)
      (by simpa [next_state] using hwr)
      (by simpa [next_state] using hwb)
    obtain ⟨i1, i2, i3, i4⟩ := ih'
    simp only [next_state] at i1 i2 i3 i4 ⊢
    refine ⟨?_, i2, ?_, ?_⟩
    · rw [i1, hw, hbuf, hd, hps, List.append_assoc]
      congr 1
      rw [← List.drop_drop, List.take_append_drop]
    · rw [i3, hc, hd, hps]
      omega
    · rw [i4, hd, hps, hc, chunk_sizes_pos _ BUFFER_SIZE hB hrem]
      have e : x.source.data.length -
          (x.source.pos + min BUFFER_SIZE (x.source.data.length - x.source.pos)) =
          x.source.data.length - x.source.pos -
            min BUFFER_SIZE (x.source.data.length - x.source.pos) := by omega
      rw [e]
      rfl

/-- The loop of a run without faults, from the variables on entry. -/
theorem file_loop_from_start (env : Env) (silent : Bool) (ms : Dbl) (total t0 : Nat)
    (data : List Byte) (hr : env.readFault = none) (hw : env.writeRoom = none) :
    (copy_loop env silent ms total (start_state env t0 data)).final.dest.written = data ∧
    (copy_loop env silent ms total (start_state env t0 data)).final.dest.bad = false ∧
    (copy_loop env silent ms total (start_state env t0 data)).final.total_bytes_copied =
      data.length ∧
    (copy_loop env silent ms total (start_state env t0 data)).log =
      timeline env silent ms total 0 t0 0 (chunk_sizes data.length BUFFER_SIZE) := by
  have h := file_loop_clean env silent ms total (start_state env t0 data)
    (by simp [start_state, IStream.opened, hr])
    (by simp [start_state, IStream.opened])
    (by simp [start_state, IStream.opened, IStream.good])
    (by simp [start_state, OStream.opened, hw])
    (by simp [start_state, OStream.opened])
  obtain ⟨h1, h2, h3, h4⟩ := h
  refine ⟨?_, h2, ?_, ?_⟩
  · simpa [start_state, IStream.opened, OStream.opened] using h1
  · simpa [start_state, IStream.opened, OStream.opened] using h3
  · simpa [start_state, IStream.opened, OStream.opened] using h4

/-- With a ceiling that is not positive the speed limit block is not entered
and nothing is slept. -/
theorem no_speed_limit (env : Env) (silent : Bool) (ms : Dbl) (total : Nat)
    (hms : Dbl.lt (Dbl.fin 0) ms = false) (st : LoopState) :
    ∀ entry ∈ (copy_loop env silent ms total st).log,
      entry.throttle = none ∧ entry.slept_ns = 0 := by
  intro entry he
  obtain ⟨copied, clock, iter, n, rfl⟩ := file_log_shape env silent ms total st entry he
  simp [transfer, hms]

/-- Without the option `-M` the ceiling keeps the value it had. -/
theorem parse_options_keeps_ceiling (stod : String → Dbl) :
    ∀ (args : List String) (silent : Bool) (ms : Dbl) (opts : Options),
      "-M" ∉ args → parse_options stod silent ms args = some opts → opts.max_speed = ms := by
  intro args
  induction args using List.rec with
  | nil =>
    intro silent ms opts _ h
    simp only [parse_options, Option.some.injEq] at h
    rw [← h]
  | cons arg rest ih =>
    intro silent ms opts hM h
    have harg : arg ≠ "-M" := fun e => hM (by rw [e]; exact List.mem_cons_self _ _)
    have hrest : "-M" ∉ rest := fun e => hM (List.mem_cons_of_mem _ e)
    cases rest with
    | nil =>
      simp only [parse_options] at h
      split at h
      · split at h
        · simp only [Option.some.injEq] at h
          rw [← h]
        · simp at h
      · simp only [Option.some.injEq] at h
        rw [← h]
    | cons value rest2 =>
      simp only [parse_options] at h
      split at h
      · split at h
        · exact ih true ms opts hrest h
        · simp [harg] at h
      · simp only [Option.some.injEq] at h
        rw [← h]

theorem main_log (stod : String → Dbl) (env : Env) (t0 : Nat) (fs : FileSys)
    (argv : List String) :
    (main stod env t0 fs argv).log = [] ∨
    ∃ opts source_path dest_path,
      parse_options stod false (Dbl.fin (-1)) argv.tail = some opts ∧
      (main stod env t0 fs argv).log =
        (copy_loop env opts.silent_mode opts.max_speed (fs.contents source_path).length
          (start_state env t0 ((fs.put dest_path []).contents source_path))).log := by
  unfold main
  split
  · left; rfl
  · next opts hopts =>
    split
    · next source_path dest_path _ =>
      by_cases hs : fs.opensForReading source_path = true
      · by_cases hd : fs.canWrite dest_path = true
        · right
          refine ⟨opts, source_path, dest_path, hopts, ?_⟩
          simp [hs, hd]
        · left; simp [hs, hd]
      · left; simp [hs]
    · left; rfl

end FileCopyCpp

/-! ## Byte-exact copy -/

/-- Claim C1.  For every source and every buffer size of at least one byte,
when neither the source nor the destination faults, the loop of
`copy_file_with_rate` ends without an exception and the loop of `main` in
file_copy.cpp ends with the destination stream in its good state, and in
both the bytes written to the destination are the bytes of the source, in
order and in the same number. -/
theorem copy_loops_preserve_bytes (env : Env) (data : List Byte) (B : Nat) (hB : 1 ≤ B)
    (hr : env.readFault = none) (hw : env.writeRoom = none)
    (max_speed : Dbl) (start_time total_size : Nat) (silent_mode : Bool) :
    ((Copy2.copy_loop env max_speed B start_time
        (Copy2.start_state env start_time data)).thrown = none ∧
      (Copy2.copy_loop env max_speed B start_time
        (Copy2.start_state env start_time data)).final.out.written = data ∧
      (Copy2.copy_loop env max_speed B start_time
        (Copy2.start_state env start_time data)).final.out.bad = false ∧
      (Copy2.copy_loop env max_speed B start_time
        (Copy2.start_state env start_time data)).final.copied = data.length) ∧
    ((FileCopyCpp.copy_loop env silent_mode max_speed total_size
        (FileCopyCpp.start_state env start_time data)).final.dest.written = data ∧
      (FileCopyCpp.copy_loop env silent_mode max_speed total_size
        (FileCopyCpp.start_state env start_time data)).final.dest.bad = false ∧
      (FileCopyCpp.copy_loop env silent_mode max_speed total_size
        (FileCopyCpp.start_state env start_time data)).final.total_bytes_copied = data.length) := by
  obtain ⟨h1, h2, h3, h4, -, -⟩ :=
    Copy2.copy_loop_from_start env max_speed B start_time hB data hr hw
  obtain ⟨g1, g2, g3, -⟩ :=
    FileCopyCpp.file_loop_from_start env silent_mode max_speed total_size start_time data hr hw
  exact ⟨⟨h1, h2, h3, h4⟩, ⟨g1, g2, g3⟩⟩

/-- Witness for claim C1.  A five-byte source copied with a buffer of 4096 bytes: both loops write the
five bytes. -/
theorem copy_loops_preserve_bytes_witness :
    (1 ≤ 4096 ∧ steadyEnv.readFault = none ∧ steadyEnv.writeRoom = none) ∧
    (Copy2.copy_loop steadyEnv (Dbl.fin 5242880) 4096 0
        (Copy2.start_state steadyEnv 0 [10, 20, 30, 40, 50])).final.out.written
      = [10, 20, 30, 40, 50] ∧
    (FileCopyCpp.copy_loop steadyEnv false (Dbl.fin 5) 5
        (FileCopyCpp.start_state steadyEnv 0 [10, 20, 30, 40, 50])).final.dest.written
      = [10, 20, 30, 40, 50] :=
  ⟨⟨by decide, rfl, rfl⟩,
   (copy_loops_preserve_bytes steadyEnv [10, 20, 30, 40, 50] 4096 (by decide) rfl rfl
      (Dbl.fin 5242880) 0 5 false).1.2.1,
   (copy_loops_preserve_bytes steadyEnv [10, 20, 30, 40, 50] 4096 (by decide) rfl rfl
      (Dbl.fin 5) 0 5 false).2.1⟩

/-! ## Chunking -/

/-- Claim C6.  For a source of `T` bytes and a buffer of `B ≥ 1` bytes, without
faults, the loop of `copy_file_with_rate` ends without an exception after
transferring `⌈T / B⌉` chunks, none of them empty: `T / B` chunks of `B` bytes
followed, when `B` does not divide `T`, by one chunk of `T mod B` bytes.  The
read position ends at `T`, so that no byte beyond the end is read, and `T`
bytes are counted as copied.  For an empty source no chunk is transferred, no
progress line is printed and the count of copied bytes is zero. -/
theorem chunk_sequence (env : Env) (data : List Byte) (B : Nat) (hB : 1 ≤ B)
    (hr : env.readFault = none) (hw : env.writeRoom = none)
    (max_speed : Dbl) (start_time : Nat) :
    (Copy2.copy_loop env max_speed B start_time
        (Copy2.start_state env start_time data)).thrown = none ∧
    (Copy2.copy_loop env max_speed B start_time
        (Copy2.start_state env start_time data)).log.map (fun e => e.count) =
      List.replicate (data.length / B) B ++
        (if data.length % B = 0 then [] else [data.length % B]) ∧
    (Copy2.copy_loop env max_speed B start_time
        (Copy2.start_state env start_time data)).log.length = (data.length + B - 1) / B ∧
    (∀ e ∈ (Copy2.copy_loop env max_speed B start_time
        (Copy2.start_state env start_time data)).log, 0 < e.count ∧ e.count ≤ B) ∧
    (Copy2.copy_loop env max_speed B start_time
        (Copy2.start_state env start_time data)).final.inp.pos = data.length ∧
    (Copy2.copy_loop env max_speed B start_time
        (Copy2.start_state env start_time data)).final.copied = data.length ∧
    (data = [] →
      (Copy2.copy_loop env max_speed B start_time
        (Copy2.start_state env start_time data)).log = [] ∧
      (Copy2.copy_loop env max_speed B start_time
        (Copy2.start_state env start_time data)).final.copied = 0) := by
  obtain ⟨h1, -, -, h4, h5, h6⟩ :=
    Copy2.copy_loop_from_start env max_speed B start_time hB data hr hw
  have hcounts : (Copy2.copy_loop env max_speed B start_time
        (Copy2.start_state env start_time data)).log.map (fun e => e.count) =
      chunk_sizes data.length B := by
    rw [h6, Copy2.timeline_counts]
  refine ⟨h1, hcounts, ?_, ?_, h5, h4, ?_⟩
  · rw [← chunk_sizes_length data.length B hB, ← hcounts, List.length_map]
  · intro e he
    apply chunk_sizes_pos_of_mem data.length B hB
    rw [← hcounts]
    exact List.mem_map_of_mem (fun e => e.count) he
  · intro hd
    subst hd
    refine ⟨?_, h4⟩
    rw [h6, List.length_nil, chunk_sizes_zero]
    rfl

/-- Witness for claim C6.  Five bytes through a buffer of two bytes are transferred as chunks of 2, 2
and 1 bytes. -/
theorem chunk_sequence_witness :
    (1 ≤ 2 ∧ steadyEnv.readFault = none ∧ steadyEnv.writeRoom = none) ∧
    (Copy2.copy_loop steadyEnv (Dbl.fin 5242880) 2 0
        (Copy2.start_state steadyEnv 0 [10, 20, 30, 40, 50])).log.map (fun e => e.count) =
      [2, 2, 1] :=
  ⟨⟨by decide, rfl, rfl⟩,
   (chunk_sequence steadyEnv [10, 20, 30, 40, 50] 2 (by decide) rfl rfl
      (Dbl.fin 5242880) 0).2.1⟩

/-! ## No ceiling -/

/-- Claim C7.  With a ceiling `max_speed ≤ 0` no iteration of the copy loop of
`main` in file_copy.cpp enters the speed limit block: the division by the
ceiling is not evaluated and nothing is slept, whatever the source and the
state of the loop.  This holds in particular for every run of `main` without
the option `-M`, where the ceiling keeps its initial value `-1`. -/
theorem no_throttle_without_ceiling (env : Env) (silent_mode : Bool) (max_speed : Dbl)
    (total_size : Nat) (st : FileCopyCpp.LoopState)
    (hms : Dbl.le max_speed (Dbl.fin 0) = true) :
    (∀ e ∈ (FileCopyCpp.copy_loop env silent_mode max_speed total_size st).log,
      e.throttle = none ∧ e.slept_ns = 0) ∧
    (∀ (stod : String → Dbl) (start_time : Nat) (fs : FileSys) (argv : List String),
      "-M" ∉ argv.tail →
      ∀ e ∈ (FileCopyCpp.main stod env start_time fs argv).log,
        e.throttle = none ∧ e.slept_ns = 0) := by
  constructor
  · exact FileCopyCpp.no_speed_limit env silent_mode max_speed total_size
      (Dbl.not_pos_of_le_zero max_speed hms) st
  · intro stod start_time fs argv hM e he
    rcases FileCopyCpp.main_log stod env start_time fs argv with h | ⟨opts, sp, dp, hopts, h⟩
    · rw [h] at he
      simp at he
    · rw [h] at he
      have hk := FileCopyCpp.parse_options_keeps_ceiling stod argv.tail false (Dbl.fin (-1))
        opts hM hopts
      refine FileCopyCpp.no_speed_limit env opts.silent_mode opts.max_speed _ ?_ _ e he
      rw [hk]
      simp [Dbl.lt]

/-- Witness for claim C7.  With the initial ceiling `-1` the copy of a three-byte source does not
enter the speed limit block. -/
theorem no_throttle_without_ceiling_witness :
    Dbl.le (Dbl.fin (-1)) (Dbl.fin 0) = true ∧
    ∀ e ∈ (FileCopyCpp.copy_loop steadyEnv false (Dbl.fin (-1)) 3
        (FileCopyCpp.start_state steadyEnv 0 [1, 2, 3])).log,
      e.throttle = none ∧ e.slept_ns = 0 :=
  ⟨by simp [Dbl.le],
   (no_throttle_without_ceiling steadyEnv false (Dbl.fin (-1)) 3
      (FileCopyCpp.start_state steadyEnv 0 [1, 2, 3]) (by simp [Dbl.le])).1⟩

/-! ## The throttle step of copy2.cpp -/

/-- In binary64 the argument of Sleep can be one below the truncation of the
exact time ahead of schedule.  With 1 MiB copied at 1 MiB/s, 66 ms after the
start, the transfer is exactly 934 ms ahead; the `double` for 0.066 is
slightly above 0.066, the product computed is slightly below 934, and Sleep is
asked for 933 ms. -/
theorem sleep_rounded_in_binary64 :
    Copy2.throttle steadyEnv.castOutOfRange (Dbl.fin 1048576) 1048576
      (duration_seconds 0 66000000) = some 933 ∧
    ⌊(((1048576 : ℕ) : ℚ) / 1048576 - seconds 0 66000000) * 1000⌋ = 934 := by
  constructor
  · have ht : duration_seconds 0 66000000 =
        Dbl.fin (1188950301625811 / 18014398509481984) := by
      unfold duration_seconds
      have h0 : Dbl.ofNat (66000000 - 0) = Dbl.fin 66000000 := by
        have := Dbl.ofNat_of_lt 66000000 (by norm_num)
        exact_mod_cast this
      rw [h0, Dbl.div_fin _ _ (by norm_num),
        Dbl.round64_eval _ (-4) 4755801206503244 (by norm_num) (by norm_num) (by norm_num)
          (by norm_num) (by norm_num) (by norm_num) (by norm_num)]
      norm_num
    have he : Dbl.div (Dbl.ofNat 1048576) (Dbl.fin 1048576) = Dbl.fin 1 := by
      have h0 : Dbl.ofNat 1048576 = Dbl.fin 1048576 := by
        have := Dbl.ofNat_of_lt 1048576 (by norm_num)
        exact_mod_cast this
      rw [h0, Dbl.div_fin _ _ (by norm_num),
        Dbl.round64_of_natCast _ 1 (by norm_num) (by norm_num)]
      norm_num
    have hd : Dbl.sub (Dbl.fin 1) (Dbl.fin (1188950301625811 / 18014398509481984)) =
        Dbl.fin (4206362051964043 / 4503599627370496) := by
      rw [Dbl.sub_fin,
        Dbl.round64_eval_tie _ (-1) 8412724103928086 (by norm_num) (by norm_num) (by norm_num)
          (by norm_num) (by norm_num) (by norm_num) (by norm_num)]
      norm_num
    have hx : Dbl.mul (Dbl.fin (4206362051964043 / 4503599627370496)) (Dbl.fin 1000) =
        Dbl.fin (8215550882742271 / 8796093022208) := by
      rw [Dbl.mul_fin,
        Dbl.round64_eval _ 9 8215550882742271 (by norm_num) (by norm_num) (by norm_num)
          (by norm_num) (by norm_num) (by norm_num) (by norm_num)]
      norm_num
    have hl : Dbl.lt (Dbl.fin (1188950301625811 / 18014398509481984)) (Dbl.fin 1) = true := by
      show decide ((1188950301625811 / 18014398509481984 : ℚ) < 1) = true
      exact decide_eq_true (by norm_num)
    unfold Copy2.throttle
    simp only [ht, he, hl, hd, hx, if_true]
    rw [Dbl.toDWORD_fin _ _ (by norm_num) (by norm_num)]
    have : ⌊(8215550882742271 / 8796093022208 : ℚ)⌋ = 933 := by
      rw [Int.floor_eq_iff]
      norm_num
    rw [this]
    rfl
  · rw [Int.floor_eq_iff]
    norm_num [seconds]

/-- Counterexample to claim C3 as stated.  At a ceiling of 1 MiB/s, with 1536
bytes copied after one millisecond, the transfer is ahead of schedule by
`1536 / 1048576 - 1 / 1000` seconds (about 0.46 ms), and the throttle step
requests `Sleep(0)`: the request is not `min (n / C - t) 1` seconds. -/
theorem sleep_truncated_to_milliseconds :
    (0 : ℚ) < 1048576 ∧
    (1 / 1000 : ℚ) < ((1536 : ℕ) : ℚ) / 1048576 ∧
    Copy2.throttle steadyEnv.castOutOfRange (Dbl.fin 1048576) 1536 (Dbl.fin (1 / 1000)) =
      some 0 ∧
    (((0 : ℕ) : ℚ) / 1000 ≠ min (((1536 : ℕ) : ℚ) / 1048576 - 1 / 1000) 1) := by
  refine ⟨by norm_num, by norm_num, ?_, by norm_num⟩
  rcases Copy2.throttle_cases steadyEnv.castOutOfRange 1048576 (by norm_num) 1536
    (by norm_num) (1 / 1000) (by norm_num) (by norm_num) with
    ⟨-, hb⟩ | ⟨x1, hsome, hx10, -, -, hxu⟩
  · norm_num at hb
  · have hx1 : x1 < 1 := by
      norm_num at hxu
      linarith
    rw [hsome, Dbl.toDWORD_fin _ x1 hx10 (by linarith)]
    have : ⌊x1⌋ = 0 := Int.floor_eq_zero_iff.mpr ⟨hx10, hx1⟩
    rw [this]
    rfl

/-- Claim C3, amended.  The argument of Sleep never exceeds 1000 ms.  For a
ceiling `C > 0`, `n` bytes copied and `t` seconds elapsed, Sleep is not called
when `n / C ≤ t` (for `n < 2 ^ 53` and `t` a binary64 number).  For
`n < 2 ^ 64` with `n / C ≤ 2 ^ 64` seconds and `t ≥ 0`, write
`x = (n / C - t) * 1000` for the exact time ahead of schedule in milliseconds
and `ε = 1000 * (n / C + 1) / 2 ^ 50` for the tolerance that covers the
rounding of the binary64 computation.  Sleep is left out only if `x ≤ ε`.  A
request of `k` milliseconds satisfies `k ≤ x + ε`, and, when `x + ε` fits the
32-bit argument, `k = 1000` or `x - ε - 1 < k`: the request is the time ahead
of schedule truncated to whole milliseconds and clamped to one second, up to
the rounding of the `double` that is truncated. -/
theorem throttle_request (oor : Dbl → Nat) (C : ℚ) (n : Nat) (t : ℚ) :
    (∀ k, Copy2.throttle oor (Dbl.fin C) n (Dbl.fin t) = some k → k ≤ 1000) ∧
    (0 < C → n < 9007199254740992 → Dbl.round64 t = Dbl.fin t → (n : ℚ) / C ≤ t →
      Copy2.throttle oor (Dbl.fin C) n (Dbl.fin t) = none) ∧
    (0 < C → n < 18446744073709551616 → 0 ≤ t → (n : ℚ) / C ≤ 18446744073709551616 →
      (Copy2.throttle oor (Dbl.fin C) n (Dbl.fin t) = none →
        ((n : ℚ) / C - t) * 1000 ≤ 1000 * ((n : ℚ) / C + 1) / 2 ^ 50) ∧
      (∀ k, Copy2.throttle oor (Dbl.fin C) n (Dbl.fin t) = some k →
        (k : ℚ) ≤ ((n : ℚ) / C - t) * 1000 + 1000 * ((n : ℚ) / C + 1) / 2 ^ 50 ∧
        (((n : ℚ) / C - t) * 1000 + 1000 * ((n : ℚ) / C + 1) / 2 ^ 50 < 4294967296 →
          k = 1000 ∨
          ((n : ℚ) / C - t) * 1000 - 1000 * ((n : ℚ) / C + 1) / 2 ^ 50 - 1 < (k : ℚ)))) := by
  refine ⟨fun k hk => Copy2.throttle_le oor (Dbl.fin C) n (Dbl.fin t) k hk,
    fun hC hn ht h => Copy2.throttle_none_of_le oor C hC n hn t ht h, ?_⟩
  intro hC hn ht hE
  have hE0 : 0 ≤ (n : ℚ) / C := div_nonneg (Nat.cast_nonneg n) (le_of_lt hC)
  have hpow : (2 : ℚ) ^ 50 = 1125899906842624 := by norm_num
  rw [hpow]
  rcases Copy2.throttle_cases oor C hC n hn t ht hE with
    ⟨hnone, hb⟩ | ⟨x1, hsome, hx10, -, hxl, hxu⟩
  · refine ⟨fun _ => by linarith, ?_⟩
    intro k hk
    rw [hnone] at hk
    cases hk
  · refine ⟨fun h => ?_, ?_⟩
    · rw [hsome] at h
      cases h
    · intro k hk
      rw [hsome, Option.some.injEq] at hk
      have hfl0 : 0 ≤ ⌊x1⌋ := Int.floor_nonneg.mpr hx10
      have hcast : ((⌊x1⌋.toNat : ℕ) : ℚ) = (⌊x1⌋ : ℚ) := by
        have := Int.toNat_of_nonneg hfl0
        exact_mod_cast this
      have hle : (⌊x1⌋ : ℚ) ≤ x1 := Int.floor_le x1
      have hlt : x1 < (⌊x1⌋ : ℚ) + 1 := Int.lt_floor_add_one x1
      constructor
      · rcases lt_or_le x1 4294967296 with hr | hr
        · rw [Dbl.toDWORD_fin oor x1 hx10 hr] at hk
          have : (k : ℚ) ≤ (⌊x1⌋.toNat : ℚ) := by
            rw [← hk]
            exact_mod_cast Nat.min_le_left _ _
          rw [hcast] at this
          linarith
        · have : (k : ℚ) ≤ 1000 := by
            rw [← hk]
            exact_mod_cast Nat.min_le_right _ _
          linarith
      · intro hfit
        rw [Dbl.toDWORD_fin oor x1 hx10 (by linarith)] at hk
        rcases le_total ⌊x1⌋.toNat 1000 with h1 | h1
        · right
          rw [min_eq_left h1] at hk
          rw [← hk, hcast]
          linarith
        · left
          rw [min_eq_right h1] at hk
          exact hk.symm

/-- Witness for claim C3, amended.  At 5 MiB/s, one MiB copied after a
sixteenth of a second is 137.5 ms ahead of schedule, and Sleep is asked for
137 ms; after a quarter of a second the transfer is behind schedule and Sleep
is not called. -/
theorem throttle_request_witness :
    ((0 : ℚ) < 5242880 ∧ 1048576 < 18446744073709551616 ∧ (0 : ℚ) ≤ 1 / 16 ∧
      ((1048576 : ℕ) : ℚ) / 5242880 ≤ 18446744073709551616 ∧
      Copy2.throttle steadyEnv.castOutOfRange (Dbl.fin 5242880) 1048576 (Dbl.fin (1 / 16)) =
        some 137) ∧
    (1048576 < 9007199254740992 ∧ Dbl.round64 (1 / 4) = Dbl.fin (1 / 4) ∧
      ((1048576 : ℕ) : ℚ) / 5242880 ≤ 1 / 4 ∧
      Copy2.throttle steadyEnv.castOutOfRange (Dbl.fin 5242880) 1048576 (Dbl.fin (1 / 4)) =
        none) := by
  have hquarter : Dbl.round64 (1 / 4) = Dbl.fin (1 / 4) := by
    rw [Dbl.round64_eval _ (-2) 4503599627370496 (by norm_num) (by norm_num) (by norm_num)
      (by norm_num) (by norm_num) (by norm_num) (by norm_num)]
    norm_num
  refine ⟨⟨by norm_num, by norm_num, by norm_num, by norm_num, ?_⟩,
    by norm_num, hquarter, by norm_num,
    (throttle_request steadyEnv.castOutOfRange 5242880 1048576 (1 / 4)).2.1
      (by norm_num) (by norm_num) hquarter (by norm_num)⟩
  obtain ⟨hnone, hsome⟩ := (throttle_request steadyEnv.castOutOfRange 5242880 1048576
    (1 / 16)).2.2 (by norm_num) (by norm_num) (by norm_num) (by norm_num)
  cases hth : Copy2.throttle steadyEnv.castOutOfRange (Dbl.fin 5242880) 1048576
      (Dbl.fin (1 / 16)) with
  | none =>
    have := hnone hth
    norm_num at this
  | some k =>
    obtain ⟨hu, hl⟩ := hsome k hth
    have hl2 := hl (by norm_num)
    norm_num at hu hl2
    have hk1 : k ≤ 137 := by
      have : (k : ℚ) < 138 := by linarith
      have : k < 138 := by exact_mod_cast this
      omega
    have hk2 : 137 ≤ k := by
      rcases hl2 with h1000 | hlow
      · omega
      · have : (136 : ℚ) < k := by linarith
        have : 136 < k := by exact_mod_cast this
        omega
    have : k = 137 := by omega
    rw [this]
/-! ## Average throughput and reported speed of copy2.cpp -/

namespace Copy2

/-- The run used in the examples: a file of 4 MiB copied through a buffer of
4 MiB at a ceiling of 1 MB/s.  The single chunk is read and written in one
millisecond, the transfer is 3.999 s ahead of schedule, and the sleep is
clamped to one second. -/
theorem clamped_run_log :
    (copy_file_with_rate steadyEnv 0 largeFs "source.bin" "copy.bin" (Dbl.fin 1) 4194304).log =
      [{ count := 4194304, copied := 4194304, chunk_start := 0, current_time := 1000000,
         sleep_ms := some 1000, end_time := 1001000000,
         speed := chunk_speed 4194304 (seconds 0 1001000000) }] := by
  have hs : largeFs.opensForReading "source.bin" = true := by
    simp [FileSys.opensForReading, largeFs]
  have hd : largeFs.canWrite "copy.bin" = true := rfl
  have hc : (largeFs.put "copy.bin" []).contents "source.bin" = zeroBytes 4194304 := by
    simp [FileSys.put, FileSys.contents, largeFs]
  have hrate : Dbl.mul (Dbl.mul (Dbl.fin 1) (Dbl.fin 1024)) (Dbl.fin 1024) =
      Dbl.fin 1048576 := by
    have := Dbl.mul_mbps 1 (by norm_num)
    norm_num at this
    exact this
  rw [copy_file_with_rate_open _ _ _ _ _ _ _ hs hd, hrate, hc]
  rw [(copy_loop_from_start steadyEnv _ 4194304 0 (by decide) _ rfl rfl).2.2.2.2.2,
    zeroBytes_length]
  have hsizes : chunk_sizes 4194304 4194304 = [4194304] := by
    simp [chunk_sizes]
  rw [hsizes]
  have hth : throttle steadyEnv.castOutOfRange (Dbl.fin 1048576) 4194304
      (duration_seconds 0 1000000) = some 1000 := by
    have hsec : seconds 0 1000000 = 1 / 1000 := by norm_num [seconds]
    rcases duration_seconds_cases 0 1000000 (by norm_num) with
      ⟨-, hge⟩ | ⟨th, hth, hth0, hthl, hthu⟩
    · rw [hsec] at hge
      norm_num at hge
    · rw [hsec] at hthl hthu
      rw [hth]
      apply throttle_eq_clamped _ 1048576 (by norm_num) 4194304 (by norm_num) th hth0
        (by norm_num)
      · norm_num
        linarith
      · norm_num
        linarith
  show [(after_write steadyEnv (Dbl.fin 1048576) 0 0 0 0 4194304).1] = _
  rw [after_write_of_sleep steadyEnv (Dbl.fin 1048576) 0 0 0 0 4194304 (some 1000) hth]
  rfl

end Copy2

/-- Counterexample to claim C2 as stated.  With a ceiling of 1 MB/s and a
buffer of 4 MiB (more than 4096 bytes) the first iteration copies 4 MiB and
ends 1.001 s after the start, because a single sleep is clamped to one
second: the bytes copied exceed `C * (elapsed + 1 ms)`. -/
theorem clamp_breaks_average_bound :
    (0 : ℚ) < 1 ∧ 4096 ≤ 4194304 ∧
    ∃ e ∈ (Copy2.copy_file_with_rate steadyEnv 0 largeFs "source.bin" "copy.bin"
        (Dbl.fin 1) 4194304).log,
      (1 * 1024 * 1024 : ℚ) * (seconds 0 e.end_time + 1 / 1000) < (e.copied : ℚ) := by
  refine ⟨by norm_num, by decide, ?_⟩
  rw [Copy2.clamped_run_log]
  refine ⟨_, List.mem_singleton.mpr rfl, ?_⟩
  norm_num [seconds]

/-- Claim C2, amended.  Let `C > 0` be the ceiling in bytes per second that
the code holds, that is the `double` computed from the rate as
`rate * 1024 * 1024`, let the buffer have at most `C` bytes (one second of
data at the ceiling) and the source less than `2 ^ 64` bytes.  At the end of
every iteration of the loop of `copy_file_with_rate` the bytes copied so far
satisfy `copied * (1 - 2 ^ (-49)) ≤ C * (elapsed + 1 ms + 2 ^ (-49) s)`,
whatever the source, the faults and the time taken by reads, writes and
sleeps (a sleep never returns early); the two terms `2 ^ (-49)` cover the
rounding of the binary64 computation of the sleep.  When moreover nothing
faults and the source of `T > 0` bytes is not the destination, the last
iteration has copied `T` bytes, so that the whole copy takes at least
`T / C * (1 - 2 ^ (-49)) - 1 ms - 2 ^ (-49) s`. -/
theorem average_rate_bounded (env : Env) (start_time : Nat) (fs : FileSys) (src dst : String)
    (rate : Dbl) (C : ℚ)
    (hrate : Dbl.mul (Dbl.mul rate (Dbl.fin 1024)) (Dbl.fin 1024) = Dbl.fin C) (hC : 0 < C)
    (B : Nat) (hB : (B : ℚ) ≤ C) (hsize : (fs.contents src).length < 18446744073709551616) :
    (∀ e ∈ (Copy2.copy_file_with_rate env start_time fs src dst rate B).log,
      (e.copied : ℚ) * (1 - 1 / 2 ^ 49) ≤
        C * (seconds start_time e.end_time + 1 / 1000 + 1 / 2 ^ 49)) ∧
    (fs.opensForReading src = true → fs.canWrite dst = true → src ≠ dst →
      env.readFault = none → env.writeRoom = none → 0 < B → fs.contents src ≠ [] →
      ∃ e ∈ (Copy2.copy_file_with_rate env start_time fs src dst rate B).log,
        e.copied = (fs.contents src).length ∧
        ((fs.contents src).length : ℚ) / C * (1 - 1 / 2 ^ 49) - 1 / 1000 - 1 / 2 ^ 49 ≤
          seconds start_time e.end_time) := by
  have hpow : (2 : ℚ) ^ 49 = 562949953421312 := by norm_num
  rw [hpow]
  have hlen : ((fs.put dst []).contents src).length ≤ (fs.contents src).length := by
    by_cases h : src = dst
    · simp [FileSys.put, FileSys.contents, h]
    · simp [FileSys.put, FileSys.contents, h]
  have hdiv : ∀ e ∈ (Copy2.copy_file_with_rate env start_time fs src dst rate B).log,
      (e.copied : ℚ) / C * (1 - 1 / 562949953421312) ≤
        seconds start_time e.end_time + 1 / 1000 + 1 / 562949953421312 := by
    rcases Copy2.copy_file_with_rate_log env start_time fs src dst rate B with h | h
    · rw [h]
      simp
    · rw [h, hrate]
      obtain ⟨h1, h2, h3⟩ := Copy2.start_state_on_schedule env C start_time
        ((fs.put dst []).contents src)
      exact Copy2.loop_on_schedule env C hC B start_time hB _ h1 h2 (by rw [h3]; omega)
  have hall : ∀ e ∈ (Copy2.copy_file_with_rate env start_time fs src dst rate B).log,
      (e.copied : ℚ) * (1 - 1 / 562949953421312) ≤
        C * (seconds start_time e.end_time + 1 / 1000 + 1 / 562949953421312) := by
    intro e he
    have h := hdiv e he
    have e1 : (e.copied : ℚ) / C * (1 - 1 / 562949953421312) =
        (e.copied : ℚ) * (1 - 1 / 562949953421312) / C := by ring
    rw [e1, div_le_iff₀ hC] at h
    linarith
  refine ⟨hall, ?_⟩
  intro hs hd hne hrf hwr hBpos hdata
  have hc : (fs.put dst []).contents src = fs.contents src := by
    simp [FileSys.put, FileSys.contents, hne]
  have hlog := Copy2.copy_file_with_rate_open env start_time fs src dst rate B hs hd
  rw [hc] at hlog
  obtain ⟨-, -, -, h4, -, -⟩ := Copy2.copy_loop_from_start env
    (Dbl.mul (Dbl.mul rate (Dbl.fin 1024)) (Dbl.fin 1024)) B start_time hBpos
    (fs.contents src) hrf hwr
  have hpos : 0 < (fs.contents src).length := List.length_pos.mpr hdata
  rcases Copy2.final_copied env
    (Dbl.mul (Dbl.mul rate (Dbl.fin 1024)) (Dbl.fin 1024)) B start_time
    (Copy2.start_state env start_time (fs.contents src)) with h0 | ⟨e, he, hec⟩
  · rw [h4] at h0
    have : (Copy2.start_state env start_time (fs.contents src)).copied = 0 := rfl
    omega
  · have hmem : e ∈ (Copy2.copy_file_with_rate env start_time fs src dst rate B).log := by
      rw [hlog]
      exact he
    refine ⟨e, hmem, by rw [hec, h4], ?_⟩
    have hb := hdiv e hmem
    rw [hec, h4] at hb
    linarith

/-- Witness for claim C2, amended.  A source of 10 MiB copied at 5 MB/s
through a buffer of 1 MiB takes at least 1.999 s, up to `10 ^ (-14)` s. -/
theorem average_rate_bounded_witness :
    (Dbl.mul (Dbl.mul (Dbl.fin 5) (Dbl.fin 1024)) (Dbl.fin 1024) = Dbl.fin 5242880 ∧
      (0 : ℚ) < 5242880 ∧ ((1048576 : ℕ) : ℚ) ≤ 5242880 ∧
      (scenarioFs.contents "source.bin").length < 18446744073709551616) ∧
    ∃ e ∈ (Copy2.copy_file_with_rate steadyEnv 0 scenarioFs "source.bin" "copy.bin"
        (Dbl.fin 5) 1048576).log,
      e.copied = 10485760 ∧
      (1999 / 1000 - 1 / 100000000000000 : ℚ) ≤ seconds 0 e.end_time := by
  have hlen : (scenarioFs.contents "source.bin").length = 10485760 := by
    have : scenarioFs.contents "source.bin" = zeroBytes 10485760 := by
      simp [FileSys.contents, scenarioFs]
    rw [this, zeroBytes_length]
  have hne : scenarioFs.contents "source.bin" ≠ [] := by
    intro h
    rw [h] at hlen
    simp at hlen
  have hrate : Dbl.mul (Dbl.mul (Dbl.fin 5) (Dbl.fin 1024)) (Dbl.fin 1024) =
      Dbl.fin 5242880 := by
    have := Dbl.mul_mbps 5 (by norm_num)
    norm_num at this
    exact this
  have hsize : (scenarioFs.contents "source.bin").length < 18446744073709551616 := by
    rw [hlen]
    norm_num
  obtain ⟨e, he, hc, ht⟩ :=
    (average_rate_bounded steadyEnv 0 scenarioFs "source.bin" "copy.bin" (Dbl.fin 5) 5242880
      hrate (by norm_num) 1048576 (by norm_num) hsize).2
      (by simp [FileSys.opensForReading, scenarioFs]) rfl (by decide) rfl rfl (by decide) hne
  rw [hlen] at hc ht
  refine ⟨⟨hrate, by norm_num, by norm_num, hsize⟩, e, he, hc, ?_⟩
  norm_num at ht
  linarith

/-- Counterexample to claim C9 as stated.  In the run of `clamped_run_log` the
chunk of 4 MiB is read and written in one millisecond and the throttle step
sleeps one second; the speed printed is 4 MiB over 1.001 s, not 4 MiB over
the millisecond spent reading and writing. -/
theorem reported_speed_includes_sleep :
    ∃ e ∈ (Copy2.copy_file_with_rate steadyEnv 0 largeFs "source.bin" "copy.bin"
        (Dbl.fin 1) 4194304).log,
      seconds e.chunk_start e.current_time = 1 / 1000 ∧
      e.speed = 4000 / 1001 ∧
      e.speed ≠ ((e.count : ℚ) / (1024 * 1024)) /
        max (seconds e.chunk_start e.current_time) (1 / 1000) := by
  rw [Copy2.clamped_run_log]
  refine ⟨_, List.mem_singleton.mpr rfl, ?_, ?_, ?_⟩
  · norm_num [seconds]
  · norm_num [Copy2.chunk_speed, seconds]
  · norm_num [Copy2.chunk_speed, seconds]

/-- Claim C9, amended.  For every chunk processed by `copy_file_with_rate` the
speed printed is the bytes of the chunk in MiB divided by
`max (chunk duration) (1 ms)`, where the chunk duration runs from the top of
the iteration to the clock reading taken after the throttle step: it is the
time spent reading and writing plus the time slept, which is at least the
sleep requested for that chunk. -/
theorem reported_speed (env : Env) (start_time : Nat) (fs : FileSys) (src dst : String)
    (rate : Dbl) (B : Nat) :
    ∀ e ∈ (Copy2.copy_file_with_rate env start_time fs src dst rate B).log,
      e.speed = ((e.count : ℚ) / (1024 * 1024)) /
        max (seconds e.chunk_start e.end_time) (1 / 1000) ∧
      ∃ i, e.current_time = e.chunk_start + env.rw i ∧
        e.end_time = e.current_time + e.sleep_ms.getD 0 * 1000000 + env.over i ∧
        seconds e.chunk_start e.end_time =
          seconds e.chunk_start e.current_time + ((e.sleep_ms.getD 0 : ℕ) : ℚ) / 1000
            + (env.over i : ℚ) / 1000000000 := by
  intro e he
  rcases Copy2.copy_file_with_rate_log env start_time fs src dst rate B with h | h
  · rw [h] at he
    simp at he
  · rw [h] at he
    obtain ⟨copied, clock, iter, count, rfl⟩ := Copy2.log_shape _ _ _ _ _ e he
    refine ⟨rfl, iter, rfl, rfl, ?_⟩
    simp only [Copy2.after_write]
    rw [seconds_add, seconds_add]
    push_cast
    ring

/-- Witness for claim C9, amended.  In the run with the clamped sleep the speed printed for the chunk is its
size over the 1.001 s between the top of the iteration and the clock reading
after the sleep. -/
theorem reported_speed_witness :
    ∃ e ∈ (Copy2.copy_file_with_rate steadyEnv 0 largeFs "source.bin" "copy.bin"
        (Dbl.fin 1) 4194304).log,
      seconds e.chunk_start e.end_time = 1001 / 1000 ∧
      e.speed = ((e.count : ℚ) / (1024 * 1024)) /
        max (seconds e.chunk_start e.end_time) (1 / 1000) := by
  have hmem : Copy2.ChunkRecord.mk 4194304 4194304 0 1000000 (some 1000) 1001000000
      (Copy2.chunk_speed 4194304 (seconds 0 1001000000)) ∈
      (Copy2.copy_file_with_rate steadyEnv 0 largeFs "source.bin" "copy.bin"
        (Dbl.fin 1) 4194304).log := by
    rw [Copy2.clamped_run_log]
    exact List.mem_singleton.mpr rfl
  exact ⟨_, hmem, by norm_num [seconds],
    (reported_speed steadyEnv 0 largeFs "source.bin" "copy.bin" (Dbl.fin 1) 4194304 _ hmem).1⟩

/-! ## A run of copy2.cpp in which rounding shows -/

namespace Copy2

/-- The record of an iteration and the state after it, from the outcome of
its throttle step and the values of the counters. -/
theorem timeline_cons_eval (env : Env) (ms : Dbl) (t0 copied clock iter count : Nat)
    (rest : List Nat) (s : Option Nat) (cur copied2 clock2 iter2 : Nat)
    (h : throttle env.castOutOfRange ms copied2 (duration_seconds t0 cur) = s)
    (hcur : clock + env.rw iter = cur) (hcopied : copied + count = copied2)
    (hclock : cur + s.getD 0 * 1000000 + env.over iter + env.post iter = clock2)
    (hiter : iter + 1 = iter2) :
    timeline env ms t0 copied clock iter (count :: rest) =
      { count := count, copied := copied2, chunk_start := clock,
        current_time := cur, sleep_ms := s,
        end_time := cur + s.getD 0 * 1000000 + env.over iter,
        speed := chunk_speed count
          (seconds clock (cur + s.getD 0 * 1000000 + env.over iter)) } ::
        timeline env ms t0 copied2 clock2 iter2 rest := by
  subst hcur hcopied hclock hiter
  show (after_write env ms t0 copied clock iter count).1 ::
    timeline env ms t0 (copied + count) (after_write env ms t0 copied clock iter count).2
      (iter + 1) rest = _
  rw [after_write_of_sleep _ _ _ _ _ _ _ s h, after_write_clock _ _ _ _ _ _ _ s h]

/-- The ceiling in bytes per second for the rate 1.2 MB/s, that is for the
`double` nearest to 1.2. -/
theorem max_speed_example :
    Dbl.mul (Dbl.mul (Dbl.fin (5404319552844595 / 4503599627370496)) (Dbl.fin 1024))
        (Dbl.fin 1024) =
      Dbl.fin (5404319552844595 / 4294967296) := by
  have h1 : Dbl.mul (Dbl.fin (5404319552844595 / 4503599627370496)) (Dbl.fin 1024) =
      Dbl.fin (5404319552844595 / 4398046511104) := by
    rw [Dbl.mul_fin,
      Dbl.round64_eval _ (10) 5404319552844595 (by norm_num) (by norm_num) (by norm_num)
        (by norm_num) (by norm_num) (by norm_num) (by norm_num)]
    norm_num
  rw [h1, Dbl.mul_fin,
    Dbl.round64_eval _ (20) 5404319552844595 (by norm_num) (by norm_num) (by norm_num)
        (by norm_num) (by norm_num) (by norm_num) (by norm_num)]
  norm_num

/-- The throttle step of the first iteration of the run at 1.2 MB/s in which
every chunk of 1 MiB is read and written in 2 ms; the five theorems that
follow evaluate the next iterations, each from the clock reached by the
previous one. -/
theorem throttle_example_1 :
    throttle twoMsEnv.castOutOfRange (Dbl.fin (5404319552844595 / 4294967296)) 1048576
      (duration_seconds 0 2000000) = some 831 := by
  have ht : duration_seconds 0 2000000 =
      Dbl.fin (1152921504606847 / 576460752303423488) := by
    unfold duration_seconds
    have h0 : Dbl.ofNat (2000000 - 0) = Dbl.fin 2000000 := by
      have := Dbl.ofNat_of_lt 2000000 (by norm_num)
      exact_mod_cast this
    rw [h0, Dbl.div_fin _ _ (by norm_num),
      Dbl.round64_eval _ (-9) 4611686018427388 (by norm_num) (by norm_num) (by norm_num)
        (by norm_num) (by norm_num) (by norm_num) (by norm_num)]
    norm_num
  have he : Dbl.div (Dbl.ofNat 1048576) (Dbl.fin (5404319552844595 / 4294967296)) =
      Dbl.fin (7505999378950827 / 9007199254740992) := by
    have h0 : Dbl.ofNat 1048576 = Dbl.fin 1048576 := by
      have := Dbl.ofNat_of_lt 1048576 (by norm_num)
      exact_mod_cast this
    rw [h0, Dbl.div_fin _ _ (by norm_num),
      Dbl.round64_eval _ (-1) 7505999378950827 (by norm_num) (by norm_num) (by norm_num)
        (by norm_num) (by norm_num) (by norm_num) (by norm_num)]
    norm_num
  have hd : Dbl.sub (Dbl.fin (7505999378950827 / 9007199254740992))
      (Dbl.fin (1152921504606847 / 576460752303423488)) =
      Dbl.fin (7487984980441345 / 9007199254740992) := by
    rw [Dbl.sub_fin,
      Dbl.round64_eval _ (-1) 7487984980441345 (by norm_num) (by norm_num) (by norm_num)
        (by norm_num) (by norm_num) (by norm_num) (by norm_num)]
    norm_num
  have hx : Dbl.mul (Dbl.fin (7487984980441345 / 9007199254740992)) (Dbl.fin 1000) =
      Dbl.fin (7312485332462251 / 8796093022208) := by
    rw [Dbl.mul_fin,
      Dbl.round64_eval _ (9) 7312485332462251 (by norm_num) (by norm_num) (by norm_num)
        (by norm_num) (by norm_num) (by norm_num) (by norm_num)]
    norm_num
  have hl : Dbl.lt (Dbl.fin (1152921504606847 / 576460752303423488))
      (Dbl.fin (7505999378950827 / 9007199254740992)) = true := by
    show decide ((1152921504606847 / 576460752303423488 : ℚ) <
      7505999378950827 / 9007199254740992) = true
    exact decide_eq_true (by norm_num)
  unfold throttle
  simp only [ht, he, hl, hd, hx, if_true]
  rw [Dbl.toDWORD_fin _ _ (by norm_num) (by norm_num)]
  have : ⌊(7312485332462251 / 8796093022208 : ℚ)⌋ = 831 := by
    rw [Int.floor_eq_iff]
    norm_num
  rw [this]
  rfl

theorem throttle_example_2 :
    throttle twoMsEnv.castOutOfRange (Dbl.fin (5404319552844595 / 4294967296)) 2097152
      (duration_seconds 0 835000000) = some 831 := by
  have ht : duration_seconds 0 835000000 =
      Dbl.fin (940126422213591 / 1125899906842624) := by
    unfold duration_seconds
    have h0 : Dbl.ofNat (835000000 - 0) = Dbl.fin 835000000 := by
      have := Dbl.ofNat_of_lt 835000000 (by norm_num)
      exact_mod_cast this
    rw [h0, Dbl.div_fin _ _ (by norm_num),
      Dbl.round64_eval _ (-1) 7521011377708728 (by norm_num) (by norm_num) (by norm_num)
        (by norm_num) (by norm_num) (by norm_num) (by norm_num)]
    norm_num
  have he : Dbl.div (Dbl.ofNat 2097152) (Dbl.fin (5404319552844595 / 4294967296)) =
      Dbl.fin (7505999378950827 / 4503599627370496) := by
    have h0 : Dbl.ofNat 2097152 = Dbl.fin 2097152 := by
      have := Dbl.ofNat_of_lt 2097152 (by norm_num)
      exact_mod_cast this
    rw [h0, Dbl.div_fin _ _ (by norm_num),
      Dbl.round64_eval _ (0) 7505999378950827 (by norm_num) (by norm_num) (by norm_num)
        (by norm_num) (by norm_num) (by norm_num) (by norm_num)]
    norm_num
  have hd : Dbl.sub (Dbl.fin (7505999378950827 / 4503599627370496))
      (Dbl.fin (940126422213591 / 1125899906842624)) =
      Dbl.fin (3745493690096463 / 4503599627370496) := by
    rw [Dbl.sub_fin,
      Dbl.round64_eval _ (-1) 7490987380192926 (by norm_num) (by norm_num) (by norm_num)
        (by norm_num) (by norm_num) (by norm_num) (by norm_num)]
    norm_num
  have hx : Dbl.mul (Dbl.fin (3745493690096463 / 4503599627370496)) (Dbl.fin 1000) =
      Dbl.fin (3657708681734827 / 4398046511104) := by
    rw [Dbl.mul_fin,
      Dbl.round64_eval _ (9) 7315417363469654 (by norm_num) (by norm_num) (by norm_num)
        (by norm_num) (by norm_num) (by norm_num) (by norm_num)]
    norm_num
  have hl : Dbl.lt (Dbl.fin (940126422213591 / 1125899906842624))
      (Dbl.fin (7505999378950827 / 4503599627370496)) = true := by
    show decide ((940126422213591 / 1125899906842624 : ℚ) <
      7505999378950827 / 4503599627370496) = true
    exact decide_eq_true (by norm_num)
  unfold throttle
  simp only [ht, he, hl, hd, hx, if_true]
  rw [Dbl.toDWORD_fin _ _ (by norm_num) (by norm_num)]
  have : ⌊(3657708681734827 / 4398046511104 : ℚ)⌋ = 831 := by
    rw [Int.floor_eq_iff]
    norm_num
  rw [this]
  rfl

theorem throttle_example_3 :
    throttle twoMsEnv.castOutOfRange (Dbl.fin (5404319552844595 / 4294967296)) 3145728
      (duration_seconds 0 1668000000) = some 832 := by
  have ht : duration_seconds 0 1668000000 =
      Dbl.fin (7512004178453987 / 4503599627370496) := by
    unfold duration_seconds
    have h0 : Dbl.ofNat (1668000000 - 0) = Dbl.fin 1668000000 := by
      have := Dbl.ofNat_of_lt 1668000000 (by norm_num)
      exact_mod_cast this
    rw [h0, Dbl.div_fin _ _ (by norm_num),
      Dbl.round64_eval _ (0) 7512004178453987 (by norm_num) (by norm_num) (by norm_num)
        (by norm_num) (by norm_num) (by norm_num) (by norm_num)]
    norm_num
  have he : Dbl.div (Dbl.ofNat 3145728) (Dbl.fin (5404319552844595 / 4294967296)) =
      Dbl.fin (5 / 2) := by
    have h0 : Dbl.ofNat 3145728 = Dbl.fin 3145728 := by
      have := Dbl.ofNat_of_lt 3145728 (by norm_num)
      exact_mod_cast this
    rw [h0, Dbl.div_fin _ _ (by norm_num),
      Dbl.round64_eval _ (1) 5629499534213120 (by norm_num) (by norm_num) (by norm_num)
        (by norm_num) (by norm_num) (by norm_num) (by norm_num)]
    norm_num
  have hd : Dbl.sub (Dbl.fin (5 / 2))
      (Dbl.fin (7512004178453987 / 4503599627370496)) =
      Dbl.fin (3746994889972253 / 4503599627370496) := by
    rw [Dbl.sub_fin,
      Dbl.round64_eval _ (-1) 7493989779944506 (by norm_num) (by norm_num) (by norm_num)
        (by norm_num) (by norm_num) (by norm_num) (by norm_num)]
    norm_num
  have hx : Dbl.mul (Dbl.fin (3746994889972253 / 4503599627370496)) (Dbl.fin 1000) =
      Dbl.fin (7318349394477057 / 8796093022208) := by
    rw [Dbl.mul_fin,
      Dbl.round64_eval _ (9) 7318349394477057 (by norm_num) (by norm_num) (by norm_num)
        (by norm_num) (by norm_num) (by norm_num) (by norm_num)]
    norm_num
  have hl : Dbl.lt (Dbl.fin (7512004178453987 / 4503599627370496))
      (Dbl.fin (5 / 2)) = true := by
    show decide ((7512004178453987 / 4503599627370496 : ℚ) <
      5 / 2) = true
    exact decide_eq_true (by norm_num)
  unfold throttle
  simp only [ht, he, hl, hd, hx, if_true]
  rw [Dbl.toDWORD_fin _ _ (by norm_num) (by norm_num)]
  have : ⌊(7318349394477057 / 8796093022208 : ℚ)⌋ = 832 := by
    rw [Int.floor_eq_iff]
    norm_num
  rw [this]
  rfl

theorem throttle_example_4 :
    throttle twoMsEnv.castOutOfRange (Dbl.fin (5404319552844595 / 4294967296)) 4194304
      (duration_seconds 0 2502000000) = some 831 := by
  have ht : duration_seconds 0 2502000000 =
      Dbl.fin (2817001566920245 / 1125899906842624) := by
    unfold duration_seconds
    have h0 : Dbl.ofNat (2502000000 - 0) = Dbl.fin 2502000000 := by
      have := Dbl.ofNat_of_lt 2502000000 (by norm_num)
      exact_mod_cast this
    rw [h0, Dbl.div_fin _ _ (by norm_num),
      Dbl.round64_eval _ (1) 5634003133840490 (by norm_num) (by norm_num) (by norm_num)
        (by norm_num) (by norm_num) (by norm_num) (by norm_num)]
    norm_num
  have he : Dbl.div (Dbl.ofNat 4194304) (Dbl.fin (5404319552844595 / 4294967296)) =
      Dbl.fin (7505999378950827 / 2251799813685248) := by
    have h0 : Dbl.ofNat 4194304 = Dbl.fin 4194304 := by
      have := Dbl.ofNat_of_lt 4194304 (by norm_num)
      exact_mod_cast this
    rw [h0, Dbl.div_fin _ _ (by norm_num),
      Dbl.round64_eval _ (1) 7505999378950827 (by norm_num) (by norm_num) (by norm_num)
        (by norm_num) (by norm_num) (by norm_num) (by norm_num)]
    norm_num
  have hd : Dbl.sub (Dbl.fin (7505999378950827 / 2251799813685248))
      (Dbl.fin (2817001566920245 / 1125899906842624)) =
      Dbl.fin (1871996245110337 / 2251799813685248) := by
    rw [Dbl.sub_fin,
      Dbl.round64_eval _ (-1) 7487984980441348 (by norm_num) (by norm_num) (by norm_num)
        (by norm_num) (by norm_num) (by norm_num) (by norm_num)]
    norm_num
  have hx : Dbl.mul (Dbl.fin (1871996245110337 / 2251799813685248)) (Dbl.fin 1000) =
      Dbl.fin (3656242666231127 / 4398046511104) := by
    rw [Dbl.mul_fin,
      Dbl.round64_eval _ (9) 7312485332462254 (by norm_num) (by norm_num) (by norm_num)
        (by norm_num) (by norm_num) (by norm_num) (by norm_num)]
    norm_num
  have hl : Dbl.lt (Dbl.fin (2817001566920245 / 1125899906842624))
      (Dbl.fin (7505999378950827 / 2251799813685248)) = true := by
    show decide ((2817001566920245 / 1125899906842624 : ℚ) <
      7505999378950827 / 2251799813685248) = true
    exact decide_eq_true (by norm_num)
  unfold throttle
  simp only [ht, he, hl, hd, hx, if_true]
  rw [Dbl.toDWORD_fin _ _ (by norm_num) (by norm_num)]
  have : ⌊(3656242666231127 / 4398046511104 : ℚ)⌋ = 831 := by
    rw [Int.floor_eq_iff]
    norm_num
  rw [this]
  rfl

theorem throttle_example_5 :
    throttle twoMsEnv.castOutOfRange (Dbl.fin (5404319552844595 / 4294967296)) 5242880
      (duration_seconds 0 3335000000) = some 831 := by
  have ht : duration_seconds 0 3335000000 =
      Dbl.fin (3754876189320151 / 1125899906842624) := by
    unfold duration_seconds
    have h0 : Dbl.ofNat (3335000000 - 0) = Dbl.fin 3335000000 := by
      have := Dbl.ofNat_of_lt 3335000000 (by norm_num)
      exact_mod_cast this
    rw [h0, Dbl.div_fin _ _ (by norm_num),
      Dbl.round64_eval _ (1) 7509752378640302 (by norm_num) (by norm_num) (by norm_num)
        (by norm_num) (by norm_num) (by norm_num) (by norm_num)]
    norm_num
  have he : Dbl.div (Dbl.ofNat 5242880) (Dbl.fin (5404319552844595 / 4294967296)) =
      Dbl.fin (4691249611844267 / 1125899906842624) := by
    have h0 : Dbl.ofNat 5242880 = Dbl.fin 5242880 := by
      have := Dbl.ofNat_of_lt 5242880 (by norm_num)
      exact_mod_cast this
    rw [h0, Dbl.div_fin _ _ (by norm_num),
      Dbl.round64_eval _ (2) 4691249611844267 (by norm_num) (by norm_num) (by norm_num)
        (by norm_num) (by norm_num) (by norm_num) (by norm_num)]
    norm_num
  have hd : Dbl.sub (Dbl.fin (4691249611844267 / 1125899906842624))
      (Dbl.fin (3754876189320151 / 1125899906842624)) =
      Dbl.fin (234093355631029 / 281474976710656) := by
    rw [Dbl.sub_fin,
      Dbl.round64_eval _ (-1) 7490987380192928 (by norm_num) (by norm_num) (by norm_num)
        (by norm_num) (by norm_num) (by norm_num) (by norm_num)]
    norm_num
  have hx : Dbl.mul (Dbl.fin (234093355631029 / 281474976710656)) (Dbl.fin 1000) =
      Dbl.fin (914427170433707 / 1099511627776) := by
    rw [Dbl.mul_fin,
      Dbl.round64_eval _ (9) 7315417363469656 (by norm_num) (by norm_num) (by norm_num)
        (by norm_num) (by norm_num) (by norm_num) (by norm_num)]
    norm_num
  have hl : Dbl.lt (Dbl.fin (3754876189320151 / 1125899906842624))
      (Dbl.fin (4691249611844267 / 1125899906842624)) = true := by
    show decide ((3754876189320151 / 1125899906842624 : ℚ) <
      4691249611844267 / 1125899906842624) = true
    exact decide_eq_true (by norm_num)
  unfold throttle
  simp only [ht, he, hl, hd, hx, if_true]
  rw [Dbl.toDWORD_fin _ _ (by norm_num) (by norm_num)]
  have : ⌊(914427170433707 / 1099511627776 : ℚ)⌋ = 831 := by
    rw [Int.floor_eq_iff]
    norm_num
  rw [this]
  rfl

theorem throttle_example_6 :
    throttle twoMsEnv.castOutOfRange (Dbl.fin (5404319552844595 / 4294967296)) 6291456
      (duration_seconds 0 4168000000) = some 831 := by
  have ht : duration_seconds 0 4168000000 =
      Dbl.fin (4692750811720057 / 1125899906842624) := by
    unfold duration_seconds
    have h0 : Dbl.ofNat (4168000000 - 0) = Dbl.fin 4168000000 := by
      have := Dbl.ofNat_of_lt 4168000000 (by norm_num)
      exact_mod_cast this
    rw [h0, Dbl.div_fin _ _ (by norm_num),
      Dbl.round64_eval _ (2) 4692750811720057 (by norm_num) (by norm_num) (by norm_num)
        (by norm_num) (by norm_num) (by norm_num) (by norm_num)]
    norm_num
  have he : Dbl.div (Dbl.ofNat 6291456) (Dbl.fin (5404319552844595 / 4294967296)) =
      Dbl.fin (5) := by
    have h0 : Dbl.ofNat 6291456 = Dbl.fin 6291456 := by
      have := Dbl.ofNat_of_lt 6291456 (by norm_num)
      exact_mod_cast this
    rw [h0, Dbl.div_fin _ _ (by norm_num),
      Dbl.round64_eval _ (2) 5629499534213120 (by norm_num) (by norm_num) (by norm_num)
        (by norm_num) (by norm_num) (by norm_num) (by norm_num)]
    norm_num
  have hd : Dbl.sub (Dbl.fin (5))
      (Dbl.fin (4692750811720057 / 1125899906842624)) =
      Dbl.fin (936748722493063 / 1125899906842624) := by
    rw [Dbl.sub_fin,
      Dbl.round64_eval _ (-1) 7493989779944504 (by norm_num) (by norm_num) (by norm_num)
        (by norm_num) (by norm_num) (by norm_num) (by norm_num)]
    norm_num
  have hx : Dbl.mul (Dbl.fin (936748722493063 / 1125899906842624)) (Dbl.fin 1000) =
      Dbl.fin (7318349394477055 / 8796093022208) := by
    rw [Dbl.mul_fin,
      Dbl.round64_eval _ (9) 7318349394477055 (by norm_num) (by norm_num) (by norm_num)
        (by norm_num) (by norm_num) (by norm_num) (by norm_num)]
    norm_num
  have hl : Dbl.lt (Dbl.fin (4692750811720057 / 1125899906842624))
      (Dbl.fin (5)) = true := by
    show decide ((4692750811720057 / 1125899906842624 : ℚ) <
      5) = true
    exact decide_eq_true (by norm_num)
  unfold throttle
  simp only [ht, he, hl, hd, hx, if_true]
  rw [Dbl.toDWORD_fin _ _ (by norm_num) (by norm_num)]
  have : ⌊(7318349394477055 / 8796093022208 : ℚ)⌋ = 831 := by
    rw [Int.floor_eq_iff]
    norm_num
  rw [this]
  rfl

/-- The run at 1.2 MB/s of a source of 6 MiB through a buffer of 1 MiB, every
chunk being read and written in 2 ms: the bytes copied, the argument of Sleep
and the clock at the end of each iteration.  The sixth request is 831 ms, one
below the 832 ms of the exact time ahead of schedule. -/
theorem rounded_run_log :
    (copy_file_with_rate twoMsEnv 0 sixMibFs "source.bin" "copy.bin"
        (Dbl.fin (5404319552844595 / 4503599627370496)) 1048576).log.map
      (fun e => (e.copied, e.sleep_ms, e.end_time)) =
      [(1048576, some 831, 833000000),
       (2097152, some 831, 1666000000),
       (3145728, some 832, 2500000000),
       (4194304, some 831, 3333000000),
       (5242880, some 831, 4166000000),
       (6291456, some 831, 4999000000)] := by
  have hs : sixMibFs.opensForReading "source.bin" = true := by
    simp [FileSys.opensForReading, sixMibFs]
  have hd : sixMibFs.canWrite "copy.bin" = true := rfl
  have hc : (sixMibFs.put "copy.bin" []).contents "source.bin" = zeroBytes 6291456 := by
    simp [FileSys.put, FileSys.contents, sixMibFs]
  have hsizes : chunk_sizes 6291456 1048576 =
      [1048576, 1048576, 1048576, 1048576, 1048576, 1048576] := by
    simp [chunk_sizes, List.replicate]
  rw [copy_file_with_rate_open _ _ _ _ _ _ _ hs hd, max_speed_example, hc,
    (copy_loop_from_start twoMsEnv _ 1048576 0 (by decide) _ rfl rfl).2.2.2.2.2,
    zeroBytes_length, hsizes]
  rw [
    timeline_cons_eval twoMsEnv _ 0 0 (0 + twoMsEnv.setup) 0 1048576
      [1048576, 1048576, 1048576, 1048576, 1048576]
      (some 831) 2000000 1048576 833000000 1 throttle_example_1 rfl rfl rfl rfl,
    timeline_cons_eval twoMsEnv _ 0 1048576 833000000 1 1048576
      [1048576, 1048576, 1048576, 1048576]
      (some 831) 835000000 2097152 1666000000 2 throttle_example_2 rfl rfl rfl rfl,
    timeline_cons_eval twoMsEnv _ 0 2097152 1666000000 2 1048576
      [1048576, 1048576, 1048576]
      (some 832) 1668000000 3145728 2500000000 3 throttle_example_3 rfl rfl rfl rfl,
    timeline_cons_eval twoMsEnv _ 0 3145728 2500000000 3 1048576
      [1048576, 1048576]
      (some 831) 2502000000 4194304 3333000000 4 throttle_example_4 rfl rfl rfl rfl,
    timeline_cons_eval twoMsEnv _ 0 4194304 3333000000 4 1048576
      [1048576]
      (some 831) 3335000000 5242880 4166000000 5 throttle_example_5 rfl rfl rfl rfl,
    timeline_cons_eval twoMsEnv _ 0 5242880 4166000000 5 1048576
      []
      (some 831) 4168000000 6291456 4999000000 6 throttle_example_6 rfl rfl rfl rfl]
  rfl

end Copy2

/-- In binary64 the bound `copied ≤ C * (elapsed + 1 ms)` does not hold even
with a buffer of less than one second of data.  In the run of
`Copy2.rounded_run_log` the rate is the `double` nearest to 1.2, just below
it, so 6 MiB are due slightly after 5 s; the sixth iteration is 832 ms and a
fraction ahead of schedule, the `double` that is truncated is just below 832,
and the iteration ends 4.999 s after the start with 6 MiB copied. -/
theorem rounding_breaks_exact_bound :
    Dbl.mul (Dbl.mul (Dbl.fin (5404319552844595 / 4503599627370496)) (Dbl.fin 1024))
        (Dbl.fin 1024) =
      Dbl.fin (5404319552844595 / 4294967296) ∧
    ((1048576 : ℕ) : ℚ) ≤ 5404319552844595 / 4294967296 ∧
    ∃ e ∈ (Copy2.copy_file_with_rate twoMsEnv 0 sixMibFs "source.bin" "copy.bin"
        (Dbl.fin (5404319552844595 / 4503599627370496)) 1048576).log,
      e.copied = 6291456 ∧ seconds 0 e.end_time = 4999 / 1000 ∧
      (5404319552844595 / 4294967296 : ℚ) * (seconds 0 e.end_time + 1 / 1000) < (e.copied : ℚ) := by
  refine ⟨Copy2.max_speed_example, by norm_num, ?_⟩
  have hm : (6291456, some 831, 4999000000) ∈
      (Copy2.copy_file_with_rate twoMsEnv 0 sixMibFs "source.bin" "copy.bin"
        (Dbl.fin (5404319552844595 / 4503599627370496)) 1048576).log.map
      (fun e => (e.copied, e.sleep_ms, e.end_time)) := by
    rw [Copy2.rounded_run_log]
    simp
  obtain ⟨e, he, hf⟩ := List.mem_map.mp hm
  simp only [Prod.mk.injEq] at hf
  obtain ⟨h1, -, h3⟩ := hf
  refine ⟨e, he, h1, ?_, ?_⟩
  · rw [h3]
    norm_num [seconds]
  · rw [h1, h3]
    norm_num [seconds]

/-! ## Failures of copy2.cpp -/

/-- Claim C4, evaluated on the code.  The source `missing.bin` does not exist.
`copy_file_with_rate` throws the open-source error, but the destination
stream was constructed before the source was tested: the existing file
`copy.bin` (three bytes) is truncated to zero bytes, and a destination
`new.bin` that did not exist is created. -/
theorem destination_truncated_when_source_missing :
    existingCopyFs.opensForReading "missing.bin" = false ∧
    existingCopyFs.files "copy.bin" = some [7, 8, 9] ∧
    (Copy2.copy_file_with_rate steadyEnv 0 existingCopyFs "missing.bin" "copy.bin"
        (Dbl.fin 50) 1048576).value = Except.error Copy2.CopyError.open_source ∧
    (Copy2.copy_file_with_rate steadyEnv 0 existingCopyFs "missing.bin" "copy.bin"
        (Dbl.fin 50) 1048576).fs.files "copy.bin" = some [] ∧
    existingCopyFs.files "new.bin" = none ∧
    (Copy2.copy_file_with_rate steadyEnv 0 existingCopyFs "missing.bin" "new.bin"
        (Dbl.fin 50) 1048576).value = Except.error Copy2.CopyError.open_source ∧
    (Copy2.copy_file_with_rate steadyEnv 0 existingCopyFs "missing.bin" "new.bin"
        (Dbl.fin 50) 1048576).fs.files "new.bin" = some [] := by
  have hs : existingCopyFs.opensForReading "missing.bin" = false := by
    simp [FileSys.opensForReading, existingCopyFs]
  refine ⟨hs, by simp [existingCopyFs], ?_, ?_, by simp [existingCopyFs], ?_, ?_⟩
  · rw [Copy2.copy_file_with_rate_no_source _ _ _ _ _ _ _ hs]
  · rw [Copy2.copy_file_with_rate_no_source _ _ _ _ _ _ _ hs]
    simp [existingCopyFs, FileSys.put]
  · rw [Copy2.copy_file_with_rate_no_source _ _ _ _ _ _ _ hs]
  · rw [Copy2.copy_file_with_rate_no_source _ _ _ _ _ _ _ hs]
    simp [existingCopyFs, FileSys.put]

/-- Claim C5, evaluated on the code.  The source holds three bytes and the
device faults when the second byte is requested.  The first read delivers one
byte, which is written; the next read delivers nothing and the loop takes this
for the end of the file: `copy_file_with_rate` returns `true`, and the
destination holds one byte of the three. -/
theorem read_fault_reported_as_success :
    smallFs.files "source.bin" = some [1, 2, 3] ∧
    faultyEnv.readFault = some 1 ∧
    (Copy2.copy_file_with_rate faultyEnv 0 smallFs "source.bin" "copy.bin"
        (Dbl.fin 50) 4096).value = Except.ok true ∧
    (Copy2.copy_file_with_rate faultyEnv 0 smallFs "source.bin" "copy.bin"
        (Dbl.fin 50) 4096).fs.files "copy.bin" = some [1] := by
  have hs : smallFs.opensForReading "source.bin" = true := by
    simp [FileSys.opensForReading, smallFs]
  have hd : smallFs.canWrite "copy.bin" = true := rfl
  have hc : (smallFs.put "copy.bin" []).contents "source.bin" = [1, 2, 3] := by
    simp [FileSys.put, FileSys.contents, smallFs]
  have h1 : ((Copy2.start_state faultyEnv 0 [1, 2, 3]).inp.read 4096).1.gcount = 1 := by
    simp [Copy2.start_state, IStream.read, IStream.opened, IStream.good, IStream.limit,
      faultyEnv]
  have h2 : ((Copy2.start_state faultyEnv 0 [1, 2, 3]).out.write
      ((Copy2.start_state faultyEnv 0 [1, 2, 3]).inp.read 4096).2).bad = false := by
    simp [Copy2.start_state, OStream.write, OStream.opened, faultyEnv]
  have h3 : ∀ ms, ((Copy2.next_state faultyEnv ms 4096 0
      (Copy2.start_state faultyEnv 0 [1, 2, 3])).inp.read 4096).1.gcount = 0 := by
    intro ms
    simp [Copy2.next_state, Copy2.start_state, IStream.read, IStream.opened, IStream.good,
      IStream.limit, IStream.faultsAtLimit, faultyEnv]
  have hw : ∀ ms, (Copy2.next_state faultyEnv ms 4096 0
      (Copy2.start_state faultyEnv 0 [1, 2, 3])).out.written = [1] := by
    intro ms
    simp [Copy2.next_state, Copy2.start_state, IStream.read, IStream.opened, IStream.good,
      IStream.limit, OStream.write, OStream.opened, faultyEnv]
  refine ⟨by simp [smallFs], rfl, ?_, ?_⟩
  · rw [Copy2.copy_file_with_rate_open _ _ _ _ _ _ _ hs hd, hc,
      Copy2.copy_loop_step _ _ _ _ _ (by rw [h1]; decide) h2,
      Copy2.copy_loop_stop _ _ _ _ _ (h3 _)]
  · rw [Copy2.copy_file_with_rate_open _ _ _ _ _ _ _ hs hd, hc,
      Copy2.copy_loop_step _ _ _ _ _ (by rw [h1]; decide) h2,
      Copy2.copy_loop_stop _ _ _ _ _ (h3 _)]
    simp [FileSys.put, hw]

/-! ## The argument check of copy2.cpp -/

namespace Copy2

theorem copy_file_with_rate_clean (env : Env) (t0 : Nat) (fs : FileSys) (src dst : String)
    (rate : Dbl) (B : Nat) (hs : fs.opensForReading src = true) (hd : fs.canWrite dst = true)
    (hne : src ≠ dst) (hr : env.readFault = none) (hw : env.writeRoom = none) (hB : 0 < B) :
    (copy_file_with_rate env t0 fs src dst rate B).value = Except.ok true ∧
    (copy_file_with_rate env t0 fs src dst rate B).fs.files dst = some (fs.contents src) := by
  have hc : (fs.put dst []).contents src = fs.contents src := by
    simp [FileSys.put, FileSys.contents, hne]
  obtain ⟨h1, h2, -⟩ := copy_loop_from_start env
    (Dbl.mul (Dbl.mul rate (Dbl.fin 1024)) (Dbl.fin 1024)) B t0 hB (fs.contents src) hr hw
  rw [copy_file_with_rate_open env t0 fs src dst rate B hs hd, hc]
  simp [h1, h2, FileSys.put]

theorem main_rejected (wcstod : String → Dbl) (wcstoull : String → Nat) (size_bits : Nat)
    (env : Env) (t0 : Nat) (fs : FileSys) (args : List String) (h : 3 ≤ args.length)
    (hrej : rejects (parse_rate wcstod args) (parse_buffer wcstoull size_bits args) = true) :
    main wcstod wcstoull size_bits env t0 fs (some args) =
      { exit_code := 2, caught := some MainException.invalid_argument,
        called := none, fs := fs, log := [] } := by
  have h3 : ¬ args.length < 3 := by omega
  simp [main, h3, hrej]

theorem main_accepted (wcstod : String → Dbl) (wcstoull : String → Nat) (size_bits : Nat)
    (env : Env) (t0 : Nat) (fs : FileSys) (args : List String) (h : 3 ≤ args.length)
    (hacc : rejects (parse_rate wcstod args) (parse_buffer wcstoull size_bits args) = false) :
    (main wcstod wcstoull size_bits env t0 fs (some args)).called =
      some (args.getD 1 "", args.getD 2 "", parse_rate wcstod args,
        parse_buffer wcstoull size_bits args) ∧
    (main wcstod wcstoull size_bits env t0 fs (some args)).log =
      (copy_file_with_rate env t0 fs (args.getD 1 "") (args.getD 2 "")
        (parse_rate wcstod args) (parse_buffer wcstoull size_bits args)).log ∧
    ((copy_file_with_rate env t0 fs (args.getD 1 "") (args.getD 2 "")
        (parse_rate wcstod args) (parse_buffer wcstoull size_bits args)).value = Except.ok true →
      (main wcstod wcstoull size_bits env t0 fs (some args)).exit_code = 0) := by
  have h3 : ¬ args.length < 3 := by omega
  simp only [main, h3, if_false, hacc, Bool.false_eq_true]
  refine ⟨?_, ?_, ?_⟩
  · split <;> rfl
  · split <;> rfl
  · intro hv
    rw [hv]

/-- Away from NaN the test of line 113 lets through exactly the rates above
zero with a buffer of at least 4096 bytes. -/
theorem rejects_eq_false_iff (rate : Dbl) (buffer : Nat) (hnan : rate ≠ Dbl.nan) :
    rejects rate buffer = false ↔ (Dbl.lt (Dbl.fin 0) rate = true ∧ 4096 ≤ buffer) := by
  cases rate with
  | nan => exact absurd rfl hnan
  | negInf => simp [rejects, Dbl.le, Dbl.lt]
  | posInf => simp [rejects, Dbl.le, Dbl.lt]
  | fin q => simp [rejects, Dbl.le, Dbl.lt]

theorem rejects_boundary :
    rejects (Dbl.fin 50) 4096 = false ∧ rejects (Dbl.fin 50) 4095 = true := by
  constructor <;> simp [rejects, Dbl.le]

/-- A rate that passes the test as a number above zero, and in the normal
range of `double` when it is finite, gives a ceiling in bytes per second that
is above zero. -/
theorem max_speed_pos (rate : Dbl) (h : Dbl.lt (Dbl.fin 0) rate = true)
    (hnormal : ∀ q, rate = Dbl.fin q → (2 : ℚ) ^ (-1022 : ℤ) ≤ q) :
    Dbl.lt (Dbl.fin 0) (Dbl.mul (Dbl.mul rate (Dbl.fin 1024)) (Dbl.fin 1024)) = true := by
  cases rate with
  | nan => simp [Dbl.lt] at h
  | negInf => simp [Dbl.lt] at h
  | posInf => norm_num [Dbl.mul, Dbl.infOfSign, Dbl.lt]
  | fin q =>
    have hq := hnormal q rfl
    have hq0 : (0 : ℚ) < q := lt_of_lt_of_le (by positivity) hq
    rw [Dbl.mul_fin]
    rcases Dbl.round64_normal (q * 1024) (by linarith) with ⟨hinf, -⟩ | ⟨y, hy, hl, -⟩
    · rw [hinf]
      norm_num [Dbl.mul, Dbl.infOfSign, Dbl.lt]
    · rw [hy, Dbl.mul_fin]
      have hy1 : q ≤ y := by linarith
      rcases Dbl.round64_normal (y * 1024) (by linarith) with ⟨hinf, -⟩ | ⟨z, hz, hl2, -⟩
      · rw [hinf]
        rfl
      · rw [hz]
        have : 0 < z := by linarith
        simp [Dbl.lt, this]

theorem throttle_nan (oor : Dbl → Nat) (n : Nat) (t : Dbl) :
    throttle oor (Dbl.mul (Dbl.mul Dbl.nan (Dbl.fin 1024)) (Dbl.fin 1024)) n t = none := by
  show throttle oor Dbl.nan n t = none
  unfold throttle
  simp only [Dbl.div_nan_right, Dbl.lt_nan_right]
  rfl

end Copy2

/-- Claim C8, evaluated on the code.  Called with the rate argument `nan`,
`main` of copy2.cpp parses a NaN, for which `rate <= 0` is false: the test of
line 113 does not reject it, although the rate is not above zero, and
`copy_file_with_rate` is called with the default buffer of 1 MiB.  The copy
runs to the end with exit code 0, and since every comparison with the NaN
ceiling is false no iteration calls Sleep. -/
theorem nan_rate_accepted :
    wcstodSample "nan" = Dbl.nan ∧
    Dbl.lt (Dbl.fin 0) Dbl.nan = false ∧
    (Copy2.main wcstodSample wcstoullSample 64 steadyEnv 0 smallFs
        (some ["copy2.exe", "source.bin", "copy.bin", "nan"])).called =
      some ("source.bin", "copy.bin", Dbl.nan, 1048576) ∧
    (Copy2.main wcstodSample wcstoullSample 64 steadyEnv 0 smallFs
        (some ["copy2.exe", "source.bin", "copy.bin", "nan"])).exit_code = 0 ∧
    (∀ e ∈ (Copy2.main wcstodSample wcstoullSample 64 steadyEnv 0 smallFs
        (some ["copy2.exe", "source.bin", "copy.bin", "nan"])).log, e.sleep_ms = none) := by
  have hrate : Copy2.parse_rate wcstodSample ["copy2.exe", "source.bin", "copy.bin", "nan"]
      = Dbl.nan := by
    simp [Copy2.parse_rate, wcstodSample]
  have hbuf : Copy2.parse_buffer wcstoullSample 64
      ["copy2.exe", "source.bin", "copy.bin", "nan"] = 1048576 := by
    simp [Copy2.parse_buffer]
  have hacc : Copy2.rejects
      (Copy2.parse_rate wcstodSample ["copy2.exe", "source.bin", "copy.bin", "nan"])
      (Copy2.parse_buffer wcstoullSample 64 ["copy2.exe", "source.bin", "copy.bin", "nan"])
      = false := by
    rw [hrate, hbuf]
    simp [Copy2.rejects, Dbl.le]
  obtain ⟨hcalled, hlog, hexit⟩ := Copy2.main_accepted wcstodSample wcstoullSample 64
    steadyEnv 0 smallFs ["copy2.exe", "source.bin", "copy.bin", "nan"] (by decide) hacc
  rw [hrate, hbuf] at hcalled hlog hexit
  have hs : smallFs.opensForReading "source.bin" = true := by
    simp [FileSys.opensForReading, smallFs]
  refine ⟨by simp [wcstodSample], rfl, ?_, ?_, ?_⟩
  · rw [hcalled]
    rfl
  · apply hexit
    exact (Copy2.copy_file_with_rate_clean steadyEnv 0 smallFs "source.bin" "copy.bin" Dbl.nan
      1048576 hs rfl (by decide) rfl rfl (by decide)).1
  · intro e he
    rw [hlog] at he
    rcases Copy2.copy_file_with_rate_log steadyEnv 0 smallFs "source.bin" "copy.bin" Dbl.nan
      1048576 with h | h
    · change e ∈ (Copy2.copy_file_with_rate steadyEnv 0 smallFs "source.bin" "copy.bin" Dbl.nan
        1048576).log at he
      rw [h] at he
      simp at he
    · change e ∈ (Copy2.copy_file_with_rate steadyEnv 0 smallFs "source.bin" "copy.bin" Dbl.nan
        1048576).log at he
      rw [h] at he
      obtain ⟨copied, clock, iter, count, rfl⟩ := Copy2.log_shape _ _ _ _ _ e he
      simp only [Copy2.after_write]
      exact Copy2.throttle_nan _ _ _

/-! ## The two throttling rules -/

namespace FileCopyCpp

/-- The speed limit block for a chunk of 1 MiB at a ceiling of 1 MB/s: the
ideal time is one second, every value being a binary64 number. -/
theorem speed_limit_one_mib (oor : Dbl → Nat) (d : Nat) (hd : d / 1000 < 9007199254740992) :
    speed_limit oor (Dbl.fin 1) 1048576 d =
      { duration_us := d / 1000,
        ideal_time := Dbl.fin 1000000,
        sleep_us :=
          if ((d / 1000 : ℕ) : ℚ) < 1000000 then
            some (Dbl.toInt32 oor (Dbl.sub (Dbl.fin 1000000) (Dbl.fin ((d / 1000 : ℕ) : ℚ))))
          else none } := by
  have hrate : Dbl.mul (Dbl.mul (Dbl.fin 1) (Dbl.fin 1024)) (Dbl.fin 1024) =
      Dbl.fin 1048576 := by
    have := Dbl.mul_mbps 1 (by norm_num)
    norm_num at this
    exact this
  have hn : Dbl.ofNat 1048576 = Dbl.fin 1048576 := by
    have := Dbl.ofNat_of_lt 1048576 (by norm_num)
    exact_mod_cast this
  have hq : Dbl.div (Dbl.fin 1048576) (Dbl.fin 1048576) = Dbl.fin 1 := by
    rw [Dbl.div_fin _ _ (by norm_num), Dbl.round64_of_natCast _ 1 (by norm_num) (by norm_num)]
    norm_num
  have hi : Dbl.mul (Dbl.fin 1) (Dbl.fin 1000000) = Dbl.fin 1000000 := by
    rw [Dbl.mul_fin, Dbl.round64_of_natCast _ 1000000 (by norm_num) (by norm_num)]
    norm_num
  unfold speed_limit
  simp only [hn, hrate, hq, hi, Dbl.ofNat_of_lt (d / 1000) hd]
  congr 1
  by_cases h : ((d / 1000 : ℕ) : ℚ) < 1000000
  · rw [if_pos h, if_pos]
    show decide (((d / 1000 : ℕ) : ℚ) < 1000000) = true
    exact decide_eq_true h
  · rw [if_neg h, if_neg]
    show ¬ decide (((d / 1000 : ℕ) : ℚ) < 1000000) = true
    simp [h]

theorem timeline_two_summary (env : Env) (silent : Bool) (r : ℚ) (hr : 0 < r)
    (total copied clock iter n1 n2 : Nat) :
    (timeline env silent (Dbl.fin r) total copied clock iter [n1, n2]).map
      (fun e => (e.bytes_read, e.end_time - e.start_time,
        e.throttle.bind (fun t => t.sleep_us))) =
    [(n1, env.rw iter,
        (speed_limit env.castOutOfRange (Dbl.fin r) n1 (env.rw iter)).sleep_us),
     (n2, env.rw (iter + 1),
        (speed_limit env.castOutOfRange (Dbl.fin r) n2 (env.rw (iter + 1))).sleep_us)] := by
  simp [timeline, transfer, Dbl.lt, hr]

theorem main_run (stod : String → Dbl) (env : Env) (t0 : Nat) (fs : FileSys)
    (argv : List String) (opts : Options) (source_path dest_path : String)
    (hopts : parse_options stod false (Dbl.fin (-1)) argv.tail = some opts)
    (hrest : opts.rest = [source_path, dest_path])
    (hs : fs.opensForReading source_path = true) (hd : fs.canWrite dest_path = true) :
    (main stod env t0 fs argv).log =
      (copy_loop env opts.silent_mode opts.max_speed (fs.contents source_path).length
        (start_state env t0 ((fs.put dest_path []).contents source_path))).log := by
  unfold main
  rw [hopts]
  simp only [hrest, hs, hd, Bool.not_true, Bool.false_eq_true, if_false]

end FileCopyCpp

/-- Claim C10.  The two rules are not equivalent.  A file of 2 MiB is copied
by both programs at a ceiling of 1 MB/s through buffers of 1 MiB; the first
chunk takes five seconds to read and write, the second a tenth of a second.
For the second chunk copy2.cpp, which compares the cumulative bytes with the
time since the start, does not sleep (2 MiB are due after 2 s and 5.1 s have
passed), while file_copy.cpp, which compares the chunk with its own duration,
asks for a sleep of 900000 microseconds. -/
theorem throttling_rules_differ :
    (Copy2.copy_file_with_rate slowFirstEnv 0 twoChunkFs "source.bin" "copy.bin"
        (Dbl.fin 1) 1048576).log.map
      (fun e => (e.count, e.current_time - e.chunk_start, e.sleep_ms)) =
      [(1048576, 5000000000, none), (1048576, 100000000, none)] ∧
    (FileCopyCpp.main wcstodSample slowFirstEnv 0 twoChunkFs
        ["file_copy.exe", "-M", "1", "source.bin", "copy.bin"]).log.map
      (fun e => (e.bytes_read, e.end_time - e.start_time,
        e.throttle.bind (fun t => t.sleep_us))) =
      [(1048576, 5000000000, none), (1048576, 100000000, some 900000)] := by
  have hs : twoChunkFs.opensForReading "source.bin" = true := by
    simp [FileSys.opensForReading, twoChunkFs]
  have hd : twoChunkFs.canWrite "copy.bin" = true := rfl
  have hc : (twoChunkFs.put "copy.bin" []).contents "source.bin" = zeroBytes 2097152 := by
    simp [FileSys.put, FileSys.contents, twoChunkFs]
  have hc0 : twoChunkFs.contents "source.bin" = zeroBytes 2097152 := by
    simp [FileSys.contents, twoChunkFs]
  have hsizes : chunk_sizes 2097152 1048576 = [1048576, 1048576] := by
    simp [chunk_sizes, List.replicate]
  constructor
  · have hrate : Dbl.mul (Dbl.mul (Dbl.fin 1) (Dbl.fin 1024)) (Dbl.fin 1024) =
        Dbl.fin 1048576 := by
      have := Dbl.mul_mbps 1 (by norm_num)
      norm_num at this
      exact this
    rw [Copy2.copy_file_with_rate_open _ _ _ _ _ _ _ hs hd, hrate, hc,
      (Copy2.copy_loop_from_start slowFirstEnv _ 1048576 0 (by decide) _ rfl rfl).2.2.2.2.2,
      zeroBytes_length, hsizes]
    have h1 : Copy2.throttle slowFirstEnv.castOutOfRange (Dbl.fin 1048576) 1048576
        (duration_seconds 0 5000000000) = none := by
      have hsec : seconds 0 5000000000 = 5 := by norm_num [seconds]
      rcases duration_seconds_cases 0 5000000000 (by norm_num) with
        ⟨hinf, -⟩ | ⟨th, hth, hth0, hthl, -⟩
      · unfold Copy2.throttle
        simp only [hinf, Dbl.lt_posInf_left]
        rfl
      · rw [hsec] at hthl
        rw [hth]
        apply Copy2.throttle_eq_none _ 1048576 (by norm_num) 1048576 (by norm_num) th hth0
          (by norm_num)
        norm_num
        linarith
    have h2 : Copy2.throttle slowFirstEnv.castOutOfRange (Dbl.fin 1048576) 2097152
        (duration_seconds 0 5100000000) = none := by
      have hsec : seconds 0 5100000000 = 51 / 10 := by norm_num [seconds]
      rcases duration_seconds_cases 0 5100000000 (by norm_num) with
        ⟨hinf, -⟩ | ⟨th, hth, hth0, hthl, -⟩
      · unfold Copy2.throttle
        simp only [hinf, Dbl.lt_posInf_left]
        rfl
      · rw [hsec] at hthl
        rw [hth]
        apply Copy2.throttle_eq_none _ 1048576 (by norm_num) 2097152 (by norm_num) th hth0
          (by norm_num)
        norm_num
        linarith
    have e0 : slowFirstEnv.rw 0 = 5000000000 := rfl
    have e1 : slowFirstEnv.rw (0 + 1) = 100000000 := rfl
    have h1e : Copy2.throttle slowFirstEnv.castOutOfRange (Dbl.fin 1048576) (0 + 1048576)
        (duration_seconds 0 (0 + slowFirstEnv.rw 0)) = none := by
      rw [e0]
      exact h1
    have hclock : (Copy2.after_write slowFirstEnv (Dbl.fin 1048576) 0 0 0 0 1048576).2 =
        5000000000 := by
      rw [Copy2.after_write_clock _ _ _ _ _ _ _ none h1e, e0]
      rfl
    have h2e : Copy2.throttle slowFirstEnv.castOutOfRange (Dbl.fin 1048576)
        (0 + 1048576 + 1048576)
        (duration_seconds 0 (5000000000 + slowFirstEnv.rw (0 + 1))) = none := by
      rw [e1]
      exact h2
    show [(Copy2.after_write slowFirstEnv (Dbl.fin 1048576) 0 0 0 0 1048576).1,
      (Copy2.after_write slowFirstEnv (Dbl.fin 1048576) 0 (0 + 1048576)
        (Copy2.after_write slowFirstEnv (Dbl.fin 1048576) 0 0 0 0 1048576).2 (0 + 1)
        1048576).1].map
      (fun e => (e.count, e.current_time - e.chunk_start, e.sleep_ms)) = _
    rw [hclock,
      Copy2.after_write_of_sleep slowFirstEnv (Dbl.fin 1048576) 0 0 0 0 1048576 none h1e,
      Copy2.after_write_of_sleep slowFirstEnv (Dbl.fin 1048576) 0 (0 + 1048576) 5000000000
        (0 + 1) 1048576 none h2e, e0, e1]
    rfl
  · have hopts : FileCopyCpp.parse_options wcstodSample false (Dbl.fin (-1))
        (["file_copy.exe", "-M", "1", "source.bin", "copy.bin"] : List String).tail =
        some { silent_mode := false, max_speed := Dbl.fin 1,
               rest := ["source.bin", "copy.bin"] } := by
      simp [FileCopyCpp.parse_options, wcstodSample]
    rw [FileCopyCpp.main_run wcstodSample slowFirstEnv 0 twoChunkFs _ _ "source.bin" "copy.bin"
      hopts rfl hs hd, hc, hc0, zeroBytes_length,
      (FileCopyCpp.file_loop_from_start slowFirstEnv _ _ _ 0 _ rfl rfl).2.2.2,
      zeroBytes_length]
    have hB : FileCopyCpp.BUFFER_SIZE = 1048576 := by simp [FileCopyCpp.BUFFER_SIZE]
    rw [hB, hsizes]
    have h1 : (FileCopyCpp.speed_limit slowFirstEnv.castOutOfRange (Dbl.fin 1) 1048576
        5000000000).sleep_us = none := by
      rw [FileCopyCpp.speed_limit_one_mib _ _ (by norm_num)]
      simp only
      rw [if_neg (by norm_num)]
    have h2 : (FileCopyCpp.speed_limit slowFirstEnv.castOutOfRange (Dbl.fin 1) 1048576
        100000000).sleep_us = some 900000 := by
      rw [FileCopyCpp.speed_limit_one_mib _ _ (by norm_num)]
      simp only
      have hsub : Dbl.sub (Dbl.fin 1000000) (Dbl.fin ((100000000 / 1000 : ℕ) : ℚ)) =
          Dbl.fin 900000 := by
        rw [Dbl.sub_fin, Dbl.round64_of_natCast _ 900000 (by norm_num) (by norm_num)]
        norm_num
      rw [if_pos (by norm_num), hsub, Dbl.toInt32_fin _ _ (by norm_num) (by norm_num)]
      have : ⌊(900000 : ℚ)⌋ = 900000 := by
        rw [Int.floor_eq_iff]
        norm_num
      rw [this]
    have e0 : slowFirstEnv.rw 0 = 5000000000 := rfl
    have e1 : slowFirstEnv.rw (0 + 1) = 100000000 := rfl
    rw [FileCopyCpp.timeline_two_summary _ _ 1 (by norm_num), e0, e1, h1, h2]
end FileCopy
